import Mathlib

/-!
# eCAP adaptation transaction (`Adaptation::Ecap::XactionRep`)

A shallow embedding of `src/adaptation/ecap/XactionRep.cc`: the body-flow state
machine of one adaptation transaction.  Every member function of the class is a
state transformer in the `Job` monad below; a `Must(...)` that does not hold ends
the call with `Failure.mustFailed` and keeps the state reached so far, exactly as
the thrown exception leaves the object.

The collaborators whose code lives in other files (body pipe, message
representation, initiator, history) are small records; their operations are
marked `Modelled from the spec:`.

The directory of adapter services of `src/adaptation/ecap/ServiceRep.cc`
(`FindAdapterService`, `RegisterAdapterService`) is embedded as functions on a list.
-/

namespace Ecap

/-! ## Data model -/

/-- The `OperationState` enumeration of `XactionRep.h`, in declaration order. -/
inductive OperationState
  | opUndecided
  | opOn
  | opComplete
  | opNever
  deriving DecidableEq, Repr

/-- The integer value of an `OperationState` enumerator. -/
def OperationState.toNat : OperationState → Nat
  | .opUndecided => 0
  | .opOn => 1
  | .opComplete => 2
  | .opNever => 3

/-- The state change at the end of `forgetVb` (lines 191-194): `opUndecided` becomes
`opNever`, `opOn` becomes `opComplete`, the terminal states stay. -/
def OperationState.forgotten : OperationState → OperationState
  | .opUndecided => .opNever
  | .opOn => .opComplete
  | st => st

/-- Modelled from the spec: the Flow-Controlled Stream (`BodyPipe`), "an arena with an
explicit cursor (consumed-offset) per consumer and an append-only tail per producer".
`written` is everything the producer has put so far, `consumedSize` the consumer
cursor; `producing` and `consuming` say whether this transaction is the registered
producer, respectively consumer. -/
structure BodyPipe where
  written : List Nat
  consumedSize : Nat
  producing : Bool
  consuming : Bool
  autoConsumption : Bool
  productionEnded : Bool
  mayNeedMoreData : Bool
  deriving DecidableEq, Repr

/-- Modelled from the spec: the pipe a message is tied to, created with this
transaction as its producer and nothing written or consumed yet. -/
def BodyPipe.create : BodyPipe :=
  { written := [], consumedSize := 0, producing := true, consuming := false,
    autoConsumption := false, productionEnded := false, mayNeedMoreData := true }

/-- Modelled from the spec: the currently buffered bytes (`buf().content()`). -/
def BodyPipe.content (p : BodyPipe) : List Nat := p.written.drop p.consumedSize

/-- Modelled from the spec: the size of the currently buffered bytes. -/
def BodyPipe.contentSize (p : BodyPipe) : Nat := p.written.length - p.consumedSize

/-- Modelled from the spec: `stopProducing`, the producer leaves the stream. -/
def BodyPipe.clearProducer (p : BodyPipe) : BodyPipe :=
  { p with producing := false, productionEnded := true }

/-- Modelled from the spec: `stopConsuming`, the consumer leaves the stream. -/
def BodyPipe.clearConsumer (p : BodyPipe) : BodyPipe :=
  { p with consuming := false }

/-- Modelled from the spec: `registerConsumer`; the stream accepts a new consumer only
while nothing has been drained from it ("consumer registration too late" otherwise). -/
def BodyPipe.setConsumerIfNotLate (p : BodyPipe) : Bool × BodyPipe :=
  if 0 < p.consumedSize then (false, p) else (true, { p with consuming := true })

/-- Modelled from the spec: sinking a stream turns on draining of whatever arrives. -/
def BodyPipe.enableAutoConsumption (p : BodyPipe) : BodyPipe :=
  { p with autoConsumption := true }

/-- Modelled from the spec: `consume(n)` moves the consumer cursor by `n`. -/
def BodyPipe.consume (p : BodyPipe) (n : Nat) : BodyPipe :=
  { p with consumedSize := p.consumedSize + n }

/-- Modelled from the spec: `putData → bytesAccepted`.  `space` is the room the stream
has at the time of the call; the accepted bytes are the first `min size space` offered
ones and are appended to the tail. -/
def BodyPipe.putMoreData (p : BodyPipe) (data : List Nat) (space : Nat) : Nat × BodyPipe :=
  let used := min data.length space
  (used, { p with written := p.written ++ data.take used })

/-- The native message object (`HttpMsg`): identity, dynamic type, whether it is a copy
of another message, and the permanent `body_pipe` member. -/
structure HttpMsg where
  id : Nat
  isRequest : Bool
  cloneOf : Option Nat
  body_pipe : Option BodyPipe
  deriving DecidableEq, Repr

/-- Modelled from the spec: `HttpMsg::clone()`; "clone must carry its own independent
body-stream reference if the original had one". -/
def HttpMsg.clone (h : HttpMsg) : HttpMsg :=
  { h with cloneOf := some h.id }

/-- The pair `Adaptation::Message` keeps: the header and the working `body_pipe` pointer.
The working pointer, while set, refers to the header's pipe object; `attached` is false
once the pointer has been reset. -/
structure Message where
  header : HttpMsg
  attached : Bool
  deriving DecidableEq, Repr

/-- The object behind the working pointer `raw().body_pipe`, `none` when it is null. -/
def Message.body_pipe (m : Message) : Option BodyPipe :=
  if m.attached then m.header.body_pipe else none

/-- Write through the working pointer: replace the pipe object it refers to. -/
def Message.setPipe (m : Message) (p : BodyPipe) : Message :=
  { m with header := { m.header with body_pipe := some p } }

/-- Reset the working pointer (`pipe = NULL`), keeping the header's own reference. -/
def Message.resetPipe (m : Message) : Message :=
  { m with attached := false }

/-- The Message Representation (`MessageRep`): the wrapped message and whether a body
handle (`theBodyRep`) exists. -/
structure MessageRep where
  theMessage : Message
  theBodyRep : Bool
  deriving DecidableEq, Repr

/-- Modelled from the spec: `MessageRep(HttpMsg*)` wraps one native message; the
working pointer starts as the header's pipe and a body handle exists iff there is one. -/
def MessageRep.wrap (h : HttpMsg) : MessageRep :=
  { theMessage := { header := h, attached := h.body_pipe.isSome },
    theBodyRep := h.body_pipe.isSome }

/-- Modelled from the spec: the Adapter Transaction Handle of the module.  `abOutput`
is all adapted body the module has produced so far and `abCursor` its output cursor. -/
structure AdapterXaction where
  abOutput : List Nat
  abCursor : Nat
  deriving DecidableEq, Repr

/-- Modelled from the spec: `pullOutputBytes(0, all)`, the output not yet shifted. -/
def AdapterXaction.abContent (x : AdapterXaction) : List Nat := x.abOutput.drop x.abCursor

/-- Modelled from the spec: `shiftOutputCursor(n)`. -/
def AdapterXaction.abContentShift (x : AdapterXaction) (n : Nat) : AdapterXaction :=
  { x with abCursor := x.abCursor + n }

/-- What the transaction reports to its initiator (`Adaptation::Answer`). -/
inductive Answer
  | Forward (msg : HttpMsg)
  | Block (key : String)
  | Error (final : Bool)
  deriving DecidableEq, Repr

/-- Modelled from the spec: the adaptation history attached to the request; `started`
counts the recorded starts and `finished` lists the ids whose finish was recorded. -/
structure History where
  started : Nat
  finished : List Int
  deriving DecidableEq, Repr

/-- Calls the transaction makes on its collaborators, in the order made. -/
inductive Effect
  | sendAnswer (a : Answer)
  | masterStart
  | masterStop
  | abMake
  | abStopMaking
  | abContentShift (n : Nat)
  | noteVbContentAvailable
  | noteVbContentDone (atEnd : Bool)
  | stopProducingFor (atEof : Bool)
  | stopConsumingFrom
  | putMoreData (accepted : List Nat)
  | enableAutoConsumption
  | tieBody
  | recordXactStart (id : Int)
  | recordXactFinish (id : Int)
  | mustStop (reason : String)
  deriving DecidableEq, Repr

/-- The members of `XactionRep`, the inherited `AsyncJob` / `Initiate` state it reads
(`stopReason`, `theInitiator`), the request's history, and the trace of calls made.
`theService` is never null (the service passes itself, `ServiceRep.cc` line 105) and is
represented by its configuration key, all that `service().cfg().key` reads of it. -/
structure XactionRep where
  theMaster : Option AdapterXaction
  serviceKey : String
  theVirginRep : MessageRep
  theCauseRep : Option MessageRep
  theAnswerRep : Option MessageRep
  makingVb : OperationState
  proxyingAb : OperationState
  adaptHistoryId : Int
  vbProductionFinished : Bool
  abProductionFinished : Bool
  abProductionAtEnd : Bool
  theInitiator : Bool
  stopReason : Option String
  adaptLogHistory : Option History
  log : List Effect
  deriving DecidableEq, Repr

/-! ## The job monad -/

/-- How a call can end other than by returning. -/
inductive Failure
  | mustFailed
  | crashed
  deriving DecidableEq, Repr

/-- The result of a call: a value or a failure, with the state the object is left in. -/
inductive Result (α : Type)
  | ok (a : α) (s : XactionRep)
  | failed (e : Failure) (s : XactionRep)

/-- The state the object is left in, whether the call returned or threw. -/
def Result.state {α : Type} : Result α → XactionRep
  | .ok _ s => s
  | .failed _ s => s

/-- Whether the call returned normally. -/
def Result.succeeded {α : Type} : Result α → Bool
  | .ok _ _ => true
  | .failed _ _ => false

/-- Whether the call ended in a `Must` failure. -/
def Result.rejected {α : Type} : Result α → Bool
  | .failed .mustFailed _ => true
  | _ => false

/-- A member function: a state transformer that may fail. -/
def Job (α : Type) : Type := XactionRep → Result α

/-- Return a value without touching the state. -/
def Job.pure {α : Type} (a : α) : Job α := fun s => .ok a s

/-- Sequencing: a failure of the first part ends the call, keeping its state. -/
def Job.bind {α β : Type} (x : Job α) (f : α → Job β) : Job β := fun s =>
  match x s with
  | .ok a s' => f a s'
  | .failed e s' => .failed e s'

/-- Continue a call with `f` when its first part returned. -/
def Result.andThen {α β : Type} (r : Result α) (f : α → Job β) : Result β :=
  match r with
  | .ok a s => f a s
  | .failed e s => .failed e s

instance : Monad Job where
  pure := Job.pure
  bind := Job.bind

/-- Read the object. -/
def getThis : Job XactionRep := fun s => .ok s s

/-- Update the object. -/
def update (f : XactionRep → XactionRep) : Job Unit := fun s => .ok () (f s)

/-- The `Must(condition)` check of `base/TextException.h`: throws when the condition
is false. -/
def Must (c : Bool) : Job Unit := fun s =>
  if c then .ok () s else .failed .mustFailed s

/-- An `assert` or a dereference that the program does not survive. -/
def crashUnless (c : Bool) : Job Unit := fun s =>
  if c then .ok () s else .failed .crashed s

/-- Append a call to the trace. -/
def record (e : Effect) : Job Unit := update fun s => { s with log := s.log ++ [e] }

/-! ## Collaborator calls -/

/-- Modelled from the spec: `Initiate::sendAnswer`, the one-shot report to the initiator;
once it has fired the initiator is forgotten. -/
def sendAnswer (a : Answer) : Job Unit := do
  record (.sendAnswer a)
  update fun s => { s with theInitiator := false }

/-- Modelled from the spec: `Initiate::tellQueryAborted`, the "query aborted" report. -/
def tellQueryAborted (final : Bool) : Job Unit :=
  sendAnswer (.Error final)

/-- Modelled from the spec: `AsyncJob::mustStop`, the request to terminate; the first
reason given is the one kept. -/
def mustStop (reason : String) : Job Unit := do
  update fun s => { s with stopReason := some (s.stopReason.getD reason) }
  record (.mustStop reason)

/-- Modelled from the spec: the inherited part of the done condition, "no
disposition-reporting ... work remains outstanding". -/
def Initiate.doneAll (s : XactionRep) : Bool := !s.theInitiator

/-- Modelled from the spec: `Initiate::swanSong`; a transaction torn down before it has
answered reports a final "query aborted". -/
def Initiate.swanSong : Job Unit := do
  let s ← getThis
  if s.theInitiator then tellQueryAborted true

/-- Modelled from the spec: `History::recordXactStart` returns the id of a new record. -/
def History.recordXactStart (h : History) : Int × History :=
  ((h.started : Int), { h with started := h.started + 1 })

/-- Modelled from the spec: `History::recordXactFinish` closes the record `id`. -/
def History.recordXactFinish (h : History) (id : Int) : History :=
  { h with finished := h.finished ++ [id] }

/-- A call through `theMaster->`: undefined without a handle, traced otherwise. -/
def callMaster (e : Effect) : Job Unit := do
  let s ← getThis
  crashUnless s.theMaster.isSome
  record e

/-- Apply `f` to the message wrapped by a representation. -/
def MessageRep.onMessage (f : Message → Message) (rep : MessageRep) : MessageRep :=
  { rep with theMessage := f rep.theMessage }

/-- Apply `f` to the virgin message (`theVirginRep.raw()`). -/
def XactionRep.onVirgin (f : Message → Message) (s : XactionRep) : XactionRep :=
  { s with theVirginRep := s.theVirginRep.onMessage f }

/-- Apply `f` to the adapted message (`answer()`), when there is one. -/
def XactionRep.onAnswer (f : Message → Message) (s : XactionRep) : XactionRep :=
  { s with theAnswerRep := s.theAnswerRep.map (MessageRep.onMessage f) }

/-- Modelled from the spec: `BodyConsumer::stopConsumingFrom(pipe)` on the virgin
working pointer: the pipe must exist, the consumer is unregistered, the pointer reset. -/
def stopConsumingFrom : Job Unit := do
  let s ← getThis
  match s.theVirginRep.theMessage.body_pipe with
  | none => crashUnless false
  | some p =>
    update (XactionRep.onVirgin fun m => (m.setPipe p.clearConsumer).resetPipe)
    record .stopConsumingFrom

/-- Modelled from the spec: `BodyProducer::stopProducingFor(pipe, atEof)` on the adapted
message's pipe: the pipe must exist and the producer is unregistered.  The pointer that
is reset is the one passed: the member `answer().body_pipe` when `viaMember`, a local
copy of it otherwise. -/
def stopProducingFor (atEof : Bool) (viaMember : Bool) : Job Unit := do
  let s ← getThis
  match s.theAnswerRep.bind fun rep => rep.theMessage.body_pipe with
  | none => crashUnless false
  | some p =>
    update (XactionRep.onAnswer fun m => m.setPipe p.clearProducer)
    if viaMember then
      update (XactionRep.onAnswer Message.resetPipe)
    record (.stopProducingFor atEof)

/-- Modelled from the spec: `MessageRep::tieBody` on the adapted message: a message with
a body handle that is not tied yet ("never re-tied") gets a new stream with this
transaction as its producer, referenced by the header and by the working pointer. -/
def tieBody : Job Unit := do
  let s ← getThis
  match s.theAnswerRep with
  | none => crashUnless false
  | some rep =>
    Must rep.theBodyRep
    Must rep.theMessage.header.body_pipe.isNone
    Must rep.theMessage.body_pipe.isNone
    update (XactionRep.onAnswer fun m => { (m.setPipe BodyPipe.create) with attached := true })
    record .tieBody

/-! ## `XactionRep` member functions -/

/-- The constructor (lines 18-32): both body states undecided, no history id, no latch;
the cause, when given, is an `HttpRequest`. -/
def XactionRep.construct (virginHeader : HttpMsg) (virginCause : Option HttpMsg)
    (serviceKey : String) (history : Option History) : XactionRep :=
  { theMaster := none
    serviceKey := serviceKey
    theVirginRep := MessageRep.wrap virginHeader
    theCauseRep := virginCause.map fun c => MessageRep.wrap { c with isRequest := true }
    theAnswerRep := none
    makingVb := .opUndecided
    proxyingAb := .opUndecided
    adaptHistoryId := -1
    vbProductionFinished := false
    abProductionFinished := false
    abProductionAtEnd := false
    theInitiator := true
    stopReason := none
    adaptLogHistory := history
    log := [] }

/-- Whether `dynamic_cast<const HttpRequest*>` of the cause's header, or of the virgin
header when there is no cause, gives a request (lines 64-65 and 96-97). -/
def XactionRep.request (s : XactionRep) : Bool :=
  match s.theCauseRep with
  | some c => c.theMessage.header.isRequest
  | none => s.theVirginRep.theMessage.header.isRequest

/-- Whether the transaction is the registered consumer of the virgin body pipe, read
through the working pointer as `status()`, `forgetVb` and `swanSong` read it. -/
def XactionRep.stillConsuming (s : XactionRep) : Bool :=
  match s.theVirginRep.theMessage.body_pipe with
  | some p => p.consuming
  | none => false

/-- Whether the transaction is the registered producer of the adapted message's body
pipe, read through the working pointer as `status()` and `swanSong` read it. -/
def XactionRep.stillProducing (s : XactionRep) : Bool :=
  match s.theAnswerRep.bind fun rep => rep.theMessage.body_pipe with
  | some p => p.producing
  | none => false

/-- The function `master` (lines 41-47). -/
def XactionRep.master (x : Option AdapterXaction) : Job Unit := do
  let s ← getThis
  Must s.theMaster.isNone
  Must x.isSome
  update fun s => { s with theMaster := x }

/-- The function `start` (lines 56-74). -/
def XactionRep.start : Job Unit := do
  let s ← getThis
  Must s.theMaster.isSome
  if s.theVirginRep.theMessage.body_pipe.isNone then
    update fun s => { s with makingVb := .opNever }
  Must s.request
  match s.adaptLogHistory with
  | some ah =>
    update fun s => { s with adaptHistoryId := ah.recordXactStart.1,
                             adaptLogHistory := some ah.recordXactStart.2 }
    record (.recordXactStart ah.recordXactStart.1)
  | none => pure ()
  callMaster .masterStart

/-- The function `answer` (lines 126-132): the adapted message, which must exist. -/
def XactionRep.answer : Job Message := fun s =>
  match s.theAnswerRep with
  | some rep => .ok rep.theMessage s
  | none => .failed .mustFailed s

/-- The function `terminateMaster` (lines 134-142). -/
def XactionRep.terminateMaster : Job Unit := do
  let s ← getThis
  if s.theMaster.isSome then
    update fun s => { s with theMaster := none }
    record .masterStop

/-- The first block of `swanSong` (lines 82-88): stop producing the adapted body. -/
def XactionRep.swanSongAdapted : Job Unit := do
  let s ← getThis
  if s.theAnswerRep.isSome then
    let a ← XactionRep.answer
    match a.body_pipe with
    | some p =>
      Must p.producing
      stopProducingFor false false
    | none => pure ()

/-- The second block of `swanSong` (lines 90-92): stop consuming the virgin body. -/
def XactionRep.swanSongVirgin : Job Unit := do
  let s ← getThis
  if s.stillConsuming then
    stopConsumingFrom

/-- The fourth block of `swanSong` (lines 96-101): record the finish in the history. -/
def XactionRep.swanSongHistory : Job Unit := do
  let s ← getThis
  Must s.request
  match s.adaptLogHistory with
  | some ah =>
    if 0 ≤ s.adaptHistoryId then
      update fun s => { s with adaptLogHistory := some (ah.recordXactFinish s.adaptHistoryId) }
      record (.recordXactFinish s.adaptHistoryId)
  | none => pure ()

/-- The function `swanSong` (lines 76-104), block by block. -/
def XactionRep.swanSong : Job Unit := do
  XactionRep.swanSongAdapted
  XactionRep.swanSongVirgin
  XactionRep.terminateMaster
  XactionRep.swanSongHistory
  Initiate.swanSong

/-- The function `doneAll` (lines 144-149). -/
def XactionRep.doneAll (s : XactionRep) : Bool :=
  decide (OperationState.opComplete.toNat ≤ s.makingVb.toNat) &&
  decide (OperationState.opComplete.toNat ≤ s.proxyingAb.toNat) &&
  Initiate.doneAll s

/-- Modelled from the spec: `AsyncJob::done`, a requested stop or the done condition. -/
def XactionRep.done (s : XactionRep) : Bool :=
  s.stopReason.isSome || s.doneAll

/-- The function `forgetVb` (lines 182-195). -/
def XactionRep.forgetVb : Job Unit := do
  let s ← getThis
  if s.stillConsuming then
    stopConsumingFrom
  update fun s => { s with makingVb := s.makingVb.forgotten }

/-- The function `sinkVb` (lines 152-163). -/
def XactionRep.sinkVb : Job Unit := do
  let s ← getThis
  match s.theVirginRep.theMessage.header.body_pipe with
  | some permPipe =>
    update (XactionRep.onVirgin fun m => m.setPipe permPipe.enableAutoConsumption)
    record .enableAutoConsumption
  | none => pure ()
  XactionRep.forgetVb

/-- The function `preserveVb` (lines 166-179). -/
def XactionRep.preserveVb : Job Unit := do
  let s ← getThis
  match s.theVirginRep.theMessage.header.body_pipe with
  | some permPipe => Must (permPipe.consumedSize = 0)
  | none => pure ()
  XactionRep.forgetVb

/-- The function `useVirgin` (lines 197-212). -/
def XactionRep.useVirgin : Job Unit := do
  let s ← getThis
  Must (s.proxyingAb = .opUndecided)
  update fun s => { s with proxyingAb := .opNever }
  XactionRep.preserveVb
  let s ← getThis
  let clone := s.theVirginRep.theMessage.header.clone
  Must (s.theVirginRep.theMessage.header.body_pipe.isNone == clone.body_pipe.isNone)
  sendAnswer (.Forward clone)
  let s ← getThis
  Must s.done

/-- The function `useAdapted` (lines 214-239). -/
def XactionRep.useAdapted (m : Option MessageRep) : Job Unit := do
  Must m.isSome
  update fun s => { s with theAnswerRep := m }
  let s ← getThis
  Must (s.proxyingAb = .opUndecided)
  let a ← XactionRep.answer
  if !(s.theAnswerRep.any fun rep => rep.theBodyRep) then
    update fun s => { s with proxyingAb := .opNever }
    sendAnswer (.Forward a.header)
  else
    update fun s => { s with proxyingAb := .opOn }
    Must a.header.body_pipe.isNone
    tieBody
    let msg ← XactionRep.answer
    Must msg.header.body_pipe.isSome
    sendAnswer (.Forward msg.header)
    callMaster .abMake

/-- The function `blockVirgin` (lines 241-252). -/
def XactionRep.blockVirgin : Job Unit := do
  let s ← getThis
  Must (s.proxyingAb = .opUndecided)
  update fun s => { s with proxyingAb := .opNever }
  XactionRep.sinkVb
  let s ← getThis
  sendAnswer (.Block s.serviceKey)
  let s ← getThis
  Must s.done

/-- The function `vbDiscard` (lines 254-261). -/
def XactionRep.vbDiscard : Job Unit := do
  let s ← getThis
  Must (s.makingVb = .opUndecided)
  XactionRep.sinkVb
  let s ← getThis
  Must (s.makingVb = .opNever)

/-- The function `vbMake` (lines 263-271). -/
def XactionRep.vbMake : Job Unit := do
  let s ← getThis
  Must (s.makingVb = .opUndecided)
  match s.theVirginRep.theMessage.body_pipe with
  | none => Must false
  | some p =>
    update (XactionRep.onVirgin fun m => m.setPipe p.setConsumerIfNotLate.2)
    Must p.setConsumerIfNotLate.1
    update fun s => { s with makingVb := .opOn }

/-- The function `vbStopMaking` (lines 273-280). -/
def XactionRep.vbStopMaking : Job Unit := do
  let s ← getThis
  Must (s.makingVb = .opOn)
  XactionRep.sinkVb
  let s ← getThis
  Must (s.makingVb = .opComplete)

/-- The function `vbMakeMore` (lines 282-290). -/
def XactionRep.vbMakeMore : Job Unit := do
  let s ← getThis
  Must (s.makingVb = .opOn)
  match s.theVirginRep.theMessage.body_pipe with
  | none => Must false
  | some p =>
    Must p.consuming
    Must (!p.productionEnded && p.mayNeedMoreData)

/-- The sentinel `libecap::nsize`, the largest value of the size type. -/
def nsize : Nat := 2 ^ 64 - 1

/-- The function `vbContent` (lines 292-314): the view of the buffered virgin bytes that
starts at offset `o`, of at most `s` bytes (`nsize`: no limit). -/
def XactionRep.vbContent (o s : Nat) : Job (List Nat) := fun t =>
  match t.theVirginRep.theMessage.body_pipe with
  | none => .failed .mustFailed t
  | some p =>
    let haveSize := p.contentSize
    if o ≤ haveSize then
      let size := if s = nsize then haveSize - o else s
      .ok ((p.content.drop o).take (min (haveSize - o) size)) t
    else .failed .mustFailed t

/-- The function `vbContentShift` (lines 316-328). -/
def XactionRep.vbContentShift (n : Nat) : Job Unit := do
  let s ← getThis
  match s.theVirginRep.theMessage.body_pipe with
  | none => Must false
  | some p =>
    update (XactionRep.onVirgin fun m => m.setPipe (p.consume (min n p.contentSize)))

/-- The function `moveAbContent` (lines 428-443).  `space` is the room the adapted pipe
has when `putMoreData` is reached. -/
def XactionRep.moveAbContent (space : Nat) : Job Unit := do
  let s ← getThis
  Must (s.proxyingAb = .opOn)
  match s.theMaster with
  | none => crashUnless false
  | some x =>
    let c := x.abContent
    if c.length = 0 ∧ s.abProductionFinished = true then
      let _ ← XactionRep.answer
      stopProducingFor s.abProductionAtEnd true
      update fun s => { s with proxyingAb := .opComplete }
    else if 0 < c.length then
      let a ← XactionRep.answer
      match a.body_pipe with
      | none => crashUnless false
      | some p =>
        let used := (p.putMoreData c space).1
        update (XactionRep.onAnswer fun m => m.setPipe (p.putMoreData c space).2)
        record (.putMoreData (c.take used))
        if used ≠ 0 then
          update fun s => { s with theMaster := some (x.abContentShift used) }
          record (.abContentShift used)

/-- The function `noteAbContentDone` (lines 330-338). -/
def XactionRep.noteAbContentDone (atEnd : Bool) (space : Nat) : Job Unit := do
  let s ← getThis
  Must (s.proxyingAb = .opOn && !s.abProductionFinished)
  update fun s => { s with abProductionFinished := true, abProductionAtEnd := atEnd }
  XactionRep.moveAbContent space

/-- The function `noteAbContentAvailable` (lines 340-345). -/
def XactionRep.noteAbContentAvailable (space : Nat) : Job Unit := do
  let s ← getThis
  Must (s.proxyingAb = .opOn && !s.abProductionFinished)
  XactionRep.moveAbContent space

/-- The function `adaptationDelayed` (lines 358-364): logs only. -/
def XactionRep.adaptationDelayed : Job Unit := pure ()

/-- The function `adaptationAborted` (lines 366-371). -/
def XactionRep.adaptationAborted : Job Unit := do
  tellQueryAborted true
  mustStop "adaptationAborted"

/-- The function `callable` (lines 373-377). -/
def XactionRep.callable (s : XactionRep) : Bool := !s.done

/-- The function `noteMoreBodySpaceAvailable` (lines 379-384). -/
def XactionRep.noteMoreBodySpaceAvailable (space : Nat) : Job Unit := do
  let s ← getThis
  Must (s.proxyingAb = .opOn)
  XactionRep.moveAbContent space

/-- The function `noteBodyConsumerAborted` (lines 386-394). -/
def XactionRep.noteBodyConsumerAborted : Job Unit := do
  let s ← getThis
  Must (s.proxyingAb = .opOn)
  let _ ← XactionRep.answer
  stopProducingFor false true
  Must s.theMaster.isSome
  callMaster .abStopMaking
  update fun s => { s with proxyingAb := .opComplete }

/-- The function `noteMoreBodyDataAvailable` (lines 396-402). -/
def XactionRep.noteMoreBodyDataAvailable : Job Unit := do
  let s ← getThis
  Must (s.makingVb = .opOn)
  Must s.theMaster.isSome
  callMaster .noteVbContentAvailable

/-- The function `noteBodyProductionEnded` (lines 404-411). -/
def XactionRep.noteBodyProductionEnded : Job Unit := do
  let s ← getThis
  Must (s.makingVb = .opOn)
  Must s.theMaster.isSome
  callMaster (.noteVbContentDone true)
  update fun s => { s with vbProductionFinished := true }

/-- The function `noteBodyProducerAborted` (lines 413-420). -/
def XactionRep.noteBodyProducerAborted : Job Unit := do
  let s ← getThis
  Must (s.makingVb = .opOn)
  Must s.theMaster.isSome
  callMaster (.noteVbContentDone false)
  update fun s => { s with vbProductionFinished := true }

/-- The function `noteInitiatorAborted` (lines 422-426). -/
def XactionRep.noteInitiatorAborted : Job Unit :=
  mustStop "initiator aborted"

/-! ## Runs of entry points -/

/-- The entry points of a transaction: what the service, the module, the two body pipes
and the initiator may call.  `space` is the room of the adapted pipe at that call. -/
inductive Call
  | master (x : Option AdapterXaction)
  | start
  | swanSong
  | useVirgin
  | useAdapted (m : Option MessageRep)
  | blockVirgin
  | vbDiscard
  | vbMake
  | vbStopMaking
  | vbMakeMore
  | vbContent (o s : Nat)
  | vbContentShift (n : Nat)
  | noteAbContentDone (atEnd : Bool) (space : Nat)
  | noteAbContentAvailable (space : Nat)
  | adaptationDelayed
  | adaptationAborted
  | noteMoreBodySpaceAvailable (space : Nat)
  | noteBodyConsumerAborted
  | noteMoreBodyDataAvailable
  | noteBodyProductionEnded
  | noteBodyProducerAborted
  | noteInitiatorAborted
  deriving DecidableEq, Repr

/-- The member function an entry point names. -/
def Call.run : Call → Job Unit
  | .master x => XactionRep.master x
  | .start => XactionRep.start
  | .swanSong => XactionRep.swanSong
  | .useVirgin => XactionRep.useVirgin
  | .useAdapted m => XactionRep.useAdapted m
  | .blockVirgin => XactionRep.blockVirgin
  | .vbDiscard => XactionRep.vbDiscard
  | .vbMake => XactionRep.vbMake
  | .vbStopMaking => XactionRep.vbStopMaking
  | .vbMakeMore => XactionRep.vbMakeMore
  | .vbContent o s => do
    let _ ← XactionRep.vbContent o s
    pure ()
  | .vbContentShift n => XactionRep.vbContentShift n
  | .noteAbContentDone atEnd space => XactionRep.noteAbContentDone atEnd space
  | .noteAbContentAvailable space => XactionRep.noteAbContentAvailable space
  | .adaptationDelayed => XactionRep.adaptationDelayed
  | .adaptationAborted => XactionRep.adaptationAborted
  | .noteMoreBodySpaceAvailable space => XactionRep.noteMoreBodySpaceAvailable space
  | .noteBodyConsumerAborted => XactionRep.noteBodyConsumerAborted
  | .noteMoreBodyDataAvailable => XactionRep.noteMoreBodyDataAvailable
  | .noteBodyProductionEnded => XactionRep.noteBodyProductionEnded
  | .noteBodyProducerAborted => XactionRep.noteBodyProducerAborted
  | .noteInitiatorAborted => XactionRep.noteInitiatorAborted

/-- The object after a sequence of calls, each made on the state the previous one left,
whether that one returned or threw. -/
def runCalls : List Call → XactionRep → XactionRep
  | [], s => s
  | c :: cs, s => runCalls cs (c.run s).state

/-- The object after a sequence of calls that all return; `none` as soon as one throws. -/
def runReturning : List Call → XactionRep → Option XactionRep
  | [], s => some s
  | c :: cs, s =>
    match c.run s with
    | .ok _ s' => runReturning cs s'
    | .failed _ _ => none

/-- A pipe on which this transaction is registered neither as producer nor as consumer:
what any pipe is before the transaction has dealt with it. -/
def BodyPipe.unregistered (p : BodyPipe) : Bool := !p.producing && !p.consuming

/-- A native message that is new to the transaction: it is not yet registered on its
body pipe, if it has one. -/
def HttpMsg.fresh (h : HttpMsg) : Bool :=
  match h.body_pipe with
  | some p => p.unregistered
  | none => true

/-- A call whose message argument, if any, is new to the transaction. -/
def Call.fresh : Call → Bool
  | .useAdapted (some m) => m.theMessage.header.fresh
  | _ => true

/-- The answers among the calls of a trace, in order. -/
def answersIn : List Effect → List Answer
  | [] => []
  | .sendAnswer a :: es => a :: answersIn es
  | _ :: es => answersIn es

/-- The bytes put into the adapted pipe by the calls of a trace, concatenated in order. -/
def bytesPutIn : List Effect → List Nat
  | [] => []
  | .putMoreData bs :: es => bs ++ bytesPutIn es
  | _ :: es => bytesPutIn es

/-- The number of `tieBody` registrations among the calls of a trace. -/
def tiesIn : List Effect → Nat
  | [] => 0
  | .tieBody :: es => tiesIn es + 1
  | _ :: es => tiesIn es

/-- The three disposition calls. -/
inductive Disposition
  | useVirgin
  | useAdapted (m : Option MessageRep)
  | blockVirgin
  deriving DecidableEq, Repr

/-- The member function a disposition call names. -/
def Disposition.run : Disposition → Job Unit
  | .useVirgin => XactionRep.useVirgin
  | .useAdapted m => XactionRep.useAdapted m
  | .blockVirgin => XactionRep.blockVirgin

/-- A sequence of disposition calls on one object: the final state and the number of
calls that returned normally. -/
def runDispositions : List Disposition → XactionRep → XactionRep × Nat
  | [], s => (s, 0)
  | d :: ds, s =>
    ((runDispositions ds (d.run s).state).1,
     (runDispositions ds (d.run s).state).2 + if (d.run s).succeeded then 1 else 0)

/-- The header of the adapted message's pipe object, kept by the header also after the
working pointer has been reset. -/
def XactionRep.adaptedPipe (s : XactionRep) : Option BodyPipe :=
  s.theAnswerRep.bind fun rep => rep.theMessage.header.body_pipe

/-- One step of adapted body delivery: the module adds bytes to its output (it adds
none once it has declared its production finished), or one of the three entry points
that run `moveAbContent`. -/
inductive DrainStep
  | produced (bytes : List Nat)
  | noteAbContentAvailable (space : Nat)
  | noteAbContentDone (atEnd : Bool) (space : Nat)
  | noteMoreBodySpaceAvailable (space : Nat)
  deriving DecidableEq, Repr

/-- The state after one delivery step. -/
def DrainStep.apply : DrainStep → XactionRep → XactionRep
  | .produced bytes, s =>
    if s.abProductionFinished then s
    else { s with theMaster := s.theMaster.map fun x => { x with abOutput := x.abOutput ++ bytes } }
  | .noteAbContentAvailable space, s => (XactionRep.noteAbContentAvailable space s).state
  | .noteAbContentDone atEnd space, s => (XactionRep.noteAbContentDone atEnd space s).state
  | .noteMoreBodySpaceAvailable space, s => (XactionRep.noteMoreBodySpaceAvailable space s).state

/-- The state after a sequence of delivery steps. -/
def runDrains : List DrainStep → XactionRep → XactionRep
  | [], s => s
  | d :: ds, s => runDrains ds (d.apply s)

/-! ## Sample objects -/

/-- A virgin body pipe holding three bytes, none consumed, with no party of this
transaction registered. -/
def Sample.virginPipe : BodyPipe :=
  { written := [1, 2, 3], consumedSize := 0, producing := false, consuming := false,
    autoConsumption := false, productionEnded := false, mayNeedMoreData := true }

/-- A virgin request with a body. -/
def Sample.virginHeader : HttpMsg :=
  { id := 1, isRequest := true, cloneOf := none, body_pipe := some Sample.virginPipe }

/-- A virgin request without a body. -/
def Sample.bodylessHeader : HttpMsg :=
  { id := 1, isRequest := true, cloneOf := none, body_pipe := none }

/-- A freshly constructed transaction for the virgin request with a body. -/
def Sample.transaction : XactionRep :=
  XactionRep.construct Sample.virginHeader none "ecap://svc" none

/-- An adapter transaction that has produced no output yet. -/
def Sample.adapter : AdapterXaction := { abOutput := [], abCursor := 0 }

/-- An adapted message with a body that is not tied to a pipe yet. -/
def Sample.adaptedMessage : MessageRep :=
  { theMessage :=
      { header := { id := 2, isRequest := true, cloneOf := none, body_pipe := none },
        attached := false },
    theBodyRep := true }

/-- An adapted message without a body. -/
def Sample.bodylessMessage : MessageRep :=
  { theMessage :=
      { header := { id := 2, isRequest := true, cloneOf := none, body_pipe := none },
        attached := false },
    theBodyRep := false }

/-- A copy of the virgin request offered as the adapted message: it has a body and its
header already refers to the virgin pipe. -/
def Sample.clonedMessage : MessageRep := MessageRep.wrap Sample.virginHeader.clone

/-- The transaction after `master`, `start` and `useAdapted` of the sample message with a
body: it proxies the adapted body. -/
def Sample.proxying : XactionRep :=
  runCalls [.master (some Sample.adapter), .start, .useAdapted (some Sample.adaptedMessage)]
    Sample.transaction

/-- The sample adapted message once `useAdapted` has tied it to a new pipe. -/
def Sample.tiedMessage : MessageRep :=
  { theMessage :=
      { header :=
          { id := 2, isRequest := true, cloneOf := none, body_pipe := some BodyPipe.create },
        attached := true },
    theBodyRep := true }

/-! ## Properties of jobs -/

/-- A job keeps the view `f` of the object: whatever state it leaves, returning or
throwing, shows the same `f`. -/
def Keeps {α γ : Type} (f : XactionRep → γ) (j : Job α) : Prop :=
  ∀ s, f (j s).state = f s

/-- A job maintains the property `I`: it holds in the state the job leaves, returning or
throwing, whenever it held before. -/
def Maintains {α : Type} (I : XactionRep → Prop) (j : Job α) : Prop :=
  ∀ s, I s → I (j s).state

/-- The adapted side of the object: its state and the adapted message. -/
def XactionRep.adaptedSide (s : XactionRep) : OperationState × Option MessageRep :=
  (s.proxyingAb, s.theAnswerRep)

/-- The virgin side of the object as far as registration goes: its state and whether the
transaction is the registered consumer. -/
def XactionRep.virginSide (s : XactionRep) : OperationState × Bool :=
  (s.makingVb, s.stillConsuming)

/-- Entry points whose code touches the adapted side (`proxyingAb`, `theAnswerRep`). -/
def Call.onAdaptedSide : Call → Bool
  | .swanSong | .useVirgin | .useAdapted _ | .blockVirgin => true
  | .noteAbContentDone _ _ | .noteAbContentAvailable _ => true
  | .noteMoreBodySpaceAvailable _ | .noteBodyConsumerAborted => true
  | _ => false

/-- Entry points whose code touches the virgin side (`makingVb`, the virgin pipe). -/
def Call.onVirginSide : Call → Bool
  | .start | .swanSong | .useVirgin | .blockVirgin => true
  | .vbDiscard | .vbMake | .vbStopMaking | .vbContentShift _ => true
  | _ => false

/-- Entry points that change the adapted side and check a condition afterwards, so that
a failed check leaves the change behind: `useAdapted` (lines 219-232) and
`noteBodyConsumerAborted` (lines 390-391). -/
def Call.checksAfterChange : Call → Bool
  | .useAdapted _ | .noteBodyConsumerAborted => true
  | _ => false

/-- Whether, in a sequence of calls made one after another on one object, every call
selected by `P` returns normally. -/
def returnWhere (P : Call → Bool) : List Call → XactionRep → Bool
  | [], _ => true
  | c :: cs, s => (!P c || (c.run s).succeeded) && returnWhere P cs (c.run s).state

/-- The virgin half of the registration invariant: `makingVb == opOn` exactly when the
transaction is the registered consumer of the virgin body pipe. -/
def XactionRep.consumerAgrees (s : XactionRep) : Prop :=
  s.makingVb = .opOn ↔ s.stillConsuming = true

/-- The adapted half of the registration invariant: `proxyingAb == opOn` exactly when the
transaction is the registered producer of the adapted message's body pipe. -/
def XactionRep.producerAgrees (s : XactionRep) : Prop :=
  s.proxyingAb = .opOn ↔ s.stillProducing = true

/-- What delivery keeps true from a state in which the transaction proxies a newly tied
pipe for an adapter that has shifted nothing yet: the bytes written to the pipe, and the
bytes put by the traced calls since, are the module's output up to its cursor. -/
def Delivering (putBefore : List Nat) (s : XactionRep) : Prop :=
  ∃ x rep p, s.theMaster = some x ∧ s.theAnswerRep = some rep ∧
    rep.theMessage.header.body_pipe = some p ∧
    (s.proxyingAb = .opOn → rep.theMessage.attached = true) ∧
    p.written = x.abOutput.take x.abCursor ∧
    x.abCursor ≤ x.abOutput.length ∧
    bytesPutIn s.log = putBefore ++ p.written ∧
    (s.proxyingAb = .opOn ∨
      (s.proxyingAb = .opComplete ∧ s.abProductionFinished = true ∧
        x.abCursor = x.abOutput.length))

/-- The adapted body is complete and the transaction is not a registered producer. -/
def Completed (s : XactionRep) : Prop :=
  s.proxyingAb = .opComplete ∧ s.stillProducing = false

/-! ## The adapter handle -/

/-- The calls that deal with the adapter handle: `master`, the private `terminateMaster`
and `swanSong`, which runs it. -/
inductive HandleCall
  | master (x : Option AdapterXaction)
  | terminateMaster
  | swanSong
  deriving DecidableEq, Repr

/-- The member function a handle call names. -/
def HandleCall.run : HandleCall → Job Unit
  | .master x => XactionRep.master x
  | .terminateMaster => XactionRep.terminateMaster
  | .swanSong => XactionRep.swanSong

/-- The object after a sequence of handle calls, each made on the state the previous one
left, whether that one returned or threw. -/
def runHandleCalls : List HandleCall → XactionRep → XactionRep
  | [], s => s
  | c :: cs, s => runHandleCalls cs (c.run s).state

/-- The number of `stop()` calls on an adapter handle among the calls of a trace. -/
def stopsIn : List Effect → Nat
  | [] => 0
  | .masterStop :: es => stopsIn es + 1
  | _ :: es => stopsIn es

/-- The number of adapter handles the transaction holds: one or none. -/
def XactionRep.held (s : XactionRep) : Nat := if s.theMaster.isSome then 1 else 0

/-- The number of `master` calls that return normally in a sequence of handle calls. -/
def mastersAccepted : List HandleCall → XactionRep → Nat
  | [], _ => 0
  | c :: cs, s =>
    (match c with
      | .master x => if (XactionRep.master x s).succeeded then 1 else 0
      | _ => 0) + mastersAccepted cs (c.run s).state

/-- The `stop()` calls made so far plus the handles still held. -/
def XactionRep.stoppedOrHeld (s : XactionRep) : Nat := stopsIn s.log + s.held

/-! ## The service directory (`ServiceRep.cc`) -/

/-- A started module instance (`libecap::adapter::Service`) as the directory sees it: its
URI, which identifies it, and the identity of the instance.  A URI is plain text: it holds
no NUL, so the C string `uri().c_str()` that `FindAdapterService` compares with is the
whole URI. -/
structure AdapterService where
  uri : String
  instanceId : Nat
  deriving DecidableEq, Repr

/-- The list `TheServices` (ServiceRep.cc line 16): shared pointers to module instances,
in registration order; `none` is a null pointer. -/
abbrev Directory : Type := List (Option AdapterService)

/-- The function `FindAdapterService` (ServiceRep.cc lines 144-154): the first entry with
the URI, a null pointer when there is none; `none` when `Must(*s)` throws on the way. -/
def FindAdapterService (serviceUri : String) : Directory → Option (Option AdapterService)
  | [] => some none
  | none :: _ => none
  | some a :: rest =>
    if serviceUri = a.uri then some (some a) else FindAdapterService serviceUri rest

/-- The function `RegisterAdapterService` (ServiceRep.cc lines 156-171), called with a
non-null handle: the first entry with the handle's URI is overwritten, and the handle is
pushed to the back when there is none; `none` when `Must(*s)` throws on the way, which
leaves the list as it was. -/
def RegisterAdapterService (adapterService : AdapterService) : Directory → Option Directory
  | [] => some [some adapterService]
  | none :: _ => none
  | some a :: rest =>
    if adapterService.uri = a.uri then some (some adapterService :: rest)
    else (RegisterAdapterService adapterService rest).map fun d => some a :: d

/-- The identifiers of the entries of a directory, in order. -/
def Directory.uris (d : Directory) : List String :=
  d.filterMap fun e => e.map AdapterService.uri

/-! ## Teardown -/

/-- Whether the adapted message, if its pipe pointer is set, has this transaction as the
producer of that pipe: what `Must(body_pipe->stillProducing(this))` in `swanSong` checks. -/
def MessageRep.producerIfPiped (rep : MessageRep) : Bool :=
  match rep.theMessage.body_pipe with
  | some p => p.producing
  | none => true

/-- Whether the adapted message of the transaction, if there is one with its pipe pointer
set, has the transaction as producer. -/
def XactionRep.producerIfPiped (s : XactionRep) : Bool :=
  match s.theAnswerRep with
  | some rep => rep.producerIfPiped
  | none => true

/-- Whether a recorded start (`adaptHistoryId >= 0`) comes with the history it was
recorded in. -/
def XactionRep.startRecorded (s : XactionRep) : Bool :=
  decide (s.adaptHistoryId < 0) || s.adaptLogHistory.isSome

/-- The ids of the `recordXactFinish` calls of a trace, in order. -/
def finishesIn : List Effect → List Int
  | [] => []
  | .recordXactFinish id :: es => id :: finishesIn es
  | _ :: es => finishesIn es

/-- The entry points made before teardown: every one but `swanSong` itself, a `useAdapted`
being passed a message whose pipe pointer is not set ("only host can set body pipes"). -/
def Call.beforeTeardown : Call → Bool
  | .swanSong => false
  | .useAdapted (some m) => m.theMessage.body_pipe.isNone
  | _ => true

/-- The number of `stopProducingFor` calls among the calls of a trace. -/
def producerStopsIn : List Effect → Nat
  | [] => 0
  | .stopProducingFor _ :: es => producerStopsIn es + 1
  | _ :: es => producerStopsIn es

/-- Whether the transaction is the registered producer of the adapted message's pipe
object, read from the header's own reference, which outlives a reset of the working
pointer. -/
def XactionRep.registeredProducer (s : XactionRep) : Bool :=
  match s.adaptedPipe with
  | some p => p.producing
  | none => false

/-- Whether, in a sequence of calls made one after another on one object, every
`useAdapted` of a message is made while no adapted message is set, so that no adapted
message, and no pipe tied for it, is replaced. -/
def answerSetOnce : List Call → XactionRep → Bool
  | [], _ => true
  | c :: cs, s =>
    (match c with
      | .useAdapted (some _) => s.theAnswerRep.isNone
      | _ => true) && answerSetOnce cs (c.run s).state

/-- Every registration as producer made so far (`tieBody`) is either undone
(`stopProducingFor`) or is the one on the adapted message's pipe, which the working
pointer then still refers to. -/
def XactionRep.producerAccounted (s : XactionRep) : Prop :=
  s.producerIfPiped = true ∧ (s.registeredProducer = true → s.stillProducing = true) ∧
    tiesIn s.log = producerStopsIn s.log + (if s.registeredProducer = true then 1 else 0)

/-! ## Evaluation lemmas for the job monad -/

section Evaluation
variable {α β : Type}

@[simp] theorem Result.andThen_ok (a : α) (s : XactionRep) (f : α → Job β) :
    (Result.ok a s).andThen f = f a s := rfl

@[simp] theorem Result.andThen_failed (e : Failure) (s : XactionRep) (f : α → Job β) :
    (Result.failed e s : Result α).andThen f = .failed e s := rfl

@[simp] theorem apply_bind (x : Job α) (f : α → Job β) (s : XactionRep) :
    (x >>= f) s = (x s).andThen f := by
  show Job.bind x f s = _
  unfold Job.bind Result.andThen
  rfl

@[simp] theorem apply_pure (a : α) (s : XactionRep) : (pure a : Job α) s = .ok a s := rfl

@[simp] theorem apply_ite (c : Prop) [Decidable c] (x y : Job α) (s : XactionRep) :
    (if c then x else y) s = if c then x s else y s := by
  split <;> rfl

@[simp] theorem Result.ite_andThen (c : Prop) [Decidable c] (a b : Result α)
    (f : α → Job β) :
    (if c then a else b).andThen f = if c then a.andThen f else b.andThen f := by
  split <;> rfl

@[simp] theorem Result.state_ok (a : α) (s : XactionRep) :
    (Result.ok a s).state = s := rfl

@[simp] theorem Result.state_failed (e : Failure) (s : XactionRep) :
    (Result.failed e s : Result α).state = s := rfl

@[simp] theorem getThis_apply (s : XactionRep) : getThis s = .ok s s := rfl

@[simp] theorem update_apply (f : XactionRep → XactionRep) (s : XactionRep) :
    update f s = .ok () (f s) := rfl

@[simp] theorem Must_apply (c : Bool) (s : XactionRep) :
    Must c s = if c then .ok () s else .failed .mustFailed s := rfl

@[simp] theorem crashUnless_apply (c : Bool) (s : XactionRep) :
    crashUnless c s = if c then .ok () s else .failed .crashed s := rfl

@[simp] theorem record_apply (e : Effect) (s : XactionRep) :
    record e s = .ok () { s with log := s.log ++ [e] } := rfl

end Evaluation

@[simp] theorem answersIn_append (xs ys : List Effect) :
    answersIn (xs ++ ys) = answersIn xs ++ answersIn ys := by
  induction xs with
  | nil => rfl
  | cons x xs ih => cases x <;> simp [answersIn, ih]

@[simp] theorem bytesPutIn_append (xs ys : List Effect) :
    bytesPutIn (xs ++ ys) = bytesPutIn xs ++ bytesPutIn ys := by
  induction xs with
  | nil => rfl
  | cons x xs ih => cases x <;> simp [bytesPutIn, ih]

@[simp] theorem tiesIn_append (xs ys : List Effect) :
    tiesIn (xs ++ ys) = tiesIn xs + tiesIn ys := by
  induction xs with
  | nil => simp [tiesIn]
  | cons x xs ih => cases x <;> simp [tiesIn, ih]; omega

/-! ## Disposition is decided once -/

/-- A disposition call made after the decision is rejected; it leaves the trace and the
decision as they were. -/
theorem Disposition.run_decided (d : Disposition) (s : XactionRep)
    (h : s.proxyingAb ≠ .opUndecided) :
    (d.run s).rejected = true ∧ (d.run s).state.log = s.log ∧
      (d.run s).state.proxyingAb = s.proxyingAb := by
  cases d with
  | useVirgin => simp [Disposition.run, XactionRep.useVirgin, h, Result.rejected, Result.state]
  | blockVirgin => simp [Disposition.run, XactionRep.blockVirgin, h, Result.rejected, Result.state]
  | useAdapted m =>
    cases m <;> simp [Disposition.run, XactionRep.useAdapted, h, Result.rejected, Result.state]

/-- From the undecided state `useVirgin` always leaves `opNever` and sends at most one
answer. -/
theorem useVirgin_undecided (s : XactionRep) (h : s.proxyingAb = .opUndecided) :
    (XactionRep.useVirgin s).state.proxyingAb = .opNever ∧
    (answersIn (XactionRep.useVirgin s).state.log).length ≤ (answersIn s.log).length + 1 := by
  obtain ⟨master, key, ⟨⟨⟨id, isReq, cloneOf, pipe⟩, attached⟩, bodyRep⟩, cause, ans, makingVb,
    proxyingAb, hid, vbf, abf, abe, ini, stop, hist, log⟩ := s
  simp only at h
  subst h
  cases pipe with
  | none =>
    cases attached <;> cases makingVb <;>
    simp [XactionRep.useVirgin, XactionRep.preserveVb, XactionRep.forgetVb, stopConsumingFrom,
      XactionRep.stillConsuming, Message.body_pipe, sendAnswer, XactionRep.done, XactionRep.doneAll,
      Initiate.doneAll, OperationState.toNat, answersIn, XactionRep.onVirgin, MessageRep.onMessage,
      Message.setPipe, Message.resetPipe, OperationState.forgotten, HttpMsg.clone, Result.state]
  | some p =>
    obtain ⟨w, c, prod, cons, auto, ended, more⟩ := p
    by_cases hc : c = 0
    · subst hc
      cases attached <;> cases makingVb <;> cases cons <;>
      simp [XactionRep.useVirgin, XactionRep.preserveVb, XactionRep.forgetVb, stopConsumingFrom,
        XactionRep.stillConsuming, Message.body_pipe, sendAnswer, XactionRep.done, XactionRep.doneAll,
        Initiate.doneAll, OperationState.toNat, answersIn, XactionRep.onVirgin, MessageRep.onMessage,
        Message.setPipe, Message.resetPipe, OperationState.forgotten, HttpMsg.clone, Result.state, BodyPipe.clearConsumer]
    · simp [XactionRep.useVirgin, XactionRep.preserveVb, hc, Result.state]

/-- From the undecided state `useAdapted` either returns without any effect on the trace
(null message) or leaves the undecided state, and it sends at most one answer. -/
theorem useAdapted_undecided (m : Option MessageRep) (s : XactionRep)
    (h : s.proxyingAb = .opUndecided) :
    ((XactionRep.useAdapted m s).state.proxyingAb = .opUndecided →
      (XactionRep.useAdapted m s).succeeded = false ∧
      (XactionRep.useAdapted m s).state.log = s.log) ∧
    (answersIn (XactionRep.useAdapted m s).state.log).length ≤ (answersIn s.log).length + 1 := by
  cases m with
  | none => simp [XactionRep.useAdapted, Result.state, Result.succeeded]
  | some m =>
    obtain ⟨⟨⟨id, isReq, cloneOf, pipe⟩, attached⟩, bodyRep⟩ := m
    cases bodyRep
    · simp [XactionRep.useAdapted, XactionRep.answer, h, sendAnswer, Result.state, answersIn]
    · cases pipe with
      | none =>
        cases hm : s.theMaster <;>
        simp [XactionRep.useAdapted, XactionRep.answer, h, sendAnswer, Result.state, answersIn,
          tieBody, Message.body_pipe, XactionRep.onAnswer, MessageRep.onMessage, Message.setPipe,
          callMaster, hm]
      | some p =>
        simp [XactionRep.useAdapted, XactionRep.answer, h, sendAnswer, Result.state, answersIn]

/-- From the undecided state `blockVirgin` always returns: auto-consumption is on, the
consumer is unregistered, one `Block` answer is added, and the job is done. -/
theorem blockVirgin_apply (s : XactionRep) (h : s.proxyingAb = .opUndecided) :
    ∃ s', XactionRep.blockVirgin s = .ok () s' ∧
      (∀ p, s.theVirginRep.theMessage.header.body_pipe = some p →
        ∃ p', s'.theVirginRep.theMessage.header.body_pipe = some p' ∧
          p'.autoConsumption = true) ∧
      s'.stillConsuming = false ∧
      answersIn s'.log = answersIn s.log ++ [.Block s.serviceKey] ∧
      s'.proxyingAb = .opNever ∧
      (s'.makingVb = .opNever ∨ s'.makingVb = .opComplete) ∧
      s'.done = true := by
  obtain ⟨master, key, ⟨⟨⟨id, isReq, cloneOf, pipe⟩, attached⟩, bodyRep⟩, cause, ans, makingVb,
    proxyingAb, hid, vbf, abf, abe, ini, stop, hist, log⟩ := s
  simp only at h
  subst h
  cases pipe with
  | none =>
    cases attached <;> cases makingVb <;>
    simp [XactionRep.blockVirgin, XactionRep.sinkVb, XactionRep.forgetVb, stopConsumingFrom,
      XactionRep.stillConsuming, Message.body_pipe, sendAnswer, XactionRep.done, XactionRep.doneAll,
      Initiate.doneAll, OperationState.toNat, answersIn, XactionRep.onVirgin, MessageRep.onMessage,
      Message.setPipe, Message.resetPipe, OperationState.forgotten]
  | some p =>
    obtain ⟨w, c, prod, cons, auto, ended, more⟩ := p
    cases attached <;> cases makingVb <;> cases cons <;>
    simp [XactionRep.blockVirgin, XactionRep.sinkVb, XactionRep.forgetVb, stopConsumingFrom,
      XactionRep.stillConsuming, Message.body_pipe, sendAnswer, XactionRep.done, XactionRep.doneAll,
      Initiate.doneAll, OperationState.toNat, answersIn, XactionRep.onVirgin, MessageRep.onMessage,
      Message.setPipe, Message.resetPipe, OperationState.forgotten, BodyPipe.enableAutoConsumption, BodyPipe.clearConsumer]

theorem Result.not_succeeded_of_rejected {α : Type} (r : Result α) (h : r.rejected = true) :
    r.succeeded = false := by
  cases r with
  | ok a s => simp [Result.rejected] at h
  | failed e s => rfl

/-- One disposition call from the undecided state: if the state is still undecided
afterwards the call did not return and left the trace alone; in any case at most one
answer was added. -/
theorem Disposition.run_undecided (d : Disposition) (s : XactionRep)
    (h : s.proxyingAb = .opUndecided) :
    ((d.run s).state.proxyingAb = .opUndecided →
      (d.run s).succeeded = false ∧ (d.run s).state.log = s.log) ∧
    (answersIn (d.run s).state.log).length ≤ (answersIn s.log).length + 1 := by
  cases d with
  | useVirgin =>
    obtain ⟨h1, h2⟩ := useVirgin_undecided s h
    exact ⟨fun hu => by simp [Disposition.run, h1] at hu, h2⟩
  | blockVirgin =>
    obtain ⟨s', hs, -, -, ha, hp, -, -⟩ := blockVirgin_apply s h
    simp [Disposition.run, hs, Result.state, ha, hp]
  | useAdapted m => exact useAdapted_undecided m s h

/-- Once the decision is made, no sequence of disposition calls has a call that returns
or adds an answer. -/
theorem runDispositions_decided (ds : List Disposition) (s : XactionRep)
    (h : s.proxyingAb ≠ .opUndecided) :
    (runDispositions ds s).2 = 0 ∧ (runDispositions ds s).1.log = s.log := by
  induction ds generalizing s with
  | nil => simp [runDispositions]
  | cons d ds ih =>
    obtain ⟨h1, h2, h3⟩ := Disposition.run_decided d s h
    obtain ⟨i1, i2⟩ := ih (d.run s).state (by rw [h3]; exact h)
    simp [runDispositions, i1, i2, h2, Result.not_succeeded_of_rejected _ h1]

section KeepsRules
variable {α β γ : Type} {f : XactionRep → γ}

theorem keeps_pure (a : α) : Keeps f (pure a : Job α) := fun _ => rfl

theorem keeps_getThis : Keeps f getThis := fun _ => rfl

theorem keeps_Must (c : Bool) : Keeps f (Must c) := by
  intro s
  cases c <;> rfl

theorem keeps_crashUnless (c : Bool) : Keeps f (crashUnless c) := by
  intro s
  cases c <;> rfl

theorem keeps_update {g : XactionRep → XactionRep} (h : ∀ s, f (g s) = f s) :
    Keeps f (update g) := fun s => h s

theorem keeps_record {e : Effect} (h : ∀ s : XactionRep, f { s with log := s.log ++ [e] } = f s) :
    Keeps f (record e) := fun s => h s

theorem keeps_bind {x : Job α} {g : α → Job β} (hx : Keeps f x) (hg : ∀ a, Keeps f (g a)) :
    Keeps f (x >>= g) := by
  intro s
  have h1 := hx s
  rw [apply_bind]
  cases h : x s with
  | ok a s' =>
    rw [h] at h1
    simp only [Result.andThen_ok]
    rw [hg a s']
    exact h1
  | failed e s' =>
    rw [h] at h1
    exact h1

theorem answer_keeps : Keeps f XactionRep.answer := by
  intro s
  unfold XactionRep.answer
  split <;> rfl

theorem vbContent_keeps (o n : Nat) : Keeps f (XactionRep.vbContent o n) := by
  intro s
  unfold XactionRep.vbContent
  split
  · rfl
  · dsimp only
    split <;> rfl

end KeepsRules

theorem Call.keeps_adaptedSide (c : Call) (h : c.onAdaptedSide = false) :
    Keeps XactionRep.adaptedSide c.run := by
  cases c <;> simp only [Call.onAdaptedSide] at h <;>
    first
    | exact absurd h (by decide)
    | (simp only [Call.run, XactionRep.master, XactionRep.start, XactionRep.vbDiscard,
        XactionRep.vbMake, XactionRep.vbStopMaking, XactionRep.vbMakeMore,
        XactionRep.vbContentShift, XactionRep.adaptationDelayed, XactionRep.adaptationAborted,
        XactionRep.noteMoreBodyDataAvailable, XactionRep.noteBodyProductionEnded,
        XactionRep.noteBodyProducerAborted, XactionRep.noteInitiatorAborted,
        XactionRep.sinkVb, XactionRep.forgetVb, stopConsumingFrom, callMaster, tellQueryAborted,
        sendAnswer, mustStop]
       repeat' first
        | with_reducible exact keeps_getThis
        | with_reducible exact keeps_Must _
        | with_reducible exact keeps_crashUnless _
        | with_reducible exact keeps_pure _
        | with_reducible exact vbContent_keeps _ _
        | ((with_reducible (refine keeps_update ?_)); intro _; rfl)
        | ((with_reducible (refine keeps_record ?_)); intro _; rfl)
        | with_reducible refine keeps_bind ?_ (fun _ => ?_)
        | split
        | dsimp only)

theorem Call.keeps_virginSide (c : Call) (h : c.onVirginSide = false) :
    Keeps XactionRep.virginSide c.run := by
  cases c <;> simp only [Call.onVirginSide] at h <;>
    first
    | exact absurd h (by decide)
    | (simp only [Call.run, XactionRep.master, XactionRep.useAdapted, XactionRep.vbMakeMore,
        XactionRep.noteAbContentDone, XactionRep.noteAbContentAvailable,
        XactionRep.noteMoreBodySpaceAvailable, XactionRep.noteBodyConsumerAborted,
        XactionRep.moveAbContent, stopProducingFor, tieBody,
        XactionRep.adaptationDelayed, XactionRep.adaptationAborted,
        XactionRep.noteMoreBodyDataAvailable, XactionRep.noteBodyProductionEnded,
        XactionRep.noteBodyProducerAborted, XactionRep.noteInitiatorAborted,
        callMaster, tellQueryAborted, sendAnswer, mustStop]
       repeat' first
        | with_reducible exact keeps_getThis
        | with_reducible exact keeps_Must _
        | with_reducible exact keeps_crashUnless _
        | with_reducible exact keeps_pure _
        | with_reducible exact vbContent_keeps _ _
        | with_reducible exact answer_keeps
        | ((with_reducible (refine keeps_update ?_)); intro _; rfl)
        | ((with_reducible (refine keeps_record ?_)); intro _; rfl)
        | with_reducible refine keeps_bind ?_ (fun _ => ?_)
        | split
        | dsimp only)

section MaintainsRules
variable {α β γ : Type} {I : XactionRep → Prop}

theorem maintains_pure (a : α) : Maintains I (pure a : Job α) := fun _ h => h

theorem maintains_getThis : Maintains I getThis := fun _ h => h

theorem maintains_Must (c : Bool) : Maintains I (Must c) := by
  intro s h
  cases c <;> exact h

theorem maintains_crashUnless (c : Bool) : Maintains I (crashUnless c) := by
  intro s h
  cases c <;> exact h

theorem maintains_update {g : XactionRep → XactionRep} (h : ∀ s, I s → I (g s)) :
    Maintains I (update g) := fun s hs => h s hs

theorem maintains_record {e : Effect}
    (h : ∀ s : XactionRep, I s → I { s with log := s.log ++ [e] }) :
    Maintains I (record e) := fun s hs => h s hs

theorem maintains_bind {x : Job α} {g : α → Job β} (hx : Maintains I x)
    (hg : ∀ a, Maintains I (g a)) : Maintains I (x >>= g) := by
  intro s hs
  have h1 := hx s hs
  rw [apply_bind]
  cases h : x s with
  | ok a s' =>
    rw [h] at h1
    simp only [Result.andThen_ok]
    exact hg a s' h1
  | failed e s' =>
    rw [h] at h1
    exact h1

theorem Keeps.maintains {f : XactionRep → γ} {j : Job α} (hk : Keeps f j)
    (hI : ∀ s s', f s' = f s → I s → I s') : Maintains I j :=
  fun s hs => hI s _ (hk s) hs

end MaintainsRules

theorem consumerAgrees_of_virginSide (s s' : XactionRep)
    (h : s'.virginSide = s.virginSide) (hs : s.consumerAgrees) : s'.consumerAgrees := by
  simp only [XactionRep.virginSide, Prod.mk.injEq] at h
  unfold XactionRep.consumerAgrees at *
  rw [h.1, h.2]
  exact hs

/-- After `forgetVb` the transaction is no registered consumer and `makingVb` is not
`opOn`, whatever the state before. -/
theorem forgetVb_consumerAgrees (s : XactionRep) :
    (XactionRep.forgetVb s).state.consumerAgrees := by
  unfold XactionRep.forgetVb XactionRep.consumerAgrees
  by_cases hc : s.stillConsuming = true
  · cases hp : s.theVirginRep.theMessage.body_pipe with
    | none => simp [XactionRep.stillConsuming, hp] at hc
    | some p =>
      cases hm : s.makingVb <;>
      simp [hc, hp, hm, stopConsumingFrom, XactionRep.onVirgin, MessageRep.onMessage,
        Message.resetPipe, Message.setPipe, OperationState.forgotten] <;>
      simp [XactionRep.stillConsuming, Message.body_pipe]
  · cases hm : s.makingVb <;> simp [hc, hm, OperationState.forgotten] <;> simpa using hc

theorem sinkVb_consumerAgrees (s : XactionRep) :
    (XactionRep.sinkVb s).state.consumerAgrees := by
  unfold XactionRep.sinkVb
  cases hp : s.theVirginRep.theMessage.header.body_pipe with
  | none =>
    simp only [apply_bind, getThis_apply, Result.andThen_ok, hp, apply_pure]
    exact forgetVb_consumerAgrees s
  | some p =>
    simp only [apply_bind, getThis_apply, Result.andThen_ok, hp, update_apply, record_apply]
    exact forgetVb_consumerAgrees _

theorem forgetVb_maintains : Maintains XactionRep.consumerAgrees XactionRep.forgetVb :=
  fun s _ => forgetVb_consumerAgrees s

theorem sinkVb_maintains : Maintains XactionRep.consumerAgrees XactionRep.sinkVb :=
  fun s _ => sinkVb_consumerAgrees s

theorem start_keeps_virginRep : Keeps (fun s => s.theVirginRep) XactionRep.start := by
  simp only [XactionRep.start, callMaster]
  repeat' first
    | with_reducible exact keeps_getThis
    | with_reducible exact keeps_Must _
    | with_reducible exact keeps_crashUnless _
    | with_reducible exact keeps_pure _
    | ((with_reducible (refine keeps_update ?_)); intro _; rfl)
    | ((with_reducible (refine keeps_record ?_)); intro _; rfl)
    | with_reducible refine keeps_bind ?_ (fun _ => ?_)
    | split
    | dsimp only

theorem start_makingVb (s : XactionRep) :
    (XactionRep.start s).state.makingVb = s.makingVb ∨
      ((XactionRep.start s).state.makingVb = .opNever ∧
        s.theVirginRep.theMessage.body_pipe = none) := by
  cases hp : s.theVirginRep.theMessage.body_pipe <;> cases hh : s.adaptLogHistory <;>
    simp [XactionRep.start, hp, hh, callMaster] <;>
    repeat' split
  all_goals simp

theorem start_maintains : Maintains XactionRep.consumerAgrees XactionRep.start := by
  intro s hs
  have hv : (XactionRep.start s).state.theVirginRep = s.theVirginRep := start_keeps_virginRep s
  have hc : (XactionRep.start s).state.stillConsuming = s.stillConsuming := by
    simp only [XactionRep.stillConsuming, hv]
  rcases start_makingVb s with h | ⟨h1, h2⟩
  · unfold XactionRep.consumerAgrees at *
    rw [h, hc]
    exact hs
  · have : s.stillConsuming = false := by simp [XactionRep.stillConsuming, h2]
    simp [XactionRep.consumerAgrees, h1, hc, this]

theorem vbMake_maintains : Maintains XactionRep.consumerAgrees XactionRep.vbMake := by
  intro s hs
  obtain ⟨master, key, ⟨⟨⟨id, isReq, cloneOf, pipe⟩, attached⟩, bodyRep⟩, cause, ans, makingVb,
    proxyingAb, hid, vbf, abf, abe, ini, stop, hist, log⟩ := s
  cases pipe with
  | none =>
    cases attached <;> cases makingVb <;>
      simp_all [XactionRep.vbMake, XactionRep.consumerAgrees, XactionRep.stillConsuming,
        Message.body_pipe]
  | some p =>
    obtain ⟨w, c, prod, cons, auto, ended, more⟩ := p
    cases attached <;> cases makingVb <;> cases cons <;>
      simp_all [XactionRep.vbMake, XactionRep.consumerAgrees, XactionRep.stillConsuming,
        Message.body_pipe, XactionRep.onVirgin, MessageRep.onMessage, Message.setPipe,
        BodyPipe.setConsumerIfNotLate] <;>
      split <;> simp

theorem vbContentShift_maintains (n : Nat) :
    Maintains XactionRep.consumerAgrees (XactionRep.vbContentShift n) := by
  intro s hs
  obtain ⟨master, key, ⟨⟨⟨id, isReq, cloneOf, pipe⟩, attached⟩, bodyRep⟩, cause, ans, makingVb,
    proxyingAb, hid, vbf, abf, abe, ini, stop, hist, log⟩ := s
  cases pipe with
  | none =>
    cases attached <;>
      simp_all [XactionRep.vbContentShift, XactionRep.consumerAgrees, XactionRep.stillConsuming,
        Message.body_pipe]
  | some p =>
    cases attached <;>
      simp_all [XactionRep.vbContentShift, XactionRep.consumerAgrees, XactionRep.stillConsuming,
        Message.body_pipe, XactionRep.onVirgin, MessageRep.onMessage, Message.setPipe,
        BodyPipe.consume]

/-- Every entry point other than `swanSong` maintains the virgin half of the registration
invariant, whether it returns or throws. -/
theorem Call.maintains_consumerAgrees (c : Call) (h : c ≠ .swanSong) :
    Maintains XactionRep.consumerAgrees c.run := by
  by_cases hv : c.onVirginSide = false
  · exact (Call.keeps_virginSide c hv).maintains consumerAgrees_of_virginSide
  · cases c <;>
      first
      | exact absurd rfl hv
      | exact absurd rfl h
      | exact start_maintains
      | exact vbMake_maintains
      | exact vbContentShift_maintains _
      | (simp only [Call.run, XactionRep.useVirgin, XactionRep.blockVirgin, XactionRep.vbDiscard,
          XactionRep.vbStopMaking, XactionRep.preserveVb, sendAnswer]
         repeat' first
          | with_reducible exact maintains_getThis
          | with_reducible exact maintains_Must _
          | with_reducible exact maintains_crashUnless _
          | with_reducible exact maintains_pure _
          | with_reducible exact forgetVb_maintains
          | with_reducible exact sinkVb_maintains
          | ((with_reducible (refine maintains_update ?_)); intro _ h; exact h)
          | ((with_reducible (refine maintains_record ?_)); intro _ h; exact h)
          | with_reducible refine maintains_bind ?_ (fun _ => ?_)
          | split
          | dsimp only)

theorem runCalls_consumerAgrees (cs : List Call) (s : XactionRep)
    (hcs : ∀ c ∈ cs, c ≠ .swanSong) (hs : s.consumerAgrees) :
    (runCalls cs s).consumerAgrees := by
  induction cs generalizing s with
  | nil => exact hs
  | cons c cs ih =>
    simp only [runCalls]
    exact ih _ (fun c' hc' => hcs c' (List.mem_cons_of_mem _ hc'))
      (Call.maintains_consumerAgrees c (hcs c (List.mem_cons_self _ _)) s hs)

theorem producerAgrees_of_adaptedSide (s s' : XactionRep)
    (h : s'.adaptedSide = s.adaptedSide) (hs : s.producerAgrees) : s'.producerAgrees := by
  simp only [XactionRep.adaptedSide, Prod.mk.injEq] at h
  unfold XactionRep.producerAgrees XactionRep.stillProducing at *
  rw [h.1, h.2]
  exact hs

theorem moveAbContent_maintains (space : Nat) :
    Maintains XactionRep.producerAgrees (XactionRep.moveAbContent space) := by
  intro s hs
  obtain ⟨master, key, virgin, cause, ans, makingVb,
    proxyingAb, hid, vbf, abf, abe, ini, stop, hist, log⟩ := s
  by_cases hon : proxyingAb = .opOn
  · subst hon
    cases master with
    | none => simpa [XactionRep.moveAbContent] using hs
    | some x =>
      cases ans with
      | none => simp [XactionRep.producerAgrees, XactionRep.stillProducing] at hs
      | some rep =>
        obtain ⟨⟨⟨id, isReq, cloneOf, pipe⟩, attached⟩, bodyRep⟩ := rep
        cases pipe with
        | none => cases attached <;>
            simp [XactionRep.producerAgrees, XactionRep.stillProducing, Message.body_pipe] at hs
        | some p =>
          cases attached
          · simp [XactionRep.producerAgrees, XactionRep.stillProducing, Message.body_pipe] at hs
          · simp only [XactionRep.producerAgrees, XactionRep.stillProducing, Message.body_pipe,
              Option.bind, if_true, true_iff] at hs
            simp only [XactionRep.moveAbContent, apply_bind, getThis_apply, Result.andThen_ok,
              Must_apply, decide_True, if_true]
            by_cases h0 : x.abContent.length = 0 ∧ abf = true
            · simp [h0, XactionRep.answer, stopProducingFor, Message.body_pipe,
                XactionRep.onAnswer, MessageRep.onMessage, Message.setPipe, Message.resetPipe,
                XactionRep.producerAgrees, XactionRep.stillProducing]
            · by_cases h1 : 0 < x.abContent.length
              · simp only [h0, h1, if_false, if_true]
                simp [XactionRep.answer, Message.body_pipe, XactionRep.onAnswer,
                  MessageRep.onMessage, Message.setPipe, BodyPipe.putMoreData]
                split <;>
                simp [XactionRep.producerAgrees, XactionRep.stillProducing, Message.body_pipe, hs]
              · simp only [h0, h1, if_false]
                simp [XactionRep.producerAgrees, XactionRep.stillProducing, Message.body_pipe, hs]
  · simpa [XactionRep.moveAbContent, hon] using hs

theorem useVirgin_keeps_answer : Keeps (fun s => s.theAnswerRep) XactionRep.useVirgin := by
  simp only [XactionRep.useVirgin, XactionRep.preserveVb, XactionRep.forgetVb, stopConsumingFrom,
    sendAnswer]
  repeat' first
    | with_reducible exact keeps_getThis
    | with_reducible exact keeps_Must _
    | with_reducible exact keeps_crashUnless _
    | with_reducible exact keeps_pure _
    | ((with_reducible (refine keeps_update ?_)); intro _; rfl)
    | ((with_reducible (refine keeps_record ?_)); intro _; rfl)
    | with_reducible refine keeps_bind ?_ (fun _ => ?_)
    | split
    | dsimp only

theorem blockVirgin_keeps_answer : Keeps (fun s => s.theAnswerRep) XactionRep.blockVirgin := by
  simp only [XactionRep.blockVirgin, XactionRep.sinkVb, XactionRep.forgetVb, stopConsumingFrom,
    sendAnswer]
  repeat' first
    | with_reducible exact keeps_getThis
    | with_reducible exact keeps_Must _
    | with_reducible exact keeps_crashUnless _
    | with_reducible exact keeps_pure _
    | ((with_reducible (refine keeps_update ?_)); intro _; rfl)
    | ((with_reducible (refine keeps_record ?_)); intro _; rfl)
    | with_reducible refine keeps_bind ?_ (fun _ => ?_)
    | split
    | dsimp only

/-- A step that keeps the adapted message and either keeps `proxyingAb` or moves it from
`opUndecided` to `opNever` maintains the adapted half of the invariant. -/
theorem producerAgrees_of_decision (s s' : XactionRep) (ha : s'.theAnswerRep = s.theAnswerRep)
    (hp : s'.proxyingAb = s.proxyingAb ∨
      (s.proxyingAb = .opUndecided ∧ s'.proxyingAb = .opNever))
    (hs : s.producerAgrees) : s'.producerAgrees := by
  unfold XactionRep.producerAgrees XactionRep.stillProducing at *
  rw [ha]
  rcases hp with h | ⟨h1, h2⟩
  · rw [h]
    exact hs
  · rw [h1] at hs
    rw [h2]
    constructor
    · intro h
      cases h
    · intro h
      cases (hs.2 h)

theorem useVirgin_maintains_producer :
    Maintains XactionRep.producerAgrees XactionRep.useVirgin := by
  intro s hs
  refine producerAgrees_of_decision s _ (useVirgin_keeps_answer s) ?_ hs
  by_cases h : s.proxyingAb = .opUndecided
  · exact Or.inr ⟨h, (useVirgin_undecided s h).1⟩
  · exact Or.inl (Disposition.run_decided .useVirgin s h).2.2

theorem blockVirgin_maintains_producer :
    Maintains XactionRep.producerAgrees XactionRep.blockVirgin := by
  intro s hs
  refine producerAgrees_of_decision s _ (blockVirgin_keeps_answer s) ?_ hs
  by_cases h : s.proxyingAb = .opUndecided
  · obtain ⟨s', hs', -, -, -, hp, -⟩ := blockVirgin_apply s h
    exact Or.inr ⟨h, by rw [hs']; exact hp⟩
  · exact Or.inl (Disposition.run_decided .blockVirgin s h).2.2

/-- A `useAdapted` that returns, called with a message new to the transaction, maintains
the adapted half of the invariant. -/
theorem useAdapted_returning_producer (m : Option MessageRep) (s s' : XactionRep)
    (hm : (Call.useAdapted m).fresh = true) (h : XactionRep.useAdapted m s = .ok () s') :
    s'.producerAgrees := by
  by_cases hu : s.proxyingAb = .opUndecided
  swap
  · have := Result.not_succeeded_of_rejected _ (Disposition.run_decided (.useAdapted m) s hu).1
    simp [Disposition.run, h, Result.succeeded] at this
  cases m with
  | none => simp [XactionRep.useAdapted] at h
  | some m =>
    obtain ⟨⟨⟨id, isReq, cloneOf, pipe⟩, attached⟩, bodyRep⟩ := m
    · cases bodyRep
      · cases pipe with
        | none =>
          cases attached <;>
          simp [XactionRep.useAdapted, XactionRep.answer, hu, sendAnswer] at h <;>
          subst h <;>
          simp [XactionRep.producerAgrees, XactionRep.stillProducing, Message.body_pipe]
        | some p =>
          simp [Call.fresh, HttpMsg.fresh, BodyPipe.unregistered] at hm
          cases attached <;>
          simp [XactionRep.useAdapted, XactionRep.answer, hu, sendAnswer] at h <;>
          subst h <;>
          simp [XactionRep.producerAgrees, XactionRep.stillProducing, Message.body_pipe, hm]
      · cases pipe with
        | none =>
          cases hmr : s.theMaster <;>
          simp [XactionRep.useAdapted, XactionRep.answer, hu, sendAnswer, tieBody,
            Message.body_pipe, XactionRep.onAnswer, MessageRep.onMessage, Message.setPipe,
            callMaster, hmr] at h
          subst h
          simp [XactionRep.producerAgrees, XactionRep.stillProducing, Message.body_pipe,
            BodyPipe.create]
        | some p =>
          simp [XactionRep.useAdapted, XactionRep.answer, hu] at h

/-- A `noteBodyConsumerAborted` that returns maintains the adapted half of the invariant. -/
theorem noteBodyConsumerAborted_returning_producer (s s' : XactionRep)
    (h : XactionRep.noteBodyConsumerAborted s = .ok () s') : s'.producerAgrees := by
  obtain ⟨master, key, virgin, cause, ans, makingVb,
    proxyingAb, hid, vbf, abf, abe, ini, stop, hist, log⟩ := s
  by_cases hon : proxyingAb = .opOn
  · subst hon
    cases ans with
    | none => simp [XactionRep.noteBodyConsumerAborted, XactionRep.answer] at h
    | some rep =>
      obtain ⟨⟨⟨id, isReq, cloneOf, pipe⟩, attached⟩, bodyRep⟩ := rep
      cases pipe with
      | none =>
        cases attached <;>
        simp [XactionRep.noteBodyConsumerAborted, XactionRep.answer, stopProducingFor,
          Message.body_pipe] at h
      | some p =>
        cases attached
        · simp [XactionRep.noteBodyConsumerAborted, XactionRep.answer, stopProducingFor,
            Message.body_pipe] at h
        · cases master with
          | none =>
            simp [XactionRep.noteBodyConsumerAborted, XactionRep.answer, stopProducingFor,
              Message.body_pipe] at h
          | some x =>
            simp [XactionRep.noteBodyConsumerAborted, XactionRep.answer, stopProducingFor,
              Message.body_pipe, XactionRep.onAnswer, MessageRep.onMessage, Message.setPipe,
              Message.resetPipe, callMaster] at h
            subst h
            simp [XactionRep.producerAgrees, XactionRep.stillProducing, Message.body_pipe]
  · simp [XactionRep.noteBodyConsumerAborted, hon] at h

theorem noteAbContentDone_maintains_producer (atEnd : Bool) (space : Nat) :
    Maintains XactionRep.producerAgrees (XactionRep.noteAbContentDone atEnd space) := by
  simp only [XactionRep.noteAbContentDone]
  repeat' first
    | with_reducible exact maintains_getThis
    | with_reducible exact maintains_Must _
    | with_reducible exact moveAbContent_maintains _
    | ((with_reducible (refine maintains_update ?_)); intro _ h; exact h)
    | with_reducible refine maintains_bind ?_ (fun _ => ?_)

theorem noteAbContentAvailable_maintains_producer (space : Nat) :
    Maintains XactionRep.producerAgrees (XactionRep.noteAbContentAvailable space) := by
  simp only [XactionRep.noteAbContentAvailable]
  repeat' first
    | with_reducible exact maintains_getThis
    | with_reducible exact maintains_Must _
    | with_reducible exact moveAbContent_maintains _
    | with_reducible refine maintains_bind ?_ (fun _ => ?_)

theorem noteMoreBodySpaceAvailable_maintains_producer (space : Nat) :
    Maintains XactionRep.producerAgrees (XactionRep.noteMoreBodySpaceAvailable space) := by
  simp only [XactionRep.noteMoreBodySpaceAvailable]
  repeat' first
    | with_reducible exact maintains_getThis
    | with_reducible exact maintains_Must _
    | with_reducible exact moveAbContent_maintains _
    | with_reducible refine maintains_bind ?_ (fun _ => ?_)

/-- Every entry point other than `swanSong`, `useAdapted` and `noteBodyConsumerAborted`
maintains the adapted half of the registration invariant, whether it returns or throws. -/
theorem Call.maintains_producerAgrees (c : Call) (hc : c ≠ .swanSong)
    (hp : c.checksAfterChange = false) : Maintains XactionRep.producerAgrees c.run := by
  by_cases ha : c.onAdaptedSide = false
  · exact (Call.keeps_adaptedSide c ha).maintains producerAgrees_of_adaptedSide
  · cases c <;>
      first
      | exact absurd rfl ha
      | exact absurd rfl hc
      | exact Bool.noConfusion hp
      | exact useVirgin_maintains_producer
      | exact blockVirgin_maintains_producer
      | exact noteAbContentDone_maintains_producer _ _
      | exact noteAbContentAvailable_maintains_producer _
      | exact noteMoreBodySpaceAvailable_maintains_producer _

/-- The two entry points left, called with arguments new to the transaction, maintain the
adapted half of the registration invariant when they return. -/
theorem Call.returning_producerAgrees (c : Call) (hf : c.fresh = true)
    (hp : c.checksAfterChange = true) (s : XactionRep) (h : (c.run s).succeeded = true) :
    (c.run s).state.producerAgrees := by
  cases hr : c.run s with
  | failed e s' =>
    rw [hr] at h
    cases h
  | ok a s' =>
    cases c <;>
      first
      | exact Bool.noConfusion hp
      | exact useAdapted_returning_producer _ s s' hf hr
      | exact noteBodyConsumerAborted_returning_producer s s' hr

theorem runCalls_producerAgrees (cs : List Call) (s : XactionRep)
    (hcs : ∀ c ∈ cs, c ≠ .swanSong ∧ c.fresh = true)
    (hret : returnWhere Call.checksAfterChange cs s = true)
    (hs : s.producerAgrees) : (runCalls cs s).producerAgrees := by
  induction cs generalizing s with
  | nil => exact hs
  | cons c cs ih =>
    simp only [returnWhere, Bool.and_eq_true, Bool.or_eq_true, Bool.not_eq_true'] at hret
    simp only [runCalls]
    have hc := hcs c (List.mem_cons_self _ _)
    refine ih _ (fun c' hc' => hcs c' (List.mem_cons_of_mem _ hc')) hret.2 ?_
    by_cases hp : c.checksAfterChange = true
    · rcases hret.1 with h | h
      · rw [hp] at h
        cases h
      · exact Call.returning_producerAgrees c hc.2 hp s h
    · exact Call.maintains_producerAgrees c hc.1 (by simpa using hp) s hs

theorem construct_consumerAgrees (virginHeader : HttpMsg) (virginCause : Option HttpMsg)
    (key : String) (history : Option History) (h : virginHeader.fresh = true) :
    (XactionRep.construct virginHeader virginCause key history).consumerAgrees := by
  obtain ⟨id, isReq, cloneOf, pipe⟩ := virginHeader
  cases pipe with
  | none =>
    simp [XactionRep.construct, XactionRep.consumerAgrees, XactionRep.stillConsuming,
      MessageRep.wrap, Message.body_pipe]
  | some p =>
    simp [HttpMsg.fresh, BodyPipe.unregistered] at h
    simp [XactionRep.construct, XactionRep.consumerAgrees, XactionRep.stillConsuming,
      MessageRep.wrap, Message.body_pipe, h]

theorem construct_producerAgrees (virginHeader : HttpMsg) (virginCause : Option HttpMsg)
    (key : String) (history : Option History) :
    (XactionRep.construct virginHeader virginCause key history).producerAgrees := by
  simp [XactionRep.construct, XactionRep.producerAgrees, XactionRep.stillProducing]

/-! ## C2: the adapted half of the registration invariant -/

theorem moveAbContent_delivering (L : List Nat) (space : Nat) (s : XactionRep)
    (h : Delivering L s) : Delivering L (XactionRep.moveAbContent space s).state := by
  obtain ⟨x, rep, p, hm, ha, hp, hatt, hw, hle, hb, hst⟩ := h
  obtain ⟨master, key, virgin, cause, ans, makingVb,
    proxyingAb, hid, vbf, abf, abe, ini, stop, hist, log⟩ := s
  simp only at hm ha hatt hb hst
  subst hm ha
  obtain ⟨⟨⟨id, isReq, cloneOf, pipe⟩, attached⟩, bodyRep⟩ := rep
  simp only at hp hatt
  subst hp
  by_cases hon : proxyingAb = .opOn
  · subst hon
    simp only [forall_true_left] at hatt
    subst hatt
    simp only [XactionRep.moveAbContent, apply_bind, getThis_apply, Result.andThen_ok,
      Must_apply, decide_True, if_true]
    by_cases h0 : x.abContent.length = 0 ∧ abf = true
    · have hx : x.abCursor = x.abOutput.length := by
        have := h0.1
        simp [AdapterXaction.abContent] at this
        omega
      simp [h0, XactionRep.answer, stopProducingFor, Message.body_pipe,
        XactionRep.onAnswer, MessageRep.onMessage, Message.setPipe, Message.resetPipe]
      refine ⟨x, _, p.clearProducer, rfl, rfl, rfl, ?_⟩
      simp [BodyPipe.clearProducer, hw, hle, hb, hx, bytesPutIn]
    · by_cases h1 : 0 < x.abContent.length
      · simp only [h0, h1, if_false, if_true]
        simp only [XactionRep.answer, Message.body_pipe, if_true, apply_bind,
          Result.andThen_ok, update_apply, record_apply, BodyPipe.putMoreData]
        have hlen : x.abContent.length = x.abOutput.length - x.abCursor := by
          simp [AdapterXaction.abContent]
        have htake : x.abOutput.take x.abCursor ++ (x.abContent).take (min x.abContent.length space)
            = x.abOutput.take (x.abCursor + min x.abContent.length space) := by
          rw [List.take_add]
          rfl
        by_cases hu : min x.abContent.length space = 0
        · simp only [hu, ne_eq, not_true_eq_false, if_false, apply_ite, apply_pure,
            Result.state_ok, List.take_zero, List.append_nil]
          refine ⟨x, _, _, rfl, rfl, rfl, ?_⟩
          simp [XactionRep.onAnswer, MessageRep.onMessage, Message.setPipe, hw, hle, hb,
            bytesPutIn]
        · simp only [hu, ne_eq, not_false_eq_true, if_true, apply_bind, update_apply,
            Result.andThen_ok, record_apply, Result.state_ok]
          refine ⟨x.abContentShift (min x.abContent.length space), _, _, rfl, rfl, rfl, ?_⟩
          simp only [XactionRep.onAnswer, MessageRep.onMessage, Message.setPipe,
            AdapterXaction.abContentShift, hw, htake, bytesPutIn_append, hb, bytesPutIn,
            List.append_nil, List.append_assoc, true_or, and_true, forall_true_left, true_and]
          omega
      · simp only [apply_ite, if_neg h0, if_neg h1, apply_pure, Result.state_ok]
        exact ⟨x, _, p, rfl, rfl, rfl, fun _ => rfl, hw, hle, hb, hst⟩
  · simp only [XactionRep.moveAbContent, apply_bind, getThis_apply, Result.andThen_ok,
      Must_apply, hon, decide_False, if_false, Bool.false_eq_true, Result.state_failed]
    exact ⟨x, _, p, rfl, rfl, rfl, hatt, hw, hle, hb, hst⟩

theorem DrainStep.apply_delivering (L : List Nat) (d : DrainStep) (s : XactionRep)
    (h : Delivering L s) : Delivering L (d.apply s) := by
  cases d with
  | produced bytes =>
    simp only [DrainStep.apply]
    split
    · exact h
    · rename_i hl
      obtain ⟨x, rep, p, hm, ha, hp, hatt, hw, hle, hb, hst⟩ := h
      refine ⟨{ x with abOutput := x.abOutput ++ bytes }, rep, p, by simp [hm], ha, hp, hatt, ?_,
        ?_, hb, ?_⟩
      · simp only [hw]
        exact (List.take_append_of_le_length hle).symm
      · simp only [List.length_append]
        omega
      · rcases hst with h1 | ⟨h1, h2, h3⟩
        · exact Or.inl h1
        · exact absurd h2 hl
  | noteAbContentAvailable space =>
    simp only [DrainStep.apply, XactionRep.noteAbContentAvailable, apply_bind, getThis_apply,
      Result.andThen_ok, Must_apply]
    split
    · exact moveAbContent_delivering L space s h
    · exact h
  | noteAbContentDone atEnd space =>
    simp only [DrainStep.apply, XactionRep.noteAbContentDone, apply_bind, getThis_apply,
      Result.andThen_ok, Must_apply]
    split
    · rename_i hg
      simp only [Result.andThen_ok, update_apply]
      refine moveAbContent_delivering L space _ ?_
      obtain ⟨x, rep, p, hm, ha, hp, hatt, hw, hle, hb, hst⟩ := h
      refine ⟨x, rep, p, hm, ha, hp, hatt, hw, hle, hb, Or.inl ?_⟩
      simp only [Bool.and_eq_true, decide_eq_true_eq] at hg
      exact hg.1
    · exact h
  | noteMoreBodySpaceAvailable space =>
    simp only [DrainStep.apply, XactionRep.noteMoreBodySpaceAvailable, apply_bind, getThis_apply,
      Result.andThen_ok, Must_apply]
    split
    · exact moveAbContent_delivering L space s h
    · exact h

theorem runDrains_delivering (L : List Nat) (ds : List DrainStep) (s : XactionRep)
    (h : Delivering L s) : Delivering L (runDrains ds s) := by
  induction ds generalizing s with
  | nil => exact h
  | cons d ds ih => exact ih _ (DrainStep.apply_delivering L d s h)

/-! ## C5: adapted body bytes under backpressure -/

/-- C5: adapted body bytes are delivered faithfully under backpressure.  Start in any
state in which the transaction proxies (`proxyingAb == opOn`) a newly tied adapted pipe
for an adapter that has shifted nothing yet.  After every sequence of drains
(`moveAbContent` run from `noteAbContentAvailable`, `noteAbContentDone` or
`noteMoreBodySpaceAvailable`), each offered to a pipe with an arbitrary room `space` and
interleaved with the module producing more output, the bytes written to the pipe, which
are the concatenation of the bytes the `putMoreData` calls put, are exactly the first
`abCursor` bytes of the module's output, `abCursor` being the total number accepted; and
if `proxyingAb` has reached `opComplete` they are the module's entire output. -/
theorem adapted_bytes_delivered_in_order (s : XactionRep) (x : AdapterXaction)
    (rep : MessageRep) (p : BodyPipe) (ds : List DrainStep)
    (hon : s.proxyingAb = .opOn) (hm : s.theMaster = some x) (hc : x.abCursor = 0)
    (ha : s.theAnswerRep = some rep) (hatt : rep.theMessage.attached = true)
    (hp : rep.theMessage.header.body_pipe = some p) (hw : p.written = []) :
    ∃ x' p', (runDrains ds s).theMaster = some x' ∧ (runDrains ds s).adaptedPipe = some p' ∧
      p'.written = x'.abOutput.take x'.abCursor ∧
      bytesPutIn (runDrains ds s).log = bytesPutIn s.log ++ p'.written ∧
      x'.abCursor = p'.written.length ∧
      ((runDrains ds s).proxyingAb = .opComplete → p'.written = x'.abOutput) := by
  have h0 : Delivering (bytesPutIn s.log) s :=
    ⟨x, rep, p, hm, ha, hp, fun _ => hatt, by simp [hw, hc], by simp [hc], by simp [hw],
      Or.inl hon⟩
  obtain ⟨x', rep', p', hm', ha', hp', -, hw', hle', hb', hst'⟩ :=
    runDrains_delivering (bytesPutIn s.log) ds s h0
  refine ⟨x', p', hm', by simp [XactionRep.adaptedPipe, ha', hp'], hw', hb', ?_, ?_⟩
  · simp [hw', hle']
  · intro hcomp
    rcases hst' with h1 | ⟨-, -, h3⟩
    · rw [hcomp] at h1
      cases h1
    · rw [hw', h3, List.take_length]

/-- Witness for C5: the module offers 100 bytes; the pipe accepts 40 of them, and a later
more-room callback, offered the same remaining 60, accepts them; once the module has
declared its output ended the next drain completes with all 100 bytes in the pipe. -/
theorem adapted_bytes_delivered_in_order_witness :
    ((runDrains [.produced (List.range 100), .noteAbContentAvailable 40]
        Sample.proxying).adaptedPipe.map fun p => p.written) = some (List.range 40) ∧
    ((runDrains [.produced (List.range 100), .noteAbContentAvailable 40,
        .noteMoreBodySpaceAvailable 60] Sample.proxying).adaptedPipe.map fun p => p.written)
      = some (List.range 100) ∧
    (runDrains [.produced (List.range 100), .noteAbContentAvailable 40,
        .noteMoreBodySpaceAvailable 60, .noteAbContentDone true 7]
        Sample.proxying).proxyingAb = .opComplete ∧
    ∃ x' p',
      (runDrains [.produced (List.range 100), .noteAbContentAvailable 40,
        .noteMoreBodySpaceAvailable 60, .noteAbContentDone true 7]
        Sample.proxying).theMaster = some x' ∧
      (runDrains [.produced (List.range 100), .noteAbContentAvailable 40,
        .noteMoreBodySpaceAvailable 60, .noteAbContentDone true 7]
        Sample.proxying).adaptedPipe = some p' ∧
      p'.written = x'.abOutput.take x'.abCursor ∧
      bytesPutIn (runDrains [.produced (List.range 100), .noteAbContentAvailable 40,
        .noteMoreBodySpaceAvailable 60, .noteAbContentDone true 7]
        Sample.proxying).log = bytesPutIn Sample.proxying.log ++ p'.written ∧
      x'.abCursor = p'.written.length ∧
      ((runDrains [.produced (List.range 100), .noteAbContentAvailable 40,
        .noteMoreBodySpaceAvailable 60, .noteAbContentDone true 7]
        Sample.proxying).proxyingAb = .opComplete → p'.written = x'.abOutput) :=
  ⟨by decide, by decide, by decide,
   adapted_bytes_delivered_in_order Sample.proxying Sample.adapter Sample.tiedMessage
    BodyPipe.create
    [.produced (List.range 100), .noteAbContentAvailable 40, .noteMoreBodySpaceAvailable 60,
      .noteAbContentDone true 7]
    (by decide) (by decide) rfl (by decide) rfl rfl rfl⟩

theorem completed_of_adaptedSide (s s' : XactionRep)
    (h : s'.adaptedSide = s.adaptedSide) (hs : Completed s) : Completed s' := by
  simp only [XactionRep.adaptedSide, Prod.mk.injEq] at h
  unfold Completed XactionRep.stillProducing at *
  rw [h.1, h.2]
  exact hs

theorem swanSongAdapted_maintains_completed : Maintains Completed XactionRep.swanSongAdapted := by
  intro s hs
  obtain ⟨master, key, virgin, cause, ans, makingVb,
    proxyingAb, hid, vbf, abf, abe, ini, stop, hist, log⟩ := s
  cases ans with
  | none => simpa [XactionRep.swanSongAdapted] using hs
  | some rep =>
    obtain ⟨⟨⟨id, isReq, cloneOf, pipe⟩, attached⟩, bodyRep⟩ := rep
    cases pipe with
    | none =>
      cases attached <;>
      simpa [XactionRep.swanSongAdapted, XactionRep.answer, Message.body_pipe] using hs
    | some p =>
      cases attached
      · simpa [XactionRep.swanSongAdapted, XactionRep.answer, Message.body_pipe] using hs
      · have hp : p.producing = false := by
          simpa [Completed, XactionRep.stillProducing, Message.body_pipe] using hs.2
        simpa [XactionRep.swanSongAdapted, XactionRep.answer, Message.body_pipe, hp] using hs

theorem swanSong_rest_keeps_adaptedSide :
    Keeps XactionRep.adaptedSide (do
      XactionRep.swanSongVirgin
      XactionRep.terminateMaster
      XactionRep.swanSongHistory
      Initiate.swanSong : Job Unit) := by
  simp only [XactionRep.swanSongVirgin, XactionRep.terminateMaster, XactionRep.swanSongHistory,
    Initiate.swanSong, stopConsumingFrom, tellQueryAborted, sendAnswer]
  repeat' first
    | with_reducible exact keeps_getThis
    | with_reducible exact keeps_Must _
    | with_reducible exact keeps_crashUnless _
    | with_reducible exact keeps_pure _
    | ((with_reducible (refine keeps_update ?_)); intro _; rfl)
    | ((with_reducible (refine keeps_record ?_)); intro _; rfl)
    | with_reducible refine keeps_bind ?_ (fun _ => ?_)
    | split
    | dsimp only

theorem swanSong_maintains_completed : Maintains Completed XactionRep.swanSong := by
  unfold XactionRep.swanSong
  exact maintains_bind swanSongAdapted_maintains_completed
    (fun _ => swanSong_rest_keeps_adaptedSide.maintains completed_of_adaptedSide)

theorem useAdapted_maintains_completed (m : Option MessageRep)
    (hf : (Call.useAdapted m).fresh = true) :
    Maintains Completed (XactionRep.useAdapted m) := by
  intro s hs
  have hu : s.proxyingAb ≠ .opUndecided := by
    rw [hs.1]
    decide
  cases m with
  | none => simpa [XactionRep.useAdapted] using hs
  | some m =>
    obtain ⟨⟨⟨id, isReq, cloneOf, pipe⟩, attached⟩, bodyRep⟩ := m
    simp only [XactionRep.useAdapted, apply_bind, Must_apply, Option.isSome_some, if_true,
      Result.andThen_ok, update_apply, getThis_apply, hu, decide_False, if_false,
      Bool.false_eq_true, Result.andThen_failed, Result.state_failed]
    refine ⟨hs.1, ?_⟩
    cases pipe with
    | none => cases attached <;> simp [XactionRep.stillProducing, Message.body_pipe]
    | some p =>
      simp [Call.fresh, HttpMsg.fresh, BodyPipe.unregistered] at hf
      cases attached <;> simp [XactionRep.stillProducing, Message.body_pipe, hf]

/-- No entry point, returning or throwing, takes the transaction out of the completed
state of its adapted side (messages handed to `useAdapted` being new to it). -/
theorem Call.maintains_completed (c : Call) (hf : c.fresh = true) :
    Maintains Completed c.run := by
  by_cases ha : c.onAdaptedSide = false
  · exact (Call.keeps_adaptedSide c ha).maintains completed_of_adaptedSide
  · cases c <;>
      first
      | exact absurd rfl ha
      | exact swanSong_maintains_completed
      | exact useAdapted_maintains_completed _ hf
      | (intro s hs
         have hu : s.proxyingAb ≠ .opUndecided := by rw [hs.1]; decide
         exact completed_of_adaptedSide s _
           (by
             simp only [XactionRep.adaptedSide, Prod.mk.injEq]
             first
             | exact ⟨(Disposition.run_decided .useVirgin s hu).2.2, useVirgin_keeps_answer s⟩
             | exact ⟨(Disposition.run_decided .blockVirgin s hu).2.2, blockVirgin_keeps_answer s⟩)
           hs)
      | (intro s hs
         have hon : s.proxyingAb ≠ .opOn := by rw [hs.1]; decide
         simpa [Call.run, XactionRep.noteAbContentDone, XactionRep.noteAbContentAvailable,
           XactionRep.noteMoreBodySpaceAvailable, XactionRep.noteBodyConsumerAborted,
           XactionRep.moveAbContent, hon] using hs)

theorem runCalls_completed (cs : List Call) (s : XactionRep)
    (hcs : ∀ c ∈ cs, c.fresh = true) (hs : Completed s) : Completed (runCalls cs s) := by
  induction cs generalizing s with
  | nil => exact hs
  | cons c cs ih =>
    simp only [runCalls]
    exact ih _ (fun c' hc' => hcs c' (List.mem_cons_of_mem _ hc'))
      (Call.maintains_completed c (hcs c (List.mem_cons_self _ _)) s hs)

/-- The completing drain: in `opOn`, with the adapted message's body pipe pointer set, no
module byte available and the end of production latched, `moveAbContent` unregisters the
producer with the latched flag and completes. -/
theorem moveAbContent_completes (s : XactionRep) (x : AdapterXaction) (p : BodyPipe)
    (space : Nat)
    (hon : s.proxyingAb = .opOn) (hm : s.theMaster = some x) (hz : x.abContent = [])
    (hl : s.abProductionFinished = true)
    (hp : (s.theAnswerRep.bind fun rep => rep.theMessage.body_pipe) = some p) :
    ∃ s', XactionRep.moveAbContent space s = .ok () s' ∧
      s'.log = s.log ++ [.stopProducingFor s.abProductionAtEnd] ∧
      s'.proxyingAb = .opComplete ∧ s'.stillProducing = false ∧
      s'.adaptedPipe = some p.clearProducer := by
  obtain ⟨master, key, virgin, cause, ans, makingVb,
    proxyingAb, hid, vbf, abf, abe, ini, stop, hist, log⟩ := s
  simp only at hon hm hl
  subst hon hm hl
  cases ans with
  | none => simp at hp
  | some rep =>
    obtain ⟨⟨⟨id, isReq, cloneOf, pipe⟩, attached⟩, bodyRep⟩ := rep
    cases pipe with
    | none => cases attached <;> simp [Message.body_pipe] at hp
    | some q =>
      cases attached
      · simp [Message.body_pipe] at hp
      · simp only [Option.bind, Message.body_pipe, if_true, Option.some.injEq] at hp
        subst hp
        simp [XactionRep.moveAbContent, hz, XactionRep.answer, stopProducingFor,
          Message.body_pipe, XactionRep.onAnswer, MessageRep.onMessage, Message.setPipe,
          Message.resetPipe, XactionRep.stillProducing, XactionRep.adaptedPipe]

/-! ## C6: completion of the adapted body -/

/-- C7 as stated fails in a state without adapter handle: on a newly constructed
transaction (`proxyingAb == opUndecided`, `master` not called yet) `useAdapted` of a message
with a body does not return and never calls the adapter's `abMake`; line 237 dereferences
the null `theMaster`. -/
theorem useAdapted_counterexample :
    Sample.transaction.proxyingAb = .opUndecided ∧
    Sample.adaptedMessage.theBodyRep = true ∧
    Sample.adaptedMessage.theMessage.header.body_pipe = none ∧
    (XactionRep.useAdapted (some Sample.adaptedMessage) Sample.transaction).succeeded = false ∧
    Effect.abMake ∉
      (XactionRep.useAdapted (some Sample.adaptedMessage) Sample.transaction).state.log := by
  decide

/-- C7 (amended): in every state with `proxyingAb == opUndecided` and for every message
`m`: if `m` has no body, `useAdapted(m)` returns having made exactly one collaborator
call, the answer `Forward(m's header)`; it sets `proxyingAb = opNever`, ties no pipe (the
message is stored as it was given) and does not call `abMake`.  If `m` has a body, its
header has no body pipe yet and the transaction holds its adapter handle, `useAdapted(m)`
returns having made exactly three collaborator calls, in this order: `tieBody`, the
answer `Forward(m's header)` with the header now referring to the newly created pipe, and
`abMake`, once; it sets `proxyingAb = opOn` and leaves the transaction the registered
producer of that pipe. -/
theorem useAdapted_forwards (s : XactionRep) (m : MessageRep)
    (hu : s.proxyingAb = .opUndecided) :
    (m.theBodyRep = false →
      ∃ s', XactionRep.useAdapted (some m) s = .ok () s' ∧
        s'.log = s.log ++ [.sendAnswer (.Forward m.theMessage.header)] ∧
        s'.proxyingAb = .opNever ∧ s'.theAnswerRep = some m) ∧
    (m.theBodyRep = true → m.theMessage.header.body_pipe = none →
      ∀ x, s.theMaster = some x →
      ∃ s', XactionRep.useAdapted (some m) s = .ok () s' ∧
        s'.log = s.log ++ [.tieBody,
          .sendAnswer (.Forward { m.theMessage.header with body_pipe := some BodyPipe.create }),
          .abMake] ∧
        s'.proxyingAb = .opOn ∧ s'.stillProducing = true ∧
        s'.adaptedPipe = some BodyPipe.create ∧ s'.theMaster = some x) := by
  obtain ⟨⟨⟨id, isReq, cloneOf, pipe⟩, attached⟩, bodyRep⟩ := m
  constructor
  · intro hb
    simp only at hb
    subst hb
    simp [XactionRep.useAdapted, XactionRep.answer, hu, sendAnswer]
  · intro hb hp x hm
    simp only at hb hp
    subst hb hp
    simp [XactionRep.useAdapted, XactionRep.answer, hu, sendAnswer, tieBody, Message.body_pipe,
      XactionRep.onAnswer, MessageRep.onMessage, Message.setPipe, callMaster, hm,
      XactionRep.stillProducing, XactionRep.adaptedPipe, BodyPipe.create]

/-- Witness for C7 (amended): on the started sample transaction, `useAdapted` of the
bodyless sample message forwards and leaves `opNever`; `useAdapted` of the sample message
with a body ties, forwards, then calls `abMake`. -/
theorem useAdapted_forwards_witness :
    (XactionRep.useAdapted (some Sample.bodylessMessage)
      (runCalls [.master (some Sample.adapter), .start] Sample.transaction)).state.proxyingAb
        = .opNever ∧
    ∃ s', XactionRep.useAdapted (some Sample.adaptedMessage)
        (runCalls [.master (some Sample.adapter), .start] Sample.transaction) = .ok () s' ∧
      s'.log = (runCalls [.master (some Sample.adapter), .start] Sample.transaction).log ++
        [.tieBody,
         .sendAnswer (.Forward { Sample.adaptedMessage.theMessage.header with
            body_pipe := some BodyPipe.create }),
         .abMake] ∧
      s'.proxyingAb = .opOn ∧ s'.stillProducing = true ∧
      s'.adaptedPipe = some BodyPipe.create ∧ s'.theMaster = some Sample.adapter :=
  ⟨by decide,
   (useAdapted_forwards (runCalls [.master (some Sample.adapter), .start] Sample.transaction)
      Sample.adaptedMessage (by decide)).2 (by decide) (by decide) Sample.adapter (by decide)⟩

/-! ## C8: `blockVirgin` -/

/-- C9: for every transaction made for a virgin message without body pipe (constructed,
then given its adapter handle by `master`): `start()` sets `makingVb = opNever`; a
following `useVirgin()` returns; the one answer sent over the whole run is `Forward`
carrying a clone of the virgin header; `proxyingAb` is `opNever`, so both states are
terminal and `done()` is true; and the transaction is registered neither as consumer nor
as producer after construction, after `master`, after `start` or after `useVirgin`, no
`tieBody` being called. -/
theorem bodyless_virgin_forwarded (virginHeader : HttpMsg) (virginCause : Option HttpMsg)
    (key : String) (history : Option History) (x : AdapterXaction)
    (h : virginHeader.body_pipe = none) :
    (runCalls [.master (some x), .start]
      (XactionRep.construct virginHeader virginCause key history)).makingVb = .opNever ∧
    ∃ s', XactionRep.useVirgin (runCalls [.master (some x), .start]
        (XactionRep.construct virginHeader virginCause key history)) = .ok () s' ∧
      answersIn s'.log = [.Forward virginHeader.clone] ∧
      s'.proxyingAb = .opNever ∧ s'.makingVb = .opNever ∧ s'.doneAll = true ∧ s'.done = true ∧
      tiesIn s'.log = 0 ∧
      (∀ cs ∈ [[], [Call.master (some x)], [.master (some x), .start],
          [.master (some x), .start, .useVirgin]],
        (runCalls cs (XactionRep.construct virginHeader virginCause key history)).stillConsuming
          = false ∧
        (runCalls cs (XactionRep.construct virginHeader virginCause key history)).stillProducing
          = false) := by
  obtain ⟨id, isReq, cloneOf, pipe⟩ := virginHeader
  simp only at h
  subst h
  cases history <;> cases virginCause <;> cases isReq <;>
    simp [runCalls, Call.run, XactionRep.construct, XactionRep.master, XactionRep.start,
      XactionRep.useVirgin, XactionRep.preserveVb, XactionRep.forgetVb, XactionRep.request,
      XactionRep.stillConsuming, XactionRep.stillProducing, MessageRep.wrap, Message.body_pipe,
      callMaster, sendAnswer, XactionRep.done, XactionRep.doneAll, Initiate.doneAll,
      OperationState.toNat, OperationState.forgotten, HttpMsg.clone, answersIn, tiesIn,
      History.recordXactStart]

/-- Witness for C9: the sample request without body, no cause, no history. -/
theorem bodyless_virgin_forwarded_witness :
    (runCalls [.master (some Sample.adapter), .start, .useVirgin]
      (XactionRep.construct Sample.bodylessHeader none "ecap://svc" none)).log =
      [.masterStart, .sendAnswer (.Forward Sample.bodylessHeader.clone)] ∧
    (runCalls [.master (some Sample.adapter), .start]
      (XactionRep.construct Sample.bodylessHeader none "ecap://svc" none)).makingVb = .opNever :=
  ⟨by decide,
   (bodyless_virgin_forwarded Sample.bodylessHeader none "ecap://svc" none Sample.adapter
      rfl).1⟩

/-! ## C10: the virgin producer aborts -/

/-- C10 as stated fails: on the sample transaction consuming the virgin body
(`makingVb == opOn`, adapter handle held) `noteBodyProducerAborted` returns and leaves
`makingVb == opOn`, not `opComplete`. -/
theorem producer_aborted_counterexample :
    (runCalls [.master (some Sample.adapter), .start, .vbMake] Sample.transaction).makingVb
      = .opOn ∧
    (runCalls [.master (some Sample.adapter), .start, .vbMake] Sample.transaction).theMaster
      = some Sample.adapter ∧
    (XactionRep.noteBodyProducerAborted
      (runCalls [.master (some Sample.adapter), .start, .vbMake] Sample.transaction)).succeeded
      = true ∧
    (XactionRep.noteBodyProducerAborted
      (runCalls [.master (some Sample.adapter), .start, .vbMake] Sample.transaction)).state.makingVb
      = .opOn ∧
    (XactionRep.noteBodyProducerAborted
      (runCalls [.master (some Sample.adapter), .start, .vbMake] Sample.transaction)).state.makingVb
      ≠ .opComplete := by
  decide

/-- C10 (amended): in every state with `makingVb == opOn` and an adapter handle held,
`noteBodyProducerAborted` returns having made exactly one collaborator call,
`noteVbContentDone(false)` on the adapter; `vbProductionFinished` becomes true; `makingVb`
stays `opOn` and the consumer registration is as before.  The state becomes `opComplete`
only through a later detach: `vbStopMaking` called next returns and leaves
`makingVb == opComplete`. -/
theorem producer_aborted_notifies (s : XactionRep) (x : AdapterXaction)
    (hon : s.makingVb = .opOn) (hm : s.theMaster = some x) :
    ∃ s', XactionRep.noteBodyProducerAborted s = .ok () s' ∧
      s'.log = s.log ++ [.noteVbContentDone false] ∧
      s'.vbProductionFinished = true ∧
      s'.makingVb = .opOn ∧
      s'.stillConsuming = s.stillConsuming ∧
      (XactionRep.vbStopMaking s').succeeded = true ∧
      (XactionRep.vbStopMaking s').state.makingVb = .opComplete := by
  obtain ⟨master, key, ⟨⟨⟨id, isReq, cloneOf, pipe⟩, attached⟩, bodyRep⟩, cause, ans, makingVb,
    proxyingAb, hid, vbf, abf, abe, ini, stop, hist, log⟩ := s
  simp only at hon hm
  subst hon hm
  cases pipe with
  | none =>
    cases attached <;>
    simp [XactionRep.noteBodyProducerAborted, callMaster, XactionRep.stillConsuming,
      XactionRep.vbStopMaking, XactionRep.sinkVb, XactionRep.forgetVb, Message.body_pipe,
      OperationState.forgotten, Result.succeeded]
  | some p =>
    obtain ⟨w, c, prod, cons, auto, ended, more⟩ := p
    cases attached <;> cases cons <;>
    simp [XactionRep.noteBodyProducerAborted, callMaster, XactionRep.stillConsuming,
      XactionRep.vbStopMaking, XactionRep.sinkVb, XactionRep.forgetVb, Message.body_pipe,
      OperationState.forgotten, Result.succeeded, stopConsumingFrom, XactionRep.onVirgin,
      MessageRep.onMessage, Message.setPipe, Message.resetPipe, BodyPipe.enableAutoConsumption,
      BodyPipe.clearConsumer]

/-- Witness for C10 (amended): the sample transaction consuming the virgin body. -/
theorem producer_aborted_notifies_witness :
    ∃ s', XactionRep.noteBodyProducerAborted
        (runCalls [.master (some Sample.adapter), .start, .vbMake] Sample.transaction)
        = .ok () s' ∧
      s'.log = (runCalls [.master (some Sample.adapter), .start, .vbMake]
        Sample.transaction).log ++ [.noteVbContentDone false] ∧
      s'.vbProductionFinished = true ∧
      s'.makingVb = .opOn ∧
      s'.stillConsuming = (runCalls [.master (some Sample.adapter), .start, .vbMake]
        Sample.transaction).stillConsuming ∧
      (XactionRep.vbStopMaking s').succeeded = true ∧
      (XactionRep.vbStopMaking s').state.makingVb = .opComplete :=
  producer_aborted_notifies
    (runCalls [.master (some Sample.adapter), .start, .vbMake] Sample.transaction)
    Sample.adapter (by decide) (by decide)

/-! ## C13: the two abort entry points -/

/-- C13 as stated fails: `noteInitiatorAborted` on the sample transaction makes one
collaborator call, `mustStop`, and reports nothing to the initiator. -/
theorem initiator_aborted_counterexample :
    (XactionRep.noteInitiatorAborted Sample.transaction).state.log
      = [.mustStop "initiator aborted"] ∧
    answersIn (XactionRep.noteInitiatorAborted Sample.transaction).state.log = [] ∧
    answersIn (XactionRep.adaptationAborted Sample.transaction).state.log = [.Error true] := by
  decide

/-- C13 (amended): in every state, `adaptationAborted` returns having made exactly two
collaborator calls, the final (non-retryable) "query aborted" report `Error(true)` and then
`mustStop`; `noteInitiatorAborted` returns having made exactly one, `mustStop`, and reports
nothing; after either a stop reason is set, so `done()` is true, and neither changes
`makingVb`, `proxyingAb`, the adapter handle or the two messages. -/
theorem abort_entry_points (s : XactionRep) :
    (∃ s', XactionRep.adaptationAborted s = .ok () s' ∧
      s'.log = s.log ++ [.sendAnswer (.Error true), .mustStop "adaptationAborted"] ∧
      s'.stopReason.isSome = true ∧ s'.done = true ∧
      s'.makingVb = s.makingVb ∧ s'.proxyingAb = s.proxyingAb ∧
      s'.theMaster = s.theMaster ∧ s'.theVirginRep = s.theVirginRep ∧
      s'.theAnswerRep = s.theAnswerRep) ∧
    (∃ s', XactionRep.noteInitiatorAborted s = .ok () s' ∧
      s'.log = s.log ++ [.mustStop "initiator aborted"] ∧
      s'.stopReason.isSome = true ∧ s'.done = true ∧
      s'.makingVb = s.makingVb ∧ s'.proxyingAb = s.proxyingAb ∧
      s'.theMaster = s.theMaster ∧ s'.theVirginRep = s.theVirginRep ∧
      s'.theAnswerRep = s.theAnswerRep ∧ s'.theInitiator = s.theInitiator) := by
  constructor <;>
    simp [XactionRep.adaptationAborted, XactionRep.noteInitiatorAborted, tellQueryAborted,
      sendAnswer, mustStop, XactionRep.done]

/-! ## C14: the adapted message is to be set at most once -/

/-- C14, the code at the failing input: the sample transaction is proxying the adapted
message it was given (`proxyingAb == opOn`, `theAnswerRep` the tied sample message); a
second `useAdapted`, of the bodyless sample message, is rejected by
`Must(proxyingAb == opUndecided)`, sends nothing and leaves `proxyingAb` alone, yet
`theAnswerRep` is now the second message: line 219 assigns it before line 220 checks. -/
theorem useAdapted_rejected_overwrites_answer :
    Sample.proxying.proxyingAb = .opOn ∧
    Sample.proxying.theAnswerRep = some Sample.tiedMessage ∧
    (XactionRep.useAdapted (some Sample.bodylessMessage) Sample.proxying).rejected = true ∧
    (XactionRep.useAdapted (some Sample.bodylessMessage) Sample.proxying).state.log
      = Sample.proxying.log ∧
    (XactionRep.useAdapted (some Sample.bodylessMessage) Sample.proxying).state.proxyingAb
      = .opOn ∧
    (XactionRep.useAdapted (some Sample.bodylessMessage) Sample.proxying).state.theAnswerRep
      = some Sample.bodylessMessage ∧
    (XactionRep.useAdapted (some Sample.bodylessMessage) Sample.proxying).state.theAnswerRep
      ≠ Sample.proxying.theAnswerRep ∧
    (XactionRep.useAdapted (some Sample.bodylessMessage) Sample.proxying).state.stillProducing
      = false := by
  decide

/-! ## C15: reading buffered virgin content -/

/-- C15: let the virgin body pipe pointer be `p` with `H = p.contentSize` buffered bytes.
For every offset `o` and length `s`, `vbContent(o, s)` fails (with a `Must` failure) if
and only if the pipe pointer is null or `o > H`.  Otherwise it returns the view that
starts at byte `o` of the buffered bytes; its length is `H - o` when `s` is the `nsize`
sentinel and `min (H - o) s` otherwise; the view lies inside the buffered bytes: the
buffer is the `o` bytes before it, the view, and what follows; it is empty when `o = H`.
The call does not look at `makingVb` and leaves the whole object, the pipe included, as it
was. -/
theorem vbContent_view (t : XactionRep) (o s : Nat) :
    ((XactionRep.vbContent o s t).succeeded = false ↔
      (t.theVirginRep.theMessage.body_pipe = none ∨
        ∃ p, t.theVirginRep.theMessage.body_pipe = some p ∧ p.contentSize < o)) ∧
    ((XactionRep.vbContent o s t).succeeded = false →
      (XactionRep.vbContent o s t).rejected = true) ∧
    (XactionRep.vbContent o s t).state = t ∧
    (∀ p, t.theVirginRep.theMessage.body_pipe = some p → o ≤ p.contentSize →
      ∃ view, XactionRep.vbContent o s t = .ok view t ∧
        view = (p.content.drop o).take (if s = nsize then p.contentSize - o
          else min (p.contentSize - o) s) ∧
        view.length = (if s = nsize then p.contentSize - o else min (p.contentSize - o) s) ∧
        (∃ rest, p.content = p.content.take o ++ view ++ rest) ∧
        (o = p.contentSize → view = [])) := by
  cases hp : t.theVirginRep.theMessage.body_pipe with
  | none => simp [XactionRep.vbContent, hp, Result.succeeded, Result.rejected]
  | some p =>
    have hlen : p.content.length = p.contentSize := by
      simp [BodyPipe.content, BodyPipe.contentSize]
    by_cases ho : o ≤ p.contentSize
    · refine ⟨?_, ?_, ?_, ?_⟩
      · simp [XactionRep.vbContent, hp, ho, Result.succeeded]
      · simp [XactionRep.vbContent, hp, ho, Result.succeeded]
      · simp [XactionRep.vbContent, hp, ho]
      · intro q hq _
        simp only [Option.some.injEq] at hq
        subst hq
        refine ⟨_, ?_, rfl, ?_, ?_, ?_⟩
        · simp only [XactionRep.vbContent, hp, ho, if_true]
          congr 2
          split <;> simp
        · simp only [List.length_take, List.length_drop, hlen]
          split <;> omega
        · refine ⟨(p.content.drop o).drop (if s = nsize then p.contentSize - o
            else min (p.contentSize - o) s), ?_⟩
          rw [List.append_assoc, List.take_append_drop, List.take_append_drop]
        · intro h
          have : p.content.drop o = [] := by
            apply List.drop_eq_nil_of_le
            omega
          simp [this]
    · have ho' : p.contentSize < o := by omega
      refine ⟨?_, ?_, ?_, ?_⟩
      · simp [XactionRep.vbContent, hp, ho, Result.succeeded, ho']
      · simp [XactionRep.vbContent, hp, ho, Result.succeeded, Result.rejected]
      · simp [XactionRep.vbContent, hp, ho]
      · intro q hq hle
        simp only [Option.some.injEq] at hq
        subst hq
        exact absurd hle ho

/-- C15 at the sample transaction, whose virgin pipe buffers the three bytes `1, 2, 3`:
offset 1 with the `nsize` sentinel gives the two bytes `2, 3`; offset 1 with length 1 gives
the byte `2`; offset 3, the buffered size, gives the empty view; offset 4 is rejected. -/
theorem vbContent_view_witness :
    (∃ view, XactionRep.vbContent 1 nsize Sample.transaction = .ok view Sample.transaction ∧
      view.length = 2) ∧
    XactionRep.vbContent 1 nsize Sample.transaction = .ok [2, 3] Sample.transaction ∧
    XactionRep.vbContent 1 1 Sample.transaction = .ok [2] Sample.transaction ∧
    XactionRep.vbContent 3 7 Sample.transaction = .ok [] Sample.transaction ∧
    (XactionRep.vbContent 4 0 Sample.transaction).rejected = true := by
  refine ⟨?_, rfl, rfl, rfl, by decide⟩
  obtain ⟨view, h, _, hl, _⟩ :=
    (vbContent_view Sample.transaction 1 nsize).2.2.2 Sample.virginPipe (by decide) (by decide)
  exact ⟨view, h, by simpa [BodyPipe.contentSize, Sample.virginPipe] using hl⟩

/-! ## C16: the edges of virgin intake -/

/-- `vbDiscard` returns exactly from `opUndecided`, ends in `opNever`, and is rejected
with the object unchanged otherwise. -/
theorem vbDiscard_edge (s : XactionRep) :
    ((XactionRep.vbDiscard s).succeeded = true ↔ s.makingVb = .opUndecided) ∧
    (s.makingVb = .opUndecided → (XactionRep.vbDiscard s).state.makingVb = .opNever) ∧
    (s.makingVb ≠ .opUndecided → XactionRep.vbDiscard s = .failed .mustFailed s) := by
  obtain ⟨master, key, ⟨⟨⟨id, isReq, cloneOf, pipe⟩, attached⟩, bodyRep⟩, cause, ans, makingVb,
    proxyingAb, hid, vbf, abf, abe, ini, stop, hist, log⟩ := s
  rcases pipe with _ | ⟨w, c, prod, cons, auto, ended, more⟩ <;>
  cases makingVb <;> cases attached <;> (try cases cons) <;>
  simp [XactionRep.vbDiscard, XactionRep.sinkVb, XactionRep.forgetVb, stopConsumingFrom,
    XactionRep.stillConsuming, Message.body_pipe, OperationState.forgotten,
    Result.succeeded, XactionRep.onVirgin, MessageRep.onMessage,
    Message.setPipe, Message.resetPipe, BodyPipe.enableAutoConsumption,
    BodyPipe.clearConsumer]

/-- `vbMake` returns exactly from `opUndecided` with a pipe that still accepts a consumer,
ends in `opOn` registered, and is rejected with `makingVb` and the registration unchanged
otherwise. -/
theorem vbMake_edge (s : XactionRep) :
    ((XactionRep.vbMake s).succeeded = true ↔
      (s.makingVb = .opUndecided ∧ ∃ p, s.theVirginRep.theMessage.body_pipe = some p ∧
        p.setConsumerIfNotLate.1 = true)) ∧
    ((XactionRep.vbMake s).succeeded = true →
      (XactionRep.vbMake s).state.makingVb = .opOn ∧
      (XactionRep.vbMake s).state.stillConsuming = true) ∧
    ((XactionRep.vbMake s).succeeded = false →
      (XactionRep.vbMake s).rejected = true ∧
      (XactionRep.vbMake s).state.makingVb = s.makingVb ∧
      (XactionRep.vbMake s).state.stillConsuming = s.stillConsuming) := by
  obtain ⟨master, key, ⟨⟨⟨id, isReq, cloneOf, pipe⟩, attached⟩, bodyRep⟩, cause, ans, makingVb,
    proxyingAb, hid, vbf, abf, abe, ini, stop, hist, log⟩ := s
  rcases pipe with _ | ⟨w, c, prod, cons, auto, ended, more⟩ <;>
  cases makingVb <;> cases attached <;> (try cases cons) <;>
  (try by_cases hc : 0 < c) <;>
  simp [XactionRep.vbMake, XactionRep.stillConsuming, Message.body_pipe,
    Result.succeeded, Result.rejected, XactionRep.onVirgin, MessageRep.onMessage,
    Message.setPipe, BodyPipe.setConsumerIfNotLate, *]

/-- `vbStopMaking` returns exactly from `opOn`, ends in `opComplete`, and is rejected with
the object unchanged otherwise. -/
theorem vbStopMaking_edge (s : XactionRep) :
    ((XactionRep.vbStopMaking s).succeeded = true ↔ s.makingVb = .opOn) ∧
    (s.makingVb = .opOn → (XactionRep.vbStopMaking s).state.makingVb = .opComplete) ∧
    (s.makingVb ≠ .opOn → XactionRep.vbStopMaking s = .failed .mustFailed s) := by
  obtain ⟨master, key, ⟨⟨⟨id, isReq, cloneOf, pipe⟩, attached⟩, bodyRep⟩, cause, ans, makingVb,
    proxyingAb, hid, vbf, abf, abe, ini, stop, hist, log⟩ := s
  rcases pipe with _ | ⟨w, c, prod, cons, auto, ended, more⟩ <;>
  cases makingVb <;> cases attached <;> (try cases cons) <;>
  simp [XactionRep.vbStopMaking, XactionRep.sinkVb, XactionRep.forgetVb, stopConsumingFrom,
    XactionRep.stillConsuming, Message.body_pipe, OperationState.forgotten,
    Result.succeeded, XactionRep.onVirgin, MessageRep.onMessage,
    Message.setPipe, Message.resetPipe, BodyPipe.enableAutoConsumption,
    BodyPipe.clearConsumer]

/-- `vbMakeMore` returns exactly from `opOn` with the transaction registered on a pipe
whose production has not ended and that may need more data; it never changes the object. -/
theorem vbMakeMore_edge (s : XactionRep) :
    ((XactionRep.vbMakeMore s).succeeded = true ↔
      (s.makingVb = .opOn ∧ ∃ p, s.theVirginRep.theMessage.body_pipe = some p ∧
        p.consuming = true ∧ p.productionEnded = false ∧ p.mayNeedMoreData = true)) ∧
    (XactionRep.vbMakeMore s).state = s ∧
    ((XactionRep.vbMakeMore s).succeeded = false → (XactionRep.vbMakeMore s).rejected = true) := by
  obtain ⟨master, key, ⟨⟨⟨id, isReq, cloneOf, pipe⟩, attached⟩, bodyRep⟩, cause, ans, makingVb,
    proxyingAb, hid, vbf, abf, abe, ini, stop, hist, log⟩ := s
  rcases pipe with _ | ⟨w, c, prod, cons, auto, ended, more⟩ <;>
  cases makingVb <;> cases attached <;> (try cases cons) <;>
  (try cases ended) <;> (try cases more) <;>
  simp [XactionRep.vbMakeMore, Message.body_pipe, Result.succeeded, Result.rejected]

/-- C16: virgin intake follows only the edges `opUndecided → opNever`,
`opUndecided → opOn` and `opOn → opComplete`.  `vbDiscard` returns if and only if
`makingVb == opUndecided`, and then leaves `opNever`; `vbMake` returns if and only if
`makingVb == opUndecided` and the virgin pipe pointer is set to a pipe that still accepts a
consumer, and then leaves `opOn` with the transaction registered; `vbStopMaking` returns if
and only if `makingVb == opOn`, and then leaves `opComplete`; `vbMakeMore` returns if and
only if `makingVb == opOn`, the transaction is registered on the pipe, production has not
ended and the pipe may need more data, and it never changes the object.  A call that does
not return ended in a `Must` failure with `makingVb` as before; for `vbDiscard`,
`vbStopMaking` and `vbMakeMore` with the whole object as before.  So the closing
`Must(makingVb == opNever)` and `Must(makingVb == opComplete)` never fail once the entry
guard has passed. -/
theorem virgin_intake_edges (s : XactionRep) :
    (((XactionRep.vbDiscard s).succeeded = true ↔ s.makingVb = .opUndecided) ∧
      (s.makingVb = .opUndecided → (XactionRep.vbDiscard s).state.makingVb = .opNever) ∧
      (s.makingVb ≠ .opUndecided → XactionRep.vbDiscard s = .failed .mustFailed s)) ∧
    (((XactionRep.vbMake s).succeeded = true ↔
        (s.makingVb = .opUndecided ∧ ∃ p, s.theVirginRep.theMessage.body_pipe = some p ∧
          p.setConsumerIfNotLate.1 = true)) ∧
      ((XactionRep.vbMake s).succeeded = true →
        (XactionRep.vbMake s).state.makingVb = .opOn ∧
        (XactionRep.vbMake s).state.stillConsuming = true) ∧
      ((XactionRep.vbMake s).succeeded = false →
        (XactionRep.vbMake s).rejected = true ∧
        (XactionRep.vbMake s).state.makingVb = s.makingVb ∧
        (XactionRep.vbMake s).state.stillConsuming = s.stillConsuming)) ∧
    (((XactionRep.vbStopMaking s).succeeded = true ↔ s.makingVb = .opOn) ∧
      (s.makingVb = .opOn → (XactionRep.vbStopMaking s).state.makingVb = .opComplete) ∧
      (s.makingVb ≠ .opOn → XactionRep.vbStopMaking s = .failed .mustFailed s)) ∧
    (((XactionRep.vbMakeMore s).succeeded = true ↔
        (s.makingVb = .opOn ∧ ∃ p, s.theVirginRep.theMessage.body_pipe = some p ∧
          p.consuming = true ∧ p.productionEnded = false ∧ p.mayNeedMoreData = true)) ∧
      (XactionRep.vbMakeMore s).state = s ∧
      ((XactionRep.vbMakeMore s).succeeded = false → (XactionRep.vbMakeMore s).rejected = true)) :=
  ⟨vbDiscard_edge s, vbMake_edge s, vbStopMaking_edge s, vbMakeMore_edge s⟩

/-- C16 at the sample transaction: from `opUndecided`, `vbMake` then `vbStopMaking` walk
`opOn` and `opComplete`, `vbDiscard` leaves `opNever`; `vbStopMaking` and `vbMakeMore` are
rejected from `opUndecided`, and a second `vbMake` is rejected from `opOn`. -/
theorem virgin_intake_edges_witness :
    (((XactionRep.vbDiscard Sample.transaction).succeeded = true ↔
        Sample.transaction.makingVb = .opUndecided) ∧
      (XactionRep.vbDiscard Sample.transaction).state.makingVb = .opNever) ∧
    (XactionRep.vbMake Sample.transaction).state.makingVb = .opOn ∧
    (XactionRep.vbStopMaking (XactionRep.vbMake Sample.transaction).state).state.makingVb
      = .opComplete ∧
    (XactionRep.vbStopMaking Sample.transaction).succeeded = false ∧
    (XactionRep.vbMakeMore Sample.transaction).succeeded = false ∧
    (XactionRep.vbMake (XactionRep.vbMake Sample.transaction).state).succeeded = false :=
  ⟨⟨(virgin_intake_edges Sample.transaction).1.1,
    (virgin_intake_edges Sample.transaction).1.2.1 (by decide)⟩,
   by decide, by decide, by decide, by decide, by decide⟩

/-! ## C18: one drain step -/

/-- Shifting the module's output cursor by `k` leaves the bytes after the first `k`. -/
theorem AdapterXaction.abContent_shift (x : AdapterXaction) (k : Nat) :
    (x.abContentShift k).abContent = x.abContent.drop k := by
  simp [AdapterXaction.abContentShift, AdapterXaction.abContent, List.drop_drop, Nat.add_comm]

/-- C18: in every state with `proxyingAb == opOn` in which the adapter handle `x` offers
`n > 0` bytes and the adapted message's pipe pointer refers to `p`, `moveAbContent` returns;
with `k = min n space` the number of bytes the pipe accepts (`0 ≤ k ≤ n`), the pipe holds
what it held followed by exactly the first `k` offered bytes and is otherwise as before, the
module's output cursor has advanced by exactly `k` (by one `abContentShift(k)` call when
`k > 0` and by no call when `k = 0`), the module offers the remaining `n - k` bytes, the
traced `putMoreData` carries those `k` bytes, and `proxyingAb` is still `opOn`. -/
theorem drain_step_moves_accepted (s : XactionRep) (space : Nat) (x : AdapterXaction)
    (rep : MessageRep) (p : BodyPipe)
    (hOn : s.proxyingAb = .opOn) (hx : s.theMaster = some x) (hn : 0 < x.abContent.length)
    (hrep : s.theAnswerRep = some rep) (hp : rep.theMessage.body_pipe = some p) :
    ∃ s', XactionRep.moveAbContent space s = .ok () s' ∧
      (p.putMoreData x.abContent space).1 = min x.abContent.length space ∧
      min x.abContent.length space ≤ x.abContent.length ∧
      (s'.theAnswerRep.bind fun r => r.theMessage.body_pipe) =
        some { p with written := p.written ++ x.abContent.take (min x.abContent.length space) } ∧
      s'.theMaster = some (x.abContentShift (min x.abContent.length space)) ∧
      (x.abContentShift (min x.abContent.length space)).abCursor
        = x.abCursor + min x.abContent.length space ∧
      (x.abContentShift (min x.abContent.length space)).abContent
        = x.abContent.drop (min x.abContent.length space) ∧
      (x.abContentShift (min x.abContent.length space)).abContent.length
        = x.abContent.length - min x.abContent.length space ∧
      s'.log = s.log ++ (.putMoreData (x.abContent.take (min x.abContent.length space)) ::
        if min x.abContent.length space = 0 then []
        else [.abContentShift (min x.abContent.length space)]) ∧
      s'.proxyingAb = .opOn ∧
      s'.abProductionFinished = s.abProductionFinished ∧
      s'.makingVb = s.makingVb ∧ s'.theVirginRep = s.theVirginRep := by
  obtain ⟨master, key, virgin, cause, ans, makingVb,
    proxyingAb, hid, vbf, abf, abe, ini, stop, hist, log⟩ := s
  obtain ⟨⟨⟨id, isReq, cloneOf, pipe⟩, attached⟩, bodyRep⟩ := rep
  simp only at hOn hx hrep
  subst hOn hx hrep
  cases attached
  · simp [Message.body_pipe] at hp
  · simp only [Message.body_pipe, if_true] at hp
    subst hp
    have hn' : x.abContent.length ≠ 0 := by omega
    have hn2 : ¬ (x.abContent = []) := by
      intro h
      simp [h] at hn
    by_cases hs : space = 0
    · subst hs
      simp [XactionRep.moveAbContent, XactionRep.answer, Message.body_pipe,
        BodyPipe.putMoreData, XactionRep.onAnswer, MessageRep.onMessage, Message.setPipe, hn, hn',
        hn2, AdapterXaction.abContent_shift]
      simp [AdapterXaction.abContentShift]
    · have hk : ¬ (min x.abContent.length space = 0) := by omega
      simp [XactionRep.moveAbContent, XactionRep.answer, Message.body_pipe,
        BodyPipe.putMoreData, XactionRep.onAnswer, MessageRep.onMessage, Message.setPipe, hn, hn',
        hn2, hk, hs, AdapterXaction.abContent_shift]
      simp [AdapterXaction.abContentShift]
/-- C18 at a sample state: the proxying sample transaction whose module has produced the
bytes `10, 20, 30`, with room for two bytes in the adapted pipe: the pipe receives `10, 20`,
the cursor moves to 2, the byte `30` stays on offer and `proxyingAb` is still `opOn`. -/
theorem drain_step_moves_accepted_witness :
    ∃ s', XactionRep.moveAbContent 2 ((DrainStep.produced [10, 20, 30]).apply Sample.proxying)
        = .ok () s' ∧
      (s'.theAnswerRep.bind fun r => r.theMessage.body_pipe) =
        some { BodyPipe.create with written := [10, 20] } ∧
      s'.theMaster = some { abOutput := [10, 20, 30], abCursor := 2 } ∧
      (s'.theMaster.map AdapterXaction.abContent) = some [30] ∧
      s'.proxyingAb = .opOn := by
  obtain ⟨s', h, -, -, hp, hm, -, -, -, -, hon, -⟩ :=
    drain_step_moves_accepted ((DrainStep.produced [10, 20, 30]).apply Sample.proxying) 2
      { abOutput := [10, 20, 30], abCursor := 0 } Sample.tiedMessage BodyPipe.create
      (by decide) (by decide) (by decide) (by decide) (by decide)
  exact ⟨s', h, hp.trans (by decide), hm.trans (by decide), by rw [hm]; decide, hon⟩

/-! ## C19: draining with no new bytes -/

/-- C19: in every state with `proxyingAb == opOn`, `abProductionFinished` not latched and
an adapter handle that offers zero bytes, `noteAbContentAvailable` returns and leaves the
whole object as it was, whatever room the adapted pipe has: no trace entry is added, so no
byte is put into the pipe and the output cursor is not advanced.  Hence any number of such
notifications, one after the other, all return and leave the state of none of them. -/
theorem drain_idempotent_without_bytes (s : XactionRep) (x : AdapterXaction)
    (hOn : s.proxyingAb = .opOn) (hlatch : s.abProductionFinished = false)
    (hx : s.theMaster = some x) (h0 : x.abContent.length = 0) :
    (∀ space, XactionRep.noteAbContentAvailable space s = .ok () s) ∧
    (∀ spaces : List Nat, runCalls (spaces.map Call.noteAbContentAvailable) s = s) ∧
    (∀ spaces : List Nat,
      runReturning (spaces.map Call.noteAbContentAvailable) s = some s) ∧
    (∀ spaces : List Nat,
      bytesPutIn (runCalls (spaces.map Call.noteAbContentAvailable) s).log = bytesPutIn s.log ∧
      (runCalls (spaces.map Call.noteAbContentAvailable) s).theMaster = some x) := by
  have h1 : ∀ space, XactionRep.noteAbContentAvailable space s = .ok () s := by
    intro space
    have hnil : x.abContent = [] := List.length_eq_zero.mp h0
    simp [XactionRep.noteAbContentAvailable, XactionRep.moveAbContent, hOn, hlatch, hx, hnil]
  have h2 : ∀ spaces : List Nat, runCalls (spaces.map Call.noteAbContentAvailable) s = s := by
    intro spaces
    induction spaces with
    | nil => rfl
    | cons a as ih => simpa [runCalls, Call.run, h1 a] using ih
  refine ⟨h1, h2, ?_, ?_⟩
  · intro spaces
    induction spaces with
    | nil => rfl
    | cons a as ih => simpa [runReturning, Call.run, h1 a] using ih
  · intro spaces
    rw [h2 spaces]
    exact ⟨rfl, hx⟩

/-- C19 at the proxying sample transaction, whose module has produced nothing: three
notifications, with room 0, 5 and 1, leave the state as it was. -/
theorem drain_idempotent_without_bytes_witness :
    runCalls [.noteAbContentAvailable 0, .noteAbContentAvailable 5, .noteAbContentAvailable 1]
      Sample.proxying = Sample.proxying ∧
    XactionRep.noteAbContentAvailable 7 Sample.proxying = .ok () Sample.proxying :=
  ⟨(drain_idempotent_without_bytes Sample.proxying Sample.adapter (by decide) (by decide)
      (by decide) (by decide)).2.1 [0, 5, 1],
   (drain_idempotent_without_bytes Sample.proxying Sample.adapter (by decide) (by decide)
      (by decide) (by decide)).1 7⟩

/-! ## C20: the output-ended latch -/

/-- Every entry point other than `noteAbContentDone` leaves `abProductionFinished` and
`abProductionAtEnd` as they were, returning or throwing. -/
theorem Call.keeps_latch (c : Call) (h : ∀ atEnd space, c ≠ .noteAbContentDone atEnd space) :
    Keeps (fun s => (s.abProductionFinished, s.abProductionAtEnd)) c.run := by
  cases c <;>
    first
    | exact absurd rfl (h _ _)
    | (simp only [Call.run, XactionRep.master, XactionRep.start, XactionRep.swanSong,
        XactionRep.swanSongAdapted, XactionRep.swanSongVirgin, XactionRep.swanSongHistory,
        XactionRep.terminateMaster, Initiate.swanSong, XactionRep.useVirgin,
        XactionRep.useAdapted, XactionRep.blockVirgin, XactionRep.preserveVb,
        XactionRep.vbDiscard, XactionRep.vbMake, XactionRep.vbStopMaking, XactionRep.vbMakeMore,
        XactionRep.vbContentShift, XactionRep.noteAbContentAvailable,
        XactionRep.noteMoreBodySpaceAvailable, XactionRep.noteBodyConsumerAborted,
        XactionRep.moveAbContent, stopProducingFor, tieBody,
        XactionRep.adaptationDelayed, XactionRep.adaptationAborted,
        XactionRep.noteMoreBodyDataAvailable, XactionRep.noteBodyProductionEnded,
        XactionRep.noteBodyProducerAborted, XactionRep.noteInitiatorAborted,
        XactionRep.sinkVb, XactionRep.forgetVb, stopConsumingFrom, callMaster, tellQueryAborted,
        sendAnswer, mustStop]
       repeat' first
        | with_reducible exact keeps_getThis
        | with_reducible exact keeps_Must _
        | with_reducible exact keeps_crashUnless _
        | with_reducible exact keeps_pure _
        | with_reducible exact vbContent_keeps _ _
        | with_reducible exact answer_keeps
        | ((with_reducible (refine keeps_update ?_)); intro _; rfl)
        | ((with_reducible (refine keeps_record ?_)); intro _; rfl)
        | with_reducible refine keeps_bind ?_ (fun _ => ?_)
        | split
        | dsimp only)

/-- The drain leaves `abProductionFinished` and `abProductionAtEnd` as they were. -/
theorem moveAbContent_keeps_latch (space : Nat) :
    Keeps (fun s => (s.abProductionFinished, s.abProductionAtEnd))
      (XactionRep.moveAbContent space) := by
  simp only [XactionRep.moveAbContent, stopProducingFor]
  repeat' first
    | with_reducible exact keeps_getThis
    | with_reducible exact keeps_Must _
    | with_reducible exact keeps_crashUnless _
    | with_reducible exact keeps_pure _
    | with_reducible exact answer_keeps
    | ((with_reducible (refine keeps_update ?_)); intro _; rfl)
    | ((with_reducible (refine keeps_record ?_)); intro _; rfl)
    | with_reducible refine keeps_bind ?_ (fun _ => ?_)
    | split
    | dsimp only

/-- Once latched, a `noteAbContentDone` or `noteAbContentAvailable` is rejected with the
object unchanged. -/
theorem latched_rejects (t : XactionRep) (h : t.abProductionFinished = true) (atEnd : Bool)
    (space : Nat) :
    XactionRep.noteAbContentDone atEnd space t = .failed .mustFailed t ∧
    XactionRep.noteAbContentAvailable space t = .failed .mustFailed t := by
  simp [XactionRep.noteAbContentDone, XactionRep.noteAbContentAvailable, h]

/-- From a latched state every entry point, returning or throwing, leaves the latch set
and the end flag as it was. -/
theorem Call.run_latched (c : Call) (t : XactionRep) (h : t.abProductionFinished = true) :
    (c.run t).state.abProductionFinished = true ∧
    (c.run t).state.abProductionAtEnd = t.abProductionAtEnd := by
  by_cases hc : ∀ atEnd space, c ≠ .noteAbContentDone atEnd space
  · have hk := Call.keeps_latch c hc t
    simp only [Prod.mk.injEq] at hk
    exact ⟨hk.1.trans h, hk.2⟩
  · push_neg at hc
    obtain ⟨atEnd, space, rfl⟩ := hc
    simp [Call.run, (latched_rejects t h atEnd space).1, h]

/-- From a latched state any sequence of entry points leaves the latch set and the end
flag as it was. -/
theorem runCalls_latched (cs : List Call) (t : XactionRep) (h : t.abProductionFinished = true) :
    (runCalls cs t).abProductionFinished = true ∧
    (runCalls cs t).abProductionAtEnd = t.abProductionAtEnd := by
  induction cs generalizing t with
  | nil => exact ⟨h, rfl⟩
  | cons c cs ih =>
    have h1 := Call.run_latched c t h
    have h2 := ih (c.run t).state h1.1
    exact ⟨h2.1, h2.2.trans h1.2⟩
/-- C20: `noteAbContentDone(atEnd)` returns only when `proxyingAb == opOn` and
`abProductionFinished` is false, and is rejected by its `Must` with the object unchanged
otherwise.  When the guard passes, the call is the drain run on the state in which
`abProductionFinished = true` and `abProductionAtEnd = atEnd` are already set, and whatever
the drain does the call leaves these two values.  After the call has returned, and after
any further sequence of entry-point calls, returning or throwing, `abProductionFinished` is
still true and `abProductionAtEnd` is still `atEnd` (also once `proxyingAb` is
`opComplete`), and every `noteAbContentDone` and `noteAbContentAvailable` is rejected by
its `Must` with the object unchanged. -/
theorem output_end_latched (s : XactionRep) (atEnd : Bool) (space : Nat) :
    ((XactionRep.noteAbContentDone atEnd space s).succeeded = true →
      s.proxyingAb = .opOn ∧ s.abProductionFinished = false) ∧
    (¬ (s.proxyingAb = .opOn ∧ s.abProductionFinished = false) →
      XactionRep.noteAbContentDone atEnd space s = .failed .mustFailed s) ∧
    (s.proxyingAb = .opOn → s.abProductionFinished = false →
      XactionRep.noteAbContentDone atEnd space s =
        XactionRep.moveAbContent space
          { s with abProductionFinished := true, abProductionAtEnd := atEnd } ∧
      (XactionRep.noteAbContentDone atEnd space s).state.abProductionFinished = true ∧
      (XactionRep.noteAbContentDone atEnd space s).state.abProductionAtEnd = atEnd) ∧
    ((XactionRep.noteAbContentDone atEnd space s).succeeded = true →
      ∀ (cs : List Call) (atEnd' : Bool) (space' : Nat),
        (runCalls cs (XactionRep.noteAbContentDone atEnd space s).state).abProductionFinished
          = true ∧
        (runCalls cs (XactionRep.noteAbContentDone atEnd space s).state).abProductionAtEnd
          = atEnd ∧
        XactionRep.noteAbContentDone atEnd' space'
            (runCalls cs (XactionRep.noteAbContentDone atEnd space s).state)
          = .failed .mustFailed (runCalls cs (XactionRep.noteAbContentDone atEnd space s).state) ∧
        XactionRep.noteAbContentAvailable space'
            (runCalls cs (XactionRep.noteAbContentDone atEnd space s).state)
          = .failed .mustFailed
              (runCalls cs (XactionRep.noteAbContentDone atEnd space s).state)) := by
  have hguard : (XactionRep.noteAbContentDone atEnd space s).succeeded = true →
      s.proxyingAb = .opOn ∧ s.abProductionFinished = false := by
    intro h
    by_cases hg : s.proxyingAb = .opOn ∧ s.abProductionFinished = false
    · exact hg
    · have hg' : (decide (s.proxyingAb = .opOn) && !s.abProductionFinished) = false := by
        cases hf : s.abProductionFinished <;> simp_all
      simp [XactionRep.noteAbContentDone, hg', Result.succeeded] at h
  have hrun : s.proxyingAb = .opOn → s.abProductionFinished = false →
      XactionRep.noteAbContentDone atEnd space s =
        XactionRep.moveAbContent space
          { s with abProductionFinished := true, abProductionAtEnd := atEnd } := by
    intro h1 h2
    simp [XactionRep.noteAbContentDone, h1, h2]
  have hpost : s.proxyingAb = .opOn → s.abProductionFinished = false →
      (XactionRep.noteAbContentDone atEnd space s).state.abProductionFinished = true ∧
      (XactionRep.noteAbContentDone atEnd space s).state.abProductionAtEnd = atEnd := by
    intro h1 h2
    rw [hrun h1 h2]
    have hk := moveAbContent_keeps_latch space
      { s with abProductionFinished := true, abProductionAtEnd := atEnd }
    simp only [Prod.mk.injEq] at hk
    exact hk
  refine ⟨hguard, ?_, fun h1 h2 => ⟨hrun h1 h2, hpost h1 h2⟩, ?_⟩
  · intro hg
    have hg' : (decide (s.proxyingAb = .opOn) && !s.abProductionFinished) = false := by
      cases hf : s.abProductionFinished <;> simp_all
    simp [XactionRep.noteAbContentDone, hg']
  · intro h cs atEnd' space'
    obtain ⟨h1, h2⟩ := hguard h
    obtain ⟨hf, he⟩ := hpost h1 h2
    have hl := runCalls_latched cs (XactionRep.noteAbContentDone atEnd space s).state hf
    exact ⟨hl.1, hl.2.trans he, (latched_rejects _ hl.1 atEnd' space').1,
      (latched_rejects _ hl.1 atEnd' space').2⟩

/-- C20 at the proxying sample transaction, whose module has produced nothing: the
end-of-output signal with `atEnd = true` returns, completes the adapted body
(`opComplete`) and leaves the latch set; a later `noteBodyConsumerAborted`, `swanSong` and
second signal with `atEnd = false` leave `abProductionFinished = true` and
`abProductionAtEnd = true`, and a further notification is rejected. -/
theorem output_end_latched_witness :
    (XactionRep.noteAbContentDone true 5 Sample.proxying).succeeded = true ∧
    (XactionRep.noteAbContentDone true 5 Sample.proxying).state.proxyingAb = .opComplete ∧
    (runCalls [.noteBodyConsumerAborted, .swanSong, .noteAbContentDone false 3]
      (XactionRep.noteAbContentDone true 5 Sample.proxying).state).abProductionFinished = true ∧
    (runCalls [.noteBodyConsumerAborted, .swanSong, .noteAbContentDone false 3]
      (XactionRep.noteAbContentDone true 5 Sample.proxying).state).abProductionAtEnd = true ∧
    (XactionRep.noteAbContentAvailable 1
      (runCalls [.noteBodyConsumerAborted, .swanSong, .noteAbContentDone false 3]
        (XactionRep.noteAbContentDone true 5 Sample.proxying).state)).rejected = true :=
  ⟨by decide, by decide,
   ((output_end_latched Sample.proxying true 5).2.2.2 (by decide)
      [.noteBodyConsumerAborted, .swanSong, .noteAbContentDone false 3] false 1).1,
   ((output_end_latched Sample.proxying true 5).2.2.2 (by decide)
      [.noteBodyConsumerAborted, .swanSong, .noteAbContentDone false 3] false 1).2.1,
   by decide⟩

/-! ## C12: the adapter handle -/

theorem stopsIn_append (xs ys : List Effect) : stopsIn (xs ++ ys) = stopsIn xs + stopsIn ys := by
  induction xs with
  | nil => simp [stopsIn]
  | cons e es ih =>
    cases e <;> simp [stopsIn, ih]
    omega

/-- C12 as stated fails: on the sample transaction `master`, `terminateMaster`, `master`,
`terminateMaster` all return, the second `master` being accepted because the handle was
cleared, and `stop()` has been called twice; the same with `swanSong` as the teardown. -/
theorem handle_stopped_twice :
    (XactionRep.master (some Sample.adapter)
      (runHandleCalls [.master (some Sample.adapter), .terminateMaster]
        Sample.transaction)).succeeded = true ∧
    stopsIn (runHandleCalls [.master (some Sample.adapter), .terminateMaster,
      .master (some Sample.adapter), .terminateMaster] Sample.transaction).log = 2 ∧
    stopsIn (runHandleCalls [.master (some Sample.adapter), .swanSong,
      .master (some Sample.adapter), .swanSong] Sample.transaction).log = 2 ∧
    stopsIn Sample.transaction.log = 0 ∧ Sample.transaction.theMaster = none := by
  decide

theorem master_apply (x : Option AdapterXaction) (s : XactionRep) :
    XactionRep.master x s =
      if s.theMaster = none ∧ x.isSome = true then .ok () { s with theMaster := x }
      else .failed .mustFailed s := by
  cases hm : s.theMaster <;> cases x <;> simp [XactionRep.master, hm]

theorem terminateMaster_apply (s : XactionRep) :
    XactionRep.terminateMaster s =
      if s.theMaster.isSome then .ok () { s with theMaster := none, log := s.log ++ [.masterStop] }
      else .ok () s := by
  cases hm : s.theMaster <;> simp [XactionRep.terminateMaster, hm, record]

theorem terminateMaster_keeps_stoppedOrHeld :
    Keeps XactionRep.stoppedOrHeld XactionRep.terminateMaster := by
  intro s
  rw [terminateMaster_apply]
  cases hm : s.theMaster <;>
    simp [XactionRep.stoppedOrHeld, XactionRep.held, hm, stopsIn_append, stopsIn]

theorem swanSong_keeps_stoppedOrHeld : Keeps XactionRep.stoppedOrHeld XactionRep.swanSong := by
  have hrec : ∀ e : Effect, e ≠ .masterStop → ∀ s : XactionRep,
      XactionRep.stoppedOrHeld { s with log := s.log ++ [e] } = XactionRep.stoppedOrHeld s := by
    intro e he s
    cases e <;> first
      | exact absurd rfl he
      | simp [XactionRep.stoppedOrHeld, XactionRep.held, stopsIn_append, stopsIn]
  simp only [XactionRep.swanSong, XactionRep.swanSongAdapted, XactionRep.swanSongVirgin,
    XactionRep.swanSongHistory, Initiate.swanSong, stopProducingFor, stopConsumingFrom,
    tellQueryAborted, sendAnswer]
  repeat' first
    | with_reducible exact keeps_getThis
    | with_reducible exact keeps_Must _
    | with_reducible exact keeps_crashUnless _
    | with_reducible exact keeps_pure _
    | with_reducible exact answer_keeps
    | with_reducible exact terminateMaster_keeps_stoppedOrHeld
    | ((with_reducible (refine keeps_update ?_)); intro _; rfl)
    | ((with_reducible (refine keeps_record ?_)); exact hrec _ (by simp))
    | with_reducible refine keeps_bind ?_ (fun _ => ?_)
    | split
    | dsimp only
theorem swanSong_maintains_noHandle :
    Maintains (fun s => s.theMaster = none) XactionRep.swanSong := by
  have hterm : Maintains (fun s => s.theMaster = none) XactionRep.terminateMaster := by
    intro s hs
    rw [terminateMaster_apply]
    simp [hs]
  simp only [XactionRep.swanSong, XactionRep.swanSongAdapted, XactionRep.swanSongVirgin,
    XactionRep.swanSongHistory, Initiate.swanSong, stopProducingFor, stopConsumingFrom,
    tellQueryAborted, sendAnswer]
  repeat' first
    | with_reducible exact maintains_getThis
    | with_reducible exact maintains_Must _
    | with_reducible exact maintains_crashUnless _
    | with_reducible exact maintains_pure _
    | with_reducible exact Keeps.maintains answer_keeps (fun _ _ h1 h2 => h1.trans h2)
    | with_reducible exact hterm
    | ((with_reducible (refine maintains_update ?_)); intro _ h; exact h)
    | ((with_reducible (refine maintains_record ?_)); intro _ h; exact h)
    | with_reducible refine maintains_bind ?_ (fun _ => ?_)
    | split
    | dsimp only

/-- One handle call: the stops made plus the handles held grow by one exactly when the
call is an accepted `master`. -/
theorem HandleCall.run_stoppedOrHeld (c : HandleCall) (s : XactionRep) :
    (c.run s).state.stoppedOrHeld = s.stoppedOrHeld + mastersAccepted [c] s := by
  cases c with
  | master x =>
    simp only [HandleCall.run, mastersAccepted, master_apply]
    cases hm : s.theMaster <;> cases x <;>
      simp [XactionRep.stoppedOrHeld, XactionRep.held, hm, Result.succeeded]
  | terminateMaster =>
    simpa [HandleCall.run, mastersAccepted] using terminateMaster_keeps_stoppedOrHeld s
  | swanSong =>
    simpa [HandleCall.run, mastersAccepted] using swanSong_keeps_stoppedOrHeld s

theorem runHandleCalls_stoppedOrHeld (cs : List HandleCall) (s : XactionRep) :
    (runHandleCalls cs s).stoppedOrHeld = s.stoppedOrHeld + mastersAccepted cs s := by
  induction cs generalizing s with
  | nil => simp [runHandleCalls, mastersAccepted]
  | cons c cs ih =>
    have h1 := HandleCall.run_stoppedOrHeld c s
    have h2 := ih (c.run s).state
    simp only [runHandleCalls, h2, h1]
    cases c <;> simp [mastersAccepted]
    omega

/-- One handle call makes at most one `stop()` call, only when a handle was held, and
then holds none afterwards. -/
theorem HandleCall.run_stops (c : HandleCall) (s : XactionRep) :
    stopsIn (c.run s).state.log = stopsIn s.log ∨
    (stopsIn (c.run s).state.log = stopsIn s.log + 1 ∧ s.theMaster.isSome = true ∧
      (c.run s).state.theMaster = none) := by
  cases c with
  | master x =>
    left
    simp only [HandleCall.run, master_apply]
    split <;> rfl
  | terminateMaster =>
    simp only [HandleCall.run, terminateMaster_apply]
    cases hm : s.theMaster <;> simp [stopsIn_append, stopsIn]
  | swanSong =>
    have hk := swanSong_keeps_stoppedOrHeld s
    have hn := swanSong_maintains_noHandle s
    simp only [XactionRep.stoppedOrHeld, XactionRep.held] at hk
    simp only [HandleCall.run]
    cases hm : s.theMaster with
    | none =>
      have := hn hm
      simp only [hm, this] at hk
      left
      simpa using hk
    | some x =>
      cases hm' : (XactionRep.swanSong s).state.theMaster with
      | none =>
        right
        simp only [hm, hm'] at hk
        exact ⟨by simpa using hk, rfl, rfl⟩
      | some y =>
        left
        simp only [hm, hm'] at hk
        simpa using hk
/-- C12 (amended): `master(x)` returns if and only if no handle is held and `x` is
non-null, then holds `x` and changes nothing else, and is rejected with the object
unchanged otherwise; `terminateMaster`, when a handle is held, clears it and calls `stop()`
exactly once, and does nothing when none is held.  The handle can be set again after it
has been cleared, so what holds over any sequence of `master`, `terminateMaster` and
`swanSong` calls, returning or throwing, is: each call makes at most one `stop()` call,
only when a handle was held, and no handle is held after it; the number of `stop()` calls
plus the handles held grows exactly by the number of `master` calls that returned; hence
`stop()` is called at most once when at most one handle was ever set. -/
theorem handle_stops_accounted (s : XactionRep) (cs : List HandleCall) :
    (∀ x, (XactionRep.master x s).succeeded = true ↔ (s.theMaster = none ∧ x.isSome = true)) ∧
    (∀ x, s.theMaster = none → x.isSome = true →
      XactionRep.master x s = .ok () { s with theMaster := x }) ∧
    (∀ x, (XactionRep.master x s).succeeded = false →
      XactionRep.master x s = .failed .mustFailed s) ∧
    (s.theMaster.isSome = true → XactionRep.terminateMaster s =
      .ok () { s with theMaster := none, log := s.log ++ [.masterStop] }) ∧
    (s.theMaster = none → XactionRep.terminateMaster s = .ok () s) ∧
    (∀ c : HandleCall, stopsIn (c.run s).state.log = stopsIn s.log ∨
      (stopsIn (c.run s).state.log = stopsIn s.log + 1 ∧ s.theMaster.isSome = true ∧
        (c.run s).state.theMaster = none)) ∧
    stopsIn (runHandleCalls cs s).log + (runHandleCalls cs s).held
      = stopsIn s.log + s.held + mastersAccepted cs s ∧
    (s.held + mastersAccepted cs s ≤ 1 →
      stopsIn (runHandleCalls cs s).log ≤ stopsIn s.log + 1) := by
  have hrun := runHandleCalls_stoppedOrHeld cs s
  simp only [XactionRep.stoppedOrHeld] at hrun
  refine ⟨?_, ?_, ?_, ?_, ?_, fun c => HandleCall.run_stops c s, hrun, fun h => by omega⟩
  · intro x
    rw [master_apply]
    split <;> simp_all [Result.succeeded]
  · intro x h1 h2
    rw [master_apply]
    simp [h1, h2]
  · intro x
    rw [master_apply]
    split <;> simp [Result.succeeded]
  · intro h
    rw [terminateMaster_apply]
    simp [h]
  · intro h
    rw [terminateMaster_apply]
    simp [h]

/-- C12 (amended) at the sample transaction: with one accepted `master` call, followed by
`terminateMaster`, `swanSong`, a rejected `master(NULL)` and `terminateMaster` again,
`stop()` has been called at most once; it has been called exactly once. -/
theorem handle_stops_accounted_witness :
    stopsIn (runHandleCalls [.master (some Sample.adapter), .terminateMaster, .swanSong,
      .master none, .terminateMaster] Sample.transaction).log ≤ stopsIn Sample.transaction.log + 1 ∧
    stopsIn (runHandleCalls [.master (some Sample.adapter), .terminateMaster, .swanSong,
      .master none, .terminateMaster] Sample.transaction).log = 1 :=
  ⟨(handle_stops_accounted Sample.transaction [.master (some Sample.adapter), .terminateMaster,
      .swanSong, .master none, .terminateMaster]).2.2.2.2.2.2.2 (by decide), by decide⟩

/-! ## C17: the service directory -/

/-- C17: for every directory `d` of non-null entries with pairwise distinct URIs and every
handle `h`, `RegisterAdapterService(h)` returns; in the directory `d'` it leaves the
entries are still non-null with pairwise distinct URIs, `FindAdapterService` of `h`'s URI
returns `h`, and `FindAdapterService` of every other URI returns what it returned on `d`.
If `d` had an entry with `h`'s URI, `d'` is `d` with that one entry overwritten by `h`:
same length, same URIs in the same order; otherwise `d'` is `d` with `h` appended at the
end, one entry longer. -/
theorem register_replaces_or_appends (d : Directory) (h : AdapterService)
    (hnn : none ∉ d) (hd : d.uris.Nodup) :
    ∃ d', RegisterAdapterService h d = some d' ∧
      none ∉ d' ∧ d'.uris.Nodup ∧
      FindAdapterService h.uri d' = some (some h) ∧
      (∀ u, u ≠ h.uri → FindAdapterService u d' = FindAdapterService u d) ∧
      (h.uri ∈ d.uris →
        d'.length = d.length ∧ d'.uris = d.uris ∧
        ∃ i old, i < d.length ∧ d.get? i = some (some old) ∧ old.uri = h.uri ∧
          d' = d.set i (some h)) ∧
      (h.uri ∉ d.uris → d' = d ++ [some h] ∧ d'.length = d.length + 1) := by
  induction d with
  | nil =>
    refine ⟨[some h], rfl, by simp, by simp [Directory.uris], by simp [FindAdapterService],
      ?_, by simp [Directory.uris], by simp⟩
    intro u hu
    simp [FindAdapterService, hu]
  | cons e rest ih =>
    cases e with
    | none => simp at hnn
    | some a =>
      have hnn' : none ∉ rest := fun hm => hnn (List.mem_cons_of_mem _ hm)
      have hd' : (Directory.uris rest).Nodup ∧ a.uri ∉ Directory.uris rest := by
        simp only [Directory.uris, List.filterMap_cons, Option.map_some'] at hd
        exact ⟨(List.nodup_cons.mp hd).2, (List.nodup_cons.mp hd).1⟩
      by_cases hu : h.uri = a.uri
      · refine ⟨some h :: rest, by simp [RegisterAdapterService, hu], ?_, ?_, ?_, ?_, ?_, ?_⟩
        · simpa using hnn'
        · simp only [Directory.uris, List.filterMap_cons, Option.map_some'] at hd ⊢
          rw [hu]
          exact hd
        · simp [FindAdapterService]
        · intro u hne
          have : u ≠ a.uri := hu ▸ hne
          simp [FindAdapterService, hne, this]
        · intro _
          refine ⟨by simp, by simp [Directory.uris, hu], 0, a, by simp, by simp, hu.symm,
            by simp⟩
        · intro hnot
          exact absurd (by simp [Directory.uris, hu]) hnot
      · obtain ⟨r', hr, h1, h2, h3, h4, h5, h6⟩ := ih hnn' hd'.1
        refine ⟨some a :: r', by simp [RegisterAdapterService, hu, hr], ?_, ?_, ?_, ?_, ?_, ?_⟩
        · simpa using h1
        · simp only [Directory.uris, List.filterMap_cons, Option.map_some']
          refine List.nodup_cons.mpr ⟨?_, h2⟩
          by_cases hin : h.uri ∈ Directory.uris rest
          · have := (h5 hin).2.1
            simp only [Directory.uris] at this
            rw [this]
            exact hd'.2
          · have := (h6 hin).1
            subst this
            simp only [List.filterMap_append, List.mem_append, not_or]
            refine ⟨hd'.2, ?_⟩
            simp
            exact fun hh => hu hh.symm
        · simp [FindAdapterService, hu, h3]
        · intro u hne
          simp only [FindAdapterService]
          split
          · rfl
          · exact h4 u hne
        · intro hin
          have hin' : h.uri ∈ Directory.uris rest := by
            simp only [Directory.uris, List.filterMap_cons, Option.map_some',
              List.mem_cons] at hin
            rcases hin with hin | hin
            · exact absurd hin hu
            · exact hin
          obtain ⟨hl, hus, i, old, hi, hget, hou, hset⟩ := h5 hin'
          refine ⟨by simp [hl], ?_, i + 1, old, by simp; omega, by simpa using hget, hou,
            by simp [hset]⟩
          simp only [Directory.uris, List.filterMap_cons, Option.map_some'] at hus ⊢
          rw [hus]
        · intro hnot
          have hnot' : h.uri ∉ Directory.uris rest := by
            intro hin
            apply hnot
            simp only [Directory.uris, List.filterMap_cons, Option.map_some', List.mem_cons]
            exact Or.inr hin
          obtain ⟨happ, hl⟩ := h6 hnot'
          exact ⟨by simp [happ], by simp [hl]⟩

/-- C17 at a sample directory of two services: registering a new instance under the
second URI returns a directory of the same length in which that URI resolves to the new
instance and the first URI resolves as before; registering under a third URI appends. -/
theorem register_replaces_or_appends_witness :
    (∃ d', RegisterAdapterService { uri := "ecap://b", instanceId := 3 }
        [some { uri := "ecap://a", instanceId := 1 }, some { uri := "ecap://b", instanceId := 2 }]
          = some d' ∧
      FindAdapterService "ecap://b" d' = some (some { uri := "ecap://b", instanceId := 3 }) ∧
      d'.length = 2) ∧
    RegisterAdapterService { uri := "ecap://b", instanceId := 3 }
        [some { uri := "ecap://a", instanceId := 1 }, some { uri := "ecap://b", instanceId := 2 }]
      = some [some { uri := "ecap://a", instanceId := 1 },
          some { uri := "ecap://b", instanceId := 3 }] ∧
    RegisterAdapterService { uri := "ecap://c", instanceId := 3 }
        [some { uri := "ecap://a", instanceId := 1 }, some { uri := "ecap://b", instanceId := 2 }]
      = some [some { uri := "ecap://a", instanceId := 1 },
          some { uri := "ecap://b", instanceId := 2 },
          some { uri := "ecap://c", instanceId := 3 }] := by
  refine ⟨?_, by decide, by decide⟩
  obtain ⟨d', h1, -, -, h3, -, h5, -⟩ :=
    register_replaces_or_appends
      [some { uri := "ecap://a", instanceId := 1 }, some { uri := "ecap://b", instanceId := 2 }]
      { uri := "ecap://b", instanceId := 3 } (by decide) (by decide)
  exact ⟨d', h1, h3, (h5 (by decide)).1⟩

/-! ## C11: teardown after partial progress -/

theorem finishesIn_append (xs ys : List Effect) :
    finishesIn (xs ++ ys) = finishesIn xs ++ finishesIn ys := by
  induction xs with
  | nil => simp [finishesIn]
  | cons e es ih => cases e <;> simp [finishesIn, ih]

/-- C11, the code at two failing inputs, both left by a `useAdapted` that was rejected
part-way.  (1) After `master` and `start`, a `useAdapted` of a message whose header already
refers to a pipe is rejected by `Must(!msg->body_pipe)` (line 228) after lines 219 and 227
have stored the message and set `proxyingAb = opOn`; `swanSong` in that state is rejected by
`Must(body_pipe->stillProducing(this))` (line 85), and the adapter handle is still held.
(2) After `master`, `start` and a `useAdapted` that tied a pipe, with the transaction as
its producer, a second `useAdapted` is rejected by line 220 after line 219 has replaced
the adapted message; `swanSong` in that state returns and releases the handle, but the
trace holds no `stopProducingFor` for its one `tieBody`: the registration on the tied pipe
is never undone. -/
theorem swanSong_after_rejected_useAdapted :
    ((XactionRep.start (XactionRep.master (some Sample.adapter) Sample.transaction).state).succeeded
        = true ∧
      (XactionRep.useAdapted (some Sample.clonedMessage)
        (runCalls [.master (some Sample.adapter), .start] Sample.transaction)).rejected = true ∧
      (XactionRep.swanSong
        (runCalls [.master (some Sample.adapter), .start,
          .useAdapted (some Sample.clonedMessage)] Sample.transaction)).rejected = true ∧
      (XactionRep.swanSong
        (runCalls [.master (some Sample.adapter), .start,
          .useAdapted (some Sample.clonedMessage)] Sample.transaction)).state.theMaster
        = some Sample.adapter) ∧
    (Sample.proxying = runCalls [.master (some Sample.adapter), .start,
        .useAdapted (some Sample.adaptedMessage)] Sample.transaction ∧
      Sample.proxying.stillProducing = true ∧
      tiesIn Sample.proxying.log = 1 ∧
      (XactionRep.useAdapted (some Sample.bodylessMessage) Sample.proxying).rejected = true ∧
      (XactionRep.swanSong
        (XactionRep.useAdapted (some Sample.bodylessMessage) Sample.proxying).state).succeeded
        = true ∧
      (XactionRep.swanSong
        (XactionRep.useAdapted (some Sample.bodylessMessage) Sample.proxying).state).state.theMaster
        = none ∧
      tiesIn (XactionRep.swanSong
        (XactionRep.useAdapted (some Sample.bodylessMessage) Sample.proxying).state).state.log
        = 1 ∧
      producerStopsIn (XactionRep.swanSong
        (XactionRep.useAdapted (some Sample.bodylessMessage) Sample.proxying).state).state.log
        = 0) := by
  decide

/-- The first block of `swanSong` returns when the adapted message's pipe, if the pointer
is set, has the transaction as producer; the transaction is then no producer, and the
block touches only the adapted message and the trace. -/
theorem swanSongAdapted_returns (s : XactionRep) (h : s.producerIfPiped = true) :
    ∃ s1, XactionRep.swanSongAdapted s = .ok () s1 ∧ s1.stillProducing = false ∧
      s1.theVirginRep = s.theVirginRep ∧ s1.theMaster = s.theMaster ∧
      s1.theCauseRep = s.theCauseRep ∧ s1.adaptLogHistory = s.adaptLogHistory ∧
      s1.adaptHistoryId = s.adaptHistoryId ∧ finishesIn s1.log = finishesIn s.log := by
  obtain ⟨master, key, virgin, cause, ans, makingVb,
    proxyingAb, hid, vbf, abf, abe, ini, stop, hist, log⟩ := s
  rcases ans with _ | ⟨⟨⟨id, isReq, cloneOf, pipe⟩, attached⟩, bodyRep⟩
  · simp [XactionRep.swanSongAdapted, XactionRep.stillProducing]
  · rcases pipe with _ | ⟨w, c, prod, cons, auto, ended, more⟩ <;> cases attached <;>
      simp [XactionRep.producerIfPiped, MessageRep.producerIfPiped, Message.body_pipe] at h <;>
      simp [XactionRep.swanSongAdapted, XactionRep.answer, XactionRep.stillProducing,
        Message.body_pipe, stopProducingFor, XactionRep.onAnswer, MessageRep.onMessage,
        Message.setPipe, BodyPipe.clearProducer, h, finishesIn_append, finishesIn]

/-- The second block of `swanSong` always returns; the transaction is then no consumer,
and the block touches only the virgin message's pipe and the trace. -/
theorem swanSongVirgin_returns (s : XactionRep) :
    ∃ s1, XactionRep.swanSongVirgin s = .ok () s1 ∧ s1.stillConsuming = false ∧
      s1.theAnswerRep = s.theAnswerRep ∧ s1.theMaster = s.theMaster ∧
      s1.request = s.request ∧ s1.adaptLogHistory = s.adaptLogHistory ∧
      s1.adaptHistoryId = s.adaptHistoryId ∧ finishesIn s1.log = finishesIn s.log := by
  obtain ⟨master, key, ⟨⟨⟨id, isReq, cloneOf, pipe⟩, attached⟩, bodyRep⟩, cause, ans, makingVb,
    proxyingAb, hid, vbf, abf, abe, ini, stop, hist, log⟩ := s
  rcases pipe with _ | ⟨w, c, prod, cons, auto, ended, more⟩ <;> cases attached <;>
    (try cases cons) <;>
    simp [XactionRep.swanSongVirgin, XactionRep.stillConsuming, Message.body_pipe,
      stopConsumingFrom, XactionRep.onVirgin, MessageRep.onMessage, Message.setPipe,
      Message.resetPipe, BodyPipe.clearConsumer, XactionRep.request, finishesIn_append,
      finishesIn]

/-- The fourth block of `swanSong` returns when the cause, or the virgin message, is a
request; it records the finish exactly when a start was recorded, and touches only the
history and the trace. -/
theorem swanSongHistory_returns (s : XactionRep) (hr : s.request = true)
    (hh : s.startRecorded = true) :
    ∃ s1, XactionRep.swanSongHistory s = .ok () s1 ∧
      s1.theAnswerRep = s.theAnswerRep ∧ s1.theVirginRep = s.theVirginRep ∧
      s1.theMaster = s.theMaster ∧ s1.theInitiator = s.theInitiator ∧
      finishesIn s1.log =
        finishesIn s.log ++ if 0 ≤ s.adaptHistoryId then [s.adaptHistoryId] else [] := by
  obtain ⟨master, key, virgin, cause, ans, makingVb,
    proxyingAb, hid, vbf, abf, abe, ini, stop, hist, log⟩ := s
  simp only [XactionRep.startRecorded, Bool.or_eq_true, decide_eq_true_eq] at hh
  cases hist with
  | none =>
    have hneg : ¬ (0 ≤ hid) := by
      rcases hh with hh | hh
      · omega
      · simp at hh
    simp [XactionRep.swanSongHistory, hr, hneg]
  | some ah =>
    by_cases hpos : 0 ≤ hid
    · simp [XactionRep.swanSongHistory, hr, hpos, finishesIn_append, finishesIn]
    · simp [XactionRep.swanSongHistory, hr, hpos]

/-- The last block of `swanSong` always returns and touches only the initiator link and
the trace. -/
theorem initiateSwanSong_returns (s : XactionRep) :
    ∃ s1, Initiate.swanSong s = .ok () s1 ∧
      s1.theAnswerRep = s.theAnswerRep ∧ s1.theVirginRep = s.theVirginRep ∧
      s1.theMaster = s.theMaster ∧ finishesIn s1.log = finishesIn s.log := by
  cases hi : s.theInitiator <;>
    simp [Initiate.swanSong, hi, tellQueryAborted, sendAnswer, finishesIn_append, finishesIn]

/-- The function `terminateMaster` always returns, holding no handle afterwards, and
touches only the handle and the trace. -/
theorem terminateMaster_returns (s : XactionRep) :
    ∃ s1, XactionRep.terminateMaster s = .ok () s1 ∧ s1.theMaster = none ∧
      s1.theAnswerRep = s.theAnswerRep ∧ s1.theVirginRep = s.theVirginRep ∧
      s1.theCauseRep = s.theCauseRep ∧ s1.adaptLogHistory = s.adaptLogHistory ∧
      s1.adaptHistoryId = s.adaptHistoryId ∧ finishesIn s1.log = finishesIn s.log := by
  rw [terminateMaster_apply]
  cases hm : s.theMaster <;> simp [hm, finishesIn_append, finishesIn]

/-- In a state where the cause, or the virgin message, is a request, the adapted
message's pipe, if the pointer is set, has the transaction as producer, and a recorded
start comes with its history, `swanSong` returns; afterwards the transaction is neither
producer nor consumer and holds no adapter handle, and the finish has been recorded exactly
when a start was recorded. -/
theorem swanSong_returns (s : XactionRep) (hr : s.request = true)
    (hp : s.producerIfPiped = true) (hh : s.startRecorded = true) :
    ∃ s', XactionRep.swanSong s = .ok () s' ∧ s'.stillProducing = false ∧
      s'.stillConsuming = false ∧ s'.theMaster = none ∧
      finishesIn s'.log =
        finishesIn s.log ++ if 0 ≤ s.adaptHistoryId then [s.adaptHistoryId] else [] := by
  obtain ⟨s1, e1, p1, v1, -, c1, l1, i1, f1⟩ := swanSongAdapted_returns s hp
  obtain ⟨s2, e2, c2, a2, -, r2, l2, i2, f2⟩ := swanSongVirgin_returns s1
  obtain ⟨s3, e3, m3, a3, v3, c3, l3, i3, f3⟩ := terminateMaster_returns s2
  have hr3 : s3.request = true := by
    have h1 : s1.request = s.request := by simp [XactionRep.request, v1, c1]
    have h3 : s3.request = s2.request := by simp [XactionRep.request, v3, c3]
    rw [h3, r2, h1, hr]
  have hh3 : s3.startRecorded = true := by
    simpa [XactionRep.startRecorded, l3, i3, l2, i2, l1, i1] using hh
  obtain ⟨s4, e4, a4, v4, m4, -, f4⟩ := swanSongHistory_returns s3 hr3 hh3
  obtain ⟨s5, e5, a5, v5, m5, f5⟩ := initiateSwanSong_returns s4
  refine ⟨s5, ?_, ?_, ?_, ?_, ?_⟩
  · simp [XactionRep.swanSong, e1, e2, e3, e4, e5]
  · have : s5.stillProducing = s1.stillProducing := by
      simp [XactionRep.stillProducing, a5, a4, a3, a2]
    rw [this, p1]
  · have : s5.stillConsuming = s2.stillConsuming := by
      simp [XactionRep.stillConsuming, v5, v4, v3]
    rw [this, c2]
  · rw [m5, m4, m3]
  · rw [f5, f4, f3, f2, f1, i3, i2, i1]

theorem producerIfPiped_of_answer (s s' : XactionRep) (h : s'.theAnswerRep = s.theAnswerRep)
    (hs : s.producerIfPiped = true) : s'.producerIfPiped = true := by
  simpa [XactionRep.producerIfPiped, h] using hs

/-- The drain keeps the transaction the producer of the adapted pipe while the pipe
pointer is set, whether it returns or throws. -/
theorem moveAbContent_maintains_producerIfPiped (space : Nat) :
    Maintains (fun s => s.producerIfPiped = true) (XactionRep.moveAbContent space) := by
  intro s hs
  obtain ⟨master, key, virgin, cause, ans, makingVb,
    proxyingAb, hid, vbf, abf, abe, ini, stop, hist, log⟩ := s
  by_cases hon : proxyingAb = .opOn
  · subst hon
    cases master with
    | none => simpa [XactionRep.moveAbContent] using hs
    | some x =>
      cases ans with
      | none =>
        simp only [XactionRep.moveAbContent, apply_bind, getThis_apply, Result.andThen_ok,
          Must_apply, decide_True, if_true]
        by_cases h0 : x.abContent.length = 0 ∧ abf = true
        · simp [h0, XactionRep.answer, XactionRep.producerIfPiped]
        · by_cases h1 : 0 < x.abContent.length
          · simp only [h0, h1, if_false, if_true]
            simp [XactionRep.answer, XactionRep.producerIfPiped]
          · simp only [h0, h1, if_false]
            simp [XactionRep.producerIfPiped]
      | some rep =>
        obtain ⟨⟨⟨id, isReq, cloneOf, pipe⟩, attached⟩, bodyRep⟩ := rep
        simp only [XactionRep.moveAbContent, apply_bind, getThis_apply, Result.andThen_ok,
          Must_apply, decide_True, if_true]
        by_cases h0 : x.abContent.length = 0 ∧ abf = true
        · rcases pipe with _ | p <;> cases attached <;>
            simp [h0, XactionRep.answer, stopProducingFor, Message.body_pipe,
              XactionRep.onAnswer, MessageRep.onMessage, Message.setPipe, Message.resetPipe,
              XactionRep.producerIfPiped, MessageRep.producerIfPiped] at hs ⊢
        · by_cases h1 : 0 < x.abContent.length
          · simp only [h0, h1, if_false, if_true]
            have hn2 : ¬ (x.abContent = []) := by
              intro h
              simp [h] at h1
            by_cases hsp : space = 0 <;> rcases pipe with _ | p <;> cases attached <;>
              simp [XactionRep.answer, Message.body_pipe, XactionRep.onAnswer,
                MessageRep.onMessage, Message.setPipe, BodyPipe.putMoreData,
                XactionRep.producerIfPiped, MessageRep.producerIfPiped, hn2, hsp] at hs ⊢ <;>
              exact hs
          · simp only [h0, h1, if_false]
            simpa using hs
  · simpa [XactionRep.moveAbContent, hon] using hs

theorem noteBodyConsumerAborted_maintains_producerIfPiped :
    Maintains (fun s => s.producerIfPiped = true) XactionRep.noteBodyConsumerAborted := by
  intro s hs
  obtain ⟨master, key, virgin, cause, ans, makingVb,
    proxyingAb, hid, vbf, abf, abe, ini, stop, hist, log⟩ := s
  by_cases hon : proxyingAb = .opOn
  · subst hon
    rcases ans with _ | ⟨⟨⟨id, isReq, cloneOf, pipe⟩, attached⟩, bodyRep⟩
    · simp [XactionRep.noteBodyConsumerAborted, XactionRep.answer, XactionRep.producerIfPiped]
    · rcases pipe with _ | p <;> cases attached <;> cases master <;>
        simp [XactionRep.noteBodyConsumerAborted, XactionRep.answer, stopProducingFor,
          Message.body_pipe, XactionRep.onAnswer, MessageRep.onMessage, Message.setPipe,
          Message.resetPipe, callMaster, XactionRep.producerIfPiped,
          MessageRep.producerIfPiped] at hs ⊢
  · simpa [XactionRep.noteBodyConsumerAborted, hon] using hs

/-- A `useAdapted` of a message whose pipe pointer is not set leaves, returning or
throwing, an adapted message whose pipe, if the pointer is set, has the transaction as
producer. -/
theorem useAdapted_producerIfPiped (m : MessageRep) (hm : m.theMessage.body_pipe = none)
    (s : XactionRep) :
    (XactionRep.useAdapted (some m) s).state.producerIfPiped = true := by
  have hmp : m.producerIfPiped = true := by simp [MessageRep.producerIfPiped, hm]
  by_cases hu : s.proxyingAb = .opUndecided
  swap
  · simp [XactionRep.useAdapted, hu, XactionRep.producerIfPiped, hmp]
  cases hb : m.theBodyRep
  · simp [XactionRep.useAdapted, XactionRep.answer, sendAnswer, hu, hb,
      XactionRep.producerIfPiped, hmp]
  · obtain ⟨master, key, virgin, cause, ans, makingVb,
      proxyingAb, hid, vbf, abf, abe, ini, stop, hist, log⟩ := s
    obtain ⟨⟨⟨id, isReq, cloneOf, pipe⟩, attached⟩, bodyRep⟩ := m
    simp only at hu hb
    subst hu hb
    rcases pipe with _ | p <;> cases attached <;> cases master <;>
      simp [Message.body_pipe] at hm <;>
      simp [XactionRep.useAdapted, XactionRep.answer, sendAnswer, tieBody,
        Message.body_pipe, XactionRep.onAnswer, MessageRep.onMessage, Message.setPipe,
        callMaster, XactionRep.producerIfPiped, MessageRep.producerIfPiped, BodyPipe.create]

/-- Every entry point made before teardown maintains, returning or throwing, that the
adapted message's pipe, if the pointer is set, has the transaction as producer. -/
theorem Call.maintains_producerIfPiped (c : Call) (hc : c.beforeTeardown = true) :
    Maintains (fun s => s.producerIfPiped = true) c.run := by
  by_cases hside : c.onAdaptedSide = false
  · exact Keeps.maintains (Call.keeps_adaptedSide c hside) (fun s s' h hs => by
      simp only [XactionRep.adaptedSide, Prod.mk.injEq] at h
      exact producerIfPiped_of_answer s s' h.2 hs)
  · cases c with
    | swanSong => simp [Call.beforeTeardown] at hc
    | useVirgin =>
      exact Keeps.maintains useVirgin_keeps_answer
        (fun s s' h hs => producerIfPiped_of_answer s s' h hs)
    | blockVirgin =>
      exact Keeps.maintains blockVirgin_keeps_answer
        (fun s s' h hs => producerIfPiped_of_answer s s' h hs)
    | useAdapted m =>
      cases m with
      | none =>
        intro s hs
        simpa [Call.run, XactionRep.useAdapted] using hs
      | some m =>
        intro s _
        simp only [Call.beforeTeardown, Option.isNone_iff_eq_none] at hc
        exact useAdapted_producerIfPiped m hc s
    | noteBodyConsumerAborted => exact noteBodyConsumerAborted_maintains_producerIfPiped
    | noteAbContentDone atEnd space =>
      simp only [Call.run, XactionRep.noteAbContentDone]
      repeat' first
        | with_reducible exact maintains_getThis
        | with_reducible exact maintains_Must _
        | with_reducible exact moveAbContent_maintains_producerIfPiped _
        | ((with_reducible (refine maintains_update ?_)); intro _ h; exact h)
        | with_reducible refine maintains_bind ?_ (fun _ => ?_)
    | noteAbContentAvailable space =>
      simp only [Call.run, XactionRep.noteAbContentAvailable]
      repeat' first
        | with_reducible exact maintains_getThis
        | with_reducible exact maintains_Must _
        | with_reducible exact moveAbContent_maintains_producerIfPiped _
        | with_reducible refine maintains_bind ?_ (fun _ => ?_)
    | noteMoreBodySpaceAvailable space =>
      simp only [Call.run, XactionRep.noteMoreBodySpaceAvailable]
      repeat' first
        | with_reducible exact maintains_getThis
        | with_reducible exact maintains_Must _
        | with_reducible exact moveAbContent_maintains_producerIfPiped _
        | with_reducible refine maintains_bind ?_ (fun _ => ?_)
    | _ => exact absurd rfl hside

/-- No entry point changes what the cause, or the virgin message, is: a request or not. -/
theorem Call.keeps_request (c : Call) : Keeps XactionRep.request c.run := by
  cases c <;>
    (simp only [Call.run, XactionRep.master, XactionRep.start, XactionRep.swanSong,
        XactionRep.swanSongAdapted, XactionRep.swanSongVirgin, XactionRep.swanSongHistory,
        XactionRep.terminateMaster, Initiate.swanSong, XactionRep.useVirgin,
        XactionRep.useAdapted, XactionRep.blockVirgin, XactionRep.preserveVb,
        XactionRep.vbDiscard, XactionRep.vbMake, XactionRep.vbStopMaking, XactionRep.vbMakeMore,
        XactionRep.vbContentShift, XactionRep.noteAbContentDone,
        XactionRep.noteAbContentAvailable,
        XactionRep.noteMoreBodySpaceAvailable, XactionRep.noteBodyConsumerAborted,
        XactionRep.moveAbContent, stopProducingFor, tieBody,
        XactionRep.adaptationDelayed, XactionRep.adaptationAborted,
        XactionRep.noteMoreBodyDataAvailable, XactionRep.noteBodyProductionEnded,
        XactionRep.noteBodyProducerAborted, XactionRep.noteInitiatorAborted,
        XactionRep.sinkVb, XactionRep.forgetVb, stopConsumingFrom, callMaster, tellQueryAborted,
        sendAnswer, mustStop]
     repeat' first
        | with_reducible exact keeps_getThis
        | with_reducible exact keeps_Must _
        | with_reducible exact keeps_crashUnless _
        | with_reducible exact keeps_pure _
        | with_reducible exact vbContent_keeps _ _
        | with_reducible exact answer_keeps
        | ((with_reducible (refine keeps_update ?_)); intro _; rfl)
        | ((with_reducible (refine keeps_record ?_)); intro _; rfl)
        | with_reducible refine keeps_bind ?_ (fun _ => ?_)
        | split
        | dsimp only)

/-- Every entry point other than `start` and `swanSong` leaves the history and the id of
the recorded start as they were. -/
theorem Call.keeps_history (c : Call) (h1 : c ≠ .start) (h2 : c ≠ .swanSong) :
    Keeps (fun s => (s.adaptHistoryId, s.adaptLogHistory)) c.run := by
  cases c <;>
    first
    | exact absurd rfl h1
    | exact absurd rfl h2
    | (simp only [Call.run, XactionRep.master, XactionRep.useVirgin,
        XactionRep.useAdapted, XactionRep.blockVirgin, XactionRep.preserveVb,
        XactionRep.vbDiscard, XactionRep.vbMake, XactionRep.vbStopMaking, XactionRep.vbMakeMore,
        XactionRep.vbContentShift, XactionRep.noteAbContentDone,
        XactionRep.noteAbContentAvailable,
        XactionRep.noteMoreBodySpaceAvailable, XactionRep.noteBodyConsumerAborted,
        XactionRep.moveAbContent, stopProducingFor, tieBody,
        XactionRep.adaptationDelayed, XactionRep.adaptationAborted,
        XactionRep.noteMoreBodyDataAvailable, XactionRep.noteBodyProductionEnded,
        XactionRep.noteBodyProducerAborted, XactionRep.noteInitiatorAborted,
        XactionRep.sinkVb, XactionRep.forgetVb, stopConsumingFrom, callMaster, tellQueryAborted,
        sendAnswer, mustStop]
       repeat' first
        | with_reducible exact keeps_getThis
        | with_reducible exact keeps_Must _
        | with_reducible exact keeps_crashUnless _
        | with_reducible exact keeps_pure _
        | with_reducible exact vbContent_keeps _ _
        | with_reducible exact answer_keeps
        | ((with_reducible (refine keeps_update ?_)); intro _; rfl)
        | ((with_reducible (refine keeps_record ?_)); intro _; rfl)
        | with_reducible refine keeps_bind ?_ (fun _ => ?_)
        | split
        | dsimp only)

/-- The function `start` maintains, returning or throwing, that a recorded start comes
with the history it was recorded in. -/
theorem start_maintains_startRecorded :
    Maintains (fun s => s.startRecorded = true) XactionRep.start := by
  simp only [XactionRep.start, callMaster]
  repeat' first
    | with_reducible exact maintains_getThis
    | with_reducible exact maintains_Must _
    | with_reducible exact maintains_crashUnless _
    | with_reducible exact maintains_pure _
    | ((with_reducible (refine maintains_update ?_)); intro _ h; exact h)
    | ((with_reducible (refine maintains_update ?_)); intro _ _;
        simp [XactionRep.startRecorded])
    | ((with_reducible (refine maintains_record ?_)); intro _ h; exact h)
    | with_reducible refine maintains_bind ?_ (fun _ => ?_)
    | split
    | dsimp only

/-- Every entry point made before teardown maintains, returning or throwing, that a
recorded start comes with the history it was recorded in. -/
theorem Call.maintains_startRecorded (c : Call) (hc : c.beforeTeardown = true) :
    Maintains (fun s => s.startRecorded = true) c.run := by
  by_cases h1 : c = .start
  · subst h1
    exact start_maintains_startRecorded
  · have h2 : c ≠ .swanSong := by
      intro h
      subst h
      simp [Call.beforeTeardown] at hc
    exact Keeps.maintains (Call.keeps_history c h1 h2) (fun s s' h hs => by
      simp only [Prod.mk.injEq] at h
      simpa [XactionRep.startRecorded, h.1, h.2] using hs)

/-- When `start` returns, the cause, or the virgin message, is a request. -/
theorem start_succeeded_request (s : XactionRep) (h : (XactionRep.start s).succeeded = true) :
    s.request = true := by
  cases hreq : s.request with
  | true => rfl
  | false =>
    cases hm : s.theMaster <;>
      cases hp : s.theVirginRep.theMessage.body_pipe <;>
      simp [XactionRep.start, hm, hp, hreq, Result.succeeded] at h

/-- The three conditions under which `swanSong` returns hold after any sequence of entry
points made before teardown, returning or throwing. -/
theorem runCalls_tearable (cs : List Call) (s : XactionRep)
    (hcs : ∀ c ∈ cs, c.beforeTeardown = true)
    (hr : s.request = true) (hp : s.producerIfPiped = true) (hh : s.startRecorded = true) :
    (runCalls cs s).request = true ∧ (runCalls cs s).producerIfPiped = true ∧
      (runCalls cs s).startRecorded = true := by
  induction cs generalizing s with
  | nil => exact ⟨hr, hp, hh⟩
  | cons c cs ih =>
    have hc : c.beforeTeardown = true := hcs c (List.mem_cons_self _ _)
    exact ih (c.run s).state (fun d hd => hcs d (List.mem_cons_of_mem _ hd))
      ((Call.keeps_request c s).trans hr)
      (Call.maintains_producerIfPiped c hc s hp)
      (Call.maintains_startRecorded c hc s hh)

/-! ## C21: a disposition call that fails after its entry guard -/

/-- No entry point takes `proxyingAb` back to `opUndecided`, returning or throwing. -/
theorem Call.maintains_decided (c : Call) :
    Maintains (fun s => s.proxyingAb ≠ .opUndecided) c.run := by
  have hans : Maintains (fun s => s.proxyingAb ≠ .opUndecided) XactionRep.answer := by
    intro s hs
    simp only [XactionRep.answer]
    split <;> exact hs
  by_cases hside : c.onAdaptedSide = false
  · exact Keeps.maintains (Call.keeps_adaptedSide c hside) (fun s s' h hs => by
      simp only [XactionRep.adaptedSide, Prod.mk.injEq] at h
      rw [h.1]
      exact hs)
  · cases c <;>
      first
      | exact absurd rfl hside
      | (simp only [Call.run, XactionRep.swanSong,
          XactionRep.swanSongAdapted, XactionRep.swanSongVirgin, XactionRep.swanSongHistory,
          XactionRep.terminateMaster, Initiate.swanSong, XactionRep.useVirgin,
          XactionRep.useAdapted, XactionRep.blockVirgin, XactionRep.preserveVb,
          XactionRep.noteAbContentDone, XactionRep.noteAbContentAvailable,
          XactionRep.noteMoreBodySpaceAvailable, XactionRep.noteBodyConsumerAborted,
          XactionRep.moveAbContent, stopProducingFor, tieBody,
          XactionRep.sinkVb, XactionRep.forgetVb, stopConsumingFrom, callMaster,
          tellQueryAborted, sendAnswer]
         repeat' first
          | with_reducible exact maintains_getThis
          | with_reducible exact maintains_Must _
          | with_reducible exact maintains_crashUnless _
          | with_reducible exact maintains_pure _
          | with_reducible exact hans
          | ((with_reducible (refine maintains_update ?_)); intro _ h; exact h)
          | ((with_reducible (refine maintains_update ?_)); intro _ _; simp)
          | ((with_reducible (refine maintains_record ?_)); intro _ h; exact h)
          | with_reducible refine maintains_bind ?_ (fun _ => ?_)
          | split
          | dsimp only)

/-- Once the decision is made it stays made over any sequence of entry points. -/
theorem runCalls_decided (cs : List Call) (s : XactionRep) (h : s.proxyingAb ≠ .opUndecided) :
    (runCalls cs s).proxyingAb ≠ .opUndecided := by
  induction cs generalizing s with
  | nil => exact h
  | cons c cs ih => exact ih (c.run s).state (Call.maintains_decided c s h)

/-- C21: in every state with `proxyingAb == opUndecided` in which the virgin header's body
pipe has a non-zero `consumedSize`, `useVirgin` ends in the `Must` failure of `preserveVb`
and leaves the object as it was except for `proxyingAb`, which is `opNever`: nothing is
added to the trace, so no answer is sent (the clone is made only after `preserveVb`), and
`makingVb`, the virgin message and the consumer registration are as before the call.  The
object is not the one before the call, and after any further sequence of entry-point calls
every `useVirgin`, `useAdapted` and `blockVirgin` is rejected by its `Must` without adding
to the trace. -/
theorem useVirgin_failure_not_rolled_back (s : XactionRep) (p : BodyPipe)
    (hu : s.proxyingAb = .opUndecided)
    (hp : s.theVirginRep.theMessage.header.body_pipe = some p) (hc : p.consumedSize ≠ 0) :
    XactionRep.useVirgin s = .failed .mustFailed { s with proxyingAb := .opNever } ∧
    (XactionRep.useVirgin s).rejected = true ∧
    (XactionRep.useVirgin s).state.log = s.log ∧
    answersIn (XactionRep.useVirgin s).state.log = answersIn s.log ∧
    (XactionRep.useVirgin s).state.proxyingAb = .opNever ∧
    (XactionRep.useVirgin s).state ≠ s ∧
    (XactionRep.useVirgin s).state.makingVb = s.makingVb ∧
    (XactionRep.useVirgin s).state.theVirginRep = s.theVirginRep ∧
    (XactionRep.useVirgin s).state.stillConsuming = s.stillConsuming ∧
    (∀ (cs : List Call) (d : Disposition),
      (d.run (runCalls cs (XactionRep.useVirgin s).state)).rejected = true ∧
      (d.run (runCalls cs (XactionRep.useVirgin s).state)).succeeded = false ∧
      (d.run (runCalls cs (XactionRep.useVirgin s).state)).state.log
        = (runCalls cs (XactionRep.useVirgin s).state).log) := by
  have h1 : XactionRep.useVirgin s = .failed .mustFailed { s with proxyingAb := .opNever } := by
    simp [XactionRep.useVirgin, XactionRep.preserveVb, hu, hp, hc]
  refine ⟨h1, ?_, ?_, ?_, ?_, ?_, ?_, ?_, ?_, ?_⟩
  · simp [h1, Result.rejected]
  · simp [h1]
  · simp [h1]
  · simp [h1]
  · intro h
    have h2 : (XactionRep.useVirgin s).state.proxyingAb = s.proxyingAb := by rw [h]
    simp [h1, hu] at h2
  · simp [h1]
  · simp [h1]
  · simp [h1, XactionRep.stillConsuming]
  · intro cs d
    have hd : (runCalls cs (XactionRep.useVirgin s).state).proxyingAb ≠ .opUndecided :=
      runCalls_decided cs _ (by simp [h1])
    obtain ⟨r1, r2, -⟩ := Disposition.run_decided d _ hd
    exact ⟨r1, Result.not_succeeded_of_rejected _ r1, r2⟩

/-- C21 at a sample state: the sample transaction after `vbMake` and a `vbContentShift` of
two bytes, so that the virgin pipe has `consumedSize == 2` and `makingVb == opOn`;
`useVirgin` is rejected, leaves `proxyingAb == opNever` with `makingVb == opOn` and the
transaction still the consumer, sends nothing, and a later `blockVirgin` is rejected. -/
theorem useVirgin_failure_not_rolled_back_witness :
    (XactionRep.useVirgin (runCalls [.vbMake, .vbContentShift 2] Sample.transaction)).rejected
      = true ∧
    (XactionRep.useVirgin (runCalls [.vbMake, .vbContentShift 2]
      Sample.transaction)).state.proxyingAb = .opNever ∧
    (XactionRep.useVirgin (runCalls [.vbMake, .vbContentShift 2]
      Sample.transaction)).state.makingVb = .opOn ∧
    (XactionRep.useVirgin (runCalls [.vbMake, .vbContentShift 2]
      Sample.transaction)).state.stillConsuming = true ∧
    answersIn (XactionRep.useVirgin (runCalls [.vbMake, .vbContentShift 2]
      Sample.transaction)).state.log = [] ∧
    (Disposition.blockVirgin.run (runCalls [.vbMakeMore]
      (XactionRep.useVirgin (runCalls [.vbMake, .vbContentShift 2]
        Sample.transaction)).state)).rejected = true :=
  ⟨(useVirgin_failure_not_rolled_back (runCalls [.vbMake, .vbContentShift 2] Sample.transaction)
      { Sample.virginPipe with consumedSize := 2, consuming := true }
      (by decide) (by decide) (by decide)).2.1,
   by decide, by decide, by decide, by decide,
   ((useVirgin_failure_not_rolled_back (runCalls [.vbMake, .vbContentShift 2] Sample.transaction)
      { Sample.virginPipe with consumedSize := 2, consuming := true }
      (by decide) (by decide) (by decide)).2.2.2.2.2.2.2.2.2 [.vbMakeMore] .blockVirgin).1⟩

/-! ## Teardown where no adapted message was replaced -/

theorem producerStopsIn_append (xs ys : List Effect) :
    producerStopsIn (xs ++ ys) = producerStopsIn xs + producerStopsIn ys := by
  induction xs with
  | nil => simp [producerStopsIn]
  | cons e es ih =>
    cases e <;> simp [producerStopsIn, ih]
    omega

theorem producerAccounted_of (s s' : XactionRep) (ha : s'.theAnswerRep = s.theAnswerRep)
    (hl : (tiesIn s'.log, producerStopsIn s'.log) = (tiesIn s.log, producerStopsIn s.log))
    (h : s.producerAccounted) : s'.producerAccounted := by
  simp only [Prod.mk.injEq] at hl
  simpa [XactionRep.producerAccounted, XactionRep.producerIfPiped, XactionRep.registeredProducer,
    XactionRep.adaptedPipe, XactionRep.stillProducing, ha, hl.1, hl.2] using h

/-- The entry points that neither tie nor stop producing leave the counts of both calls in
the trace as they were. -/
theorem Call.keeps_producerTrace (c : Call)
    (h : c.onAdaptedSide = false ∨ c = .useVirgin ∨ c = .blockVirgin) :
    Keeps (fun s => (tiesIn s.log, producerStopsIn s.log)) c.run := by
  have hrec : ∀ e : Effect, e ≠ .tieBody → (∀ b, e ≠ .stopProducingFor b) → ∀ s : XactionRep,
      (fun s : XactionRep => (tiesIn s.log, producerStopsIn s.log))
        { s with log := s.log ++ [e] } =
      (fun s : XactionRep => (tiesIn s.log, producerStopsIn s.log)) s := by
    intro e h1 h2 s
    cases e <;> first
      | exact absurd rfl h1
      | exact absurd rfl (h2 _)
      | simp [tiesIn_append, producerStopsIn_append, tiesIn, producerStopsIn]
  cases c <;>
    first
    | (exfalso; simp [Call.onAdaptedSide] at h; done)
    | (simp only [Call.run, XactionRep.master, XactionRep.start, XactionRep.useVirgin,
        XactionRep.blockVirgin, XactionRep.preserveVb,
        XactionRep.vbDiscard, XactionRep.vbMake, XactionRep.vbStopMaking, XactionRep.vbMakeMore,
        XactionRep.vbContentShift,
        XactionRep.adaptationDelayed, XactionRep.adaptationAborted,
        XactionRep.noteMoreBodyDataAvailable, XactionRep.noteBodyProductionEnded,
        XactionRep.noteBodyProducerAborted, XactionRep.noteInitiatorAborted,
        XactionRep.sinkVb, XactionRep.forgetVb, stopConsumingFrom, callMaster, tellQueryAborted,
        sendAnswer, mustStop]
       repeat' first
        | with_reducible exact keeps_getThis
        | with_reducible exact keeps_Must _
        | with_reducible exact keeps_crashUnless _
        | with_reducible exact keeps_pure _
        | with_reducible exact vbContent_keeps _ _
        | ((with_reducible (refine keeps_update ?_)); intro _; rfl)
        | ((with_reducible (refine keeps_record ?_)); exact hrec _ (by simp) (by simp))
        | with_reducible refine keeps_bind ?_ (fun _ => ?_)
        | split
        | dsimp only)

/-- The drain keeps every registration accounted for, whether it returns or throws. -/
theorem moveAbContent_maintains_producerAccounted (space : Nat) :
    Maintains XactionRep.producerAccounted (XactionRep.moveAbContent space) := by
  intro s hs
  obtain ⟨master, key, virgin, cause, ans, makingVb,
    proxyingAb, hid, vbf, abf, abe, ini, stop, hist, log⟩ := s
  by_cases hon : proxyingAb = .opOn
  · subst hon
    cases master with
    | none => simpa [XactionRep.moveAbContent] using hs
    | some x =>
      cases ans with
      | none =>
        simp only [XactionRep.moveAbContent, apply_bind, getThis_apply, Result.andThen_ok,
          Must_apply, decide_True, if_true]
        by_cases h0 : x.abContent.length = 0 ∧ abf = true
        · simpa [h0, XactionRep.answer] using hs
        · by_cases h1 : 0 < x.abContent.length
          · simp only [h0, h1, if_false, if_true]
            simpa [XactionRep.answer] using hs
          · simp only [h0, h1, if_false]
            simpa using hs
      | some rep =>
        obtain ⟨⟨⟨id, isReq, cloneOf, pipe⟩, attached⟩, bodyRep⟩ := rep
        simp only [XactionRep.moveAbContent, apply_bind, getThis_apply, Result.andThen_ok,
          Must_apply, decide_True, if_true]
        by_cases h0 : x.abContent.length = 0 ∧ abf = true
        · rcases pipe with _ | p <;> cases attached <;>
            simp [h0, XactionRep.answer, stopProducingFor, Message.body_pipe,
              XactionRep.onAnswer, MessageRep.onMessage, Message.setPipe, Message.resetPipe,
              XactionRep.producerAccounted, XactionRep.producerIfPiped,
              MessageRep.producerIfPiped, XactionRep.registeredProducer, XactionRep.adaptedPipe,
              XactionRep.stillProducing, BodyPipe.clearProducer, tiesIn_append,
              producerStopsIn_append, tiesIn, producerStopsIn] at hs ⊢
          · exact hs
          · exact hs
          · exact hs
          · obtain ⟨h1, h2⟩ := hs
            simp [h1] at h2
            omega
        · by_cases h1 : 0 < x.abContent.length
          · simp only [h0, h1, if_false, if_true]
            have hn2 : ¬ (x.abContent = []) := by
              intro h
              simp [h] at h1
            by_cases hsp : space = 0 <;> rcases pipe with _ | p <;> cases attached <;>
              simp [XactionRep.answer, Message.body_pipe, XactionRep.onAnswer,
                MessageRep.onMessage, Message.setPipe, BodyPipe.putMoreData,
                XactionRep.producerAccounted, XactionRep.producerIfPiped,
                MessageRep.producerIfPiped, XactionRep.registeredProducer,
                XactionRep.adaptedPipe, XactionRep.stillProducing, tiesIn_append,
                producerStopsIn_append, tiesIn, producerStopsIn, hn2, hsp] at hs ⊢ <;>
              exact hs
          · simp only [h0, h1, if_false]
            simpa using hs
  · simpa [XactionRep.moveAbContent, hon] using hs

theorem noteBodyConsumerAborted_maintains_producerAccounted :
    Maintains XactionRep.producerAccounted XactionRep.noteBodyConsumerAborted := by
  intro s hs
  obtain ⟨master, key, virgin, cause, ans, makingVb,
    proxyingAb, hid, vbf, abf, abe, ini, stop, hist, log⟩ := s
  by_cases hon : proxyingAb = .opOn
  · subst hon
    rcases ans with _ | ⟨⟨⟨id, isReq, cloneOf, pipe⟩, attached⟩, bodyRep⟩
    · simpa [XactionRep.noteBodyConsumerAborted, XactionRep.answer] using hs
    · rcases pipe with _ | p <;> cases attached <;> cases master <;>
        simp [XactionRep.noteBodyConsumerAborted, XactionRep.answer, stopProducingFor,
          Message.body_pipe, XactionRep.onAnswer, MessageRep.onMessage, Message.setPipe,
          Message.resetPipe, callMaster, XactionRep.producerAccounted,
          XactionRep.producerIfPiped, MessageRep.producerIfPiped,
          XactionRep.registeredProducer, XactionRep.adaptedPipe, XactionRep.stillProducing,
          BodyPipe.clearProducer, tiesIn_append, producerStopsIn_append, tiesIn,
          producerStopsIn] at hs ⊢ <;>
        first
          | exact hs
          | (obtain ⟨h1, h2⟩ := hs
             simp [h1] at h2
             omega)
  · simpa [XactionRep.noteBodyConsumerAborted, hon] using hs

/-- A `useAdapted` of a message that is new to the transaction and whose pipe pointer is
not set, made while no adapted message is set, keeps every registration accounted for,
whether it returns or throws. -/
theorem useAdapted_producerAccounted (m : MessageRep) (s : XactionRep)
    (hm : m.theMessage.body_pipe = none) (hf : m.theMessage.header.fresh = true)
    (hnone : s.theAnswerRep = none) (hs : s.producerAccounted) :
    (XactionRep.useAdapted (some m) s).state.producerAccounted := by
  obtain ⟨master, key, virgin, cause, ans, makingVb,
    proxyingAb, hid, vbf, abf, abe, ini, stop, hist, log⟩ := s
  obtain ⟨⟨⟨id, isReq, cloneOf, pipe⟩, attached⟩, bodyRep⟩ := m
  simp only at hnone
  subst hnone
  have hl : tiesIn log = producerStopsIn log := by
    simpa [XactionRep.producerAccounted, XactionRep.registeredProducer, XactionRep.adaptedPipe]
      using hs.2.2
  by_cases hu : proxyingAb = .opUndecided
  · subst hu
    rcases pipe with _ | p <;> cases attached <;> cases bodyRep <;> cases master <;>
      simp [Message.body_pipe] at hm <;>
      simp [HttpMsg.fresh, BodyPipe.unregistered] at hf <;>
      simp [XactionRep.useAdapted, XactionRep.answer, sendAnswer, tieBody,
        Message.body_pipe, XactionRep.onAnswer, MessageRep.onMessage, Message.setPipe,
        callMaster, XactionRep.producerAccounted, XactionRep.producerIfPiped,
        MessageRep.producerIfPiped, XactionRep.registeredProducer, XactionRep.adaptedPipe,
        XactionRep.stillProducing, BodyPipe.create, tiesIn_append, producerStopsIn_append,
        tiesIn, producerStopsIn, hl, hf]
  · rcases pipe with _ | p <;> cases attached <;>
      simp [Message.body_pipe] at hm <;>
      simp [HttpMsg.fresh, BodyPipe.unregistered] at hf <;>
      simp [XactionRep.useAdapted, hu, XactionRep.producerAccounted,
        XactionRep.producerIfPiped, MessageRep.producerIfPiped, Message.body_pipe,
        XactionRep.registeredProducer, XactionRep.adaptedPipe, XactionRep.stillProducing, hl, hf]

/-- Every entry point made before teardown, with a message new to the transaction and
without replacing an adapted message, keeps every registration accounted for, whether it
returns or throws. -/
theorem Call.run_producerAccounted (c : Call) (s : XactionRep)
    (hc : c.beforeTeardown = true) (hf : c.fresh = true) (hset : answerSetOnce [c] s = true)
    (hs : s.producerAccounted) : (c.run s).state.producerAccounted := by
  by_cases hside : c.onAdaptedSide = false
  · have hk := Call.keeps_adaptedSide c hside s
    simp only [XactionRep.adaptedSide, Prod.mk.injEq] at hk
    exact producerAccounted_of s _ hk.2 (Call.keeps_producerTrace c (Or.inl hside) s) hs
  · cases c with
    | swanSong => simp [Call.beforeTeardown] at hc
    | useVirgin =>
      exact producerAccounted_of s _ (useVirgin_keeps_answer s)
        (Call.keeps_producerTrace .useVirgin (Or.inr (Or.inl rfl)) s) hs
    | blockVirgin =>
      exact producerAccounted_of s _ (blockVirgin_keeps_answer s)
        (Call.keeps_producerTrace .blockVirgin (Or.inr (Or.inr rfl)) s) hs
    | useAdapted m =>
      cases m with
      | none => simpa [Call.run, XactionRep.useAdapted] using hs
      | some m =>
        simp only [Call.beforeTeardown, Option.isNone_iff_eq_none] at hc
        simp only [Call.fresh] at hf
        simp only [answerSetOnce, Bool.and_true, Option.isNone_iff_eq_none] at hset
        exact useAdapted_producerAccounted m s hc hf hset hs
    | noteBodyConsumerAborted => exact noteBodyConsumerAborted_maintains_producerAccounted s hs
    | noteAbContentDone atEnd space =>
      refine (?_ : Maintains XactionRep.producerAccounted _) s hs
      simp only [Call.run, XactionRep.noteAbContentDone]
      repeat' first
        | with_reducible exact maintains_getThis
        | with_reducible exact maintains_Must _
        | with_reducible exact moveAbContent_maintains_producerAccounted _
        | ((with_reducible (refine maintains_update ?_)); intro _ h; exact h)
        | with_reducible refine maintains_bind ?_ (fun _ => ?_)
    | noteAbContentAvailable space =>
      refine (?_ : Maintains XactionRep.producerAccounted _) s hs
      simp only [Call.run, XactionRep.noteAbContentAvailable]
      repeat' first
        | with_reducible exact maintains_getThis
        | with_reducible exact maintains_Must _
        | with_reducible exact moveAbContent_maintains_producerAccounted _
        | with_reducible refine maintains_bind ?_ (fun _ => ?_)
    | noteMoreBodySpaceAvailable space =>
      refine (?_ : Maintains XactionRep.producerAccounted _) s hs
      simp only [Call.run, XactionRep.noteMoreBodySpaceAvailable]
      repeat' first
        | with_reducible exact maintains_getThis
        | with_reducible exact maintains_Must _
        | with_reducible exact moveAbContent_maintains_producerAccounted _
        | with_reducible refine maintains_bind ?_ (fun _ => ?_)
    | _ => exact absurd rfl hside

theorem runCalls_producerAccounted (cs : List Call) (s : XactionRep)
    (hcs : ∀ c ∈ cs, c.beforeTeardown = true ∧ c.fresh = true)
    (hset : answerSetOnce cs s = true) (hs : s.producerAccounted) :
    (runCalls cs s).producerAccounted := by
  induction cs generalizing s with
  | nil => exact hs
  | cons c cs ih =>
    have hc := hcs c (List.mem_cons_self _ _)
    simp only [answerSetOnce, Bool.and_eq_true] at hset
    exact ih (c.run s).state (fun d hd => hcs d (List.mem_cons_of_mem _ hd)) hset.2
      (Call.run_producerAccounted c s hc.1 hc.2
        (by simp only [answerSetOnce, Bool.and_true]; exact hset.1) hs)

/-- The first block of `swanSong` undoes the registration that is still open. -/
theorem swanSongAdapted_accounts (s : XactionRep) (h : s.producerAccounted) :
    ∃ s1, XactionRep.swanSongAdapted s = .ok () s1 ∧ s1.registeredProducer = false ∧
      tiesIn s1.log = producerStopsIn s1.log := by
  obtain ⟨master, key, virgin, cause, ans, makingVb,
    proxyingAb, hid, vbf, abf, abe, ini, stop, hist, log⟩ := s
  rcases ans with _ | ⟨⟨⟨id, isReq, cloneOf, pipe⟩, attached⟩, bodyRep⟩
  · simpa [XactionRep.swanSongAdapted, XactionRep.producerAccounted,
      XactionRep.registeredProducer, XactionRep.adaptedPipe] using h.2.2
  · rcases pipe with _ | p <;> cases attached <;>
      simp [XactionRep.producerAccounted, XactionRep.producerIfPiped,
        MessageRep.producerIfPiped, XactionRep.registeredProducer, XactionRep.adaptedPipe,
        XactionRep.stillProducing, Message.body_pipe] at h <;>
      simp [XactionRep.swanSongAdapted, XactionRep.answer, XactionRep.registeredProducer,
        XactionRep.adaptedPipe, Message.body_pipe, stopProducingFor, XactionRep.onAnswer,
        MessageRep.onMessage, Message.setPipe, BodyPipe.clearProducer, h, tiesIn_append,
        producerStopsIn_append, tiesIn, producerStopsIn]

theorem swanSong_rest_keeps_producerTrace :
    Keeps (fun s => (s.theAnswerRep, tiesIn s.log, producerStopsIn s.log)) (do
      XactionRep.swanSongVirgin
      XactionRep.terminateMaster
      XactionRep.swanSongHistory
      Initiate.swanSong : Job Unit) := by
  have hrec : ∀ e : Effect, e ≠ .tieBody → (∀ b, e ≠ .stopProducingFor b) → ∀ s : XactionRep,
      (fun s : XactionRep => (s.theAnswerRep, tiesIn s.log, producerStopsIn s.log))
        { s with log := s.log ++ [e] } =
      (fun s : XactionRep => (s.theAnswerRep, tiesIn s.log, producerStopsIn s.log)) s := by
    intro e h1 h2 s
    cases e <;> first
      | exact absurd rfl h1
      | exact absurd rfl (h2 _)
      | simp [tiesIn_append, producerStopsIn_append, tiesIn, producerStopsIn]
  simp only [XactionRep.swanSongVirgin, XactionRep.terminateMaster, XactionRep.swanSongHistory,
    Initiate.swanSong, stopConsumingFrom, tellQueryAborted, sendAnswer]
  repeat' first
    | with_reducible exact keeps_getThis
    | with_reducible exact keeps_Must _
    | with_reducible exact keeps_crashUnless _
    | with_reducible exact keeps_pure _
    | ((with_reducible (refine keeps_update ?_)); intro _; rfl)
    | ((with_reducible (refine keeps_record ?_)); exact hrec _ (by simp) (by simp))
    | with_reducible refine keeps_bind ?_ (fun _ => ?_)
    | split
    | dsimp only

/-- After `swanSong`, returning or throwing, from a state in which every registration is
accounted for: every `tieBody` in the trace has its `stopProducingFor`, and the adapted
message's pipe does not have the transaction as producer. -/
theorem swanSong_accounts (s : XactionRep) (h : s.producerAccounted) :
    tiesIn (XactionRep.swanSong s).state.log = producerStopsIn (XactionRep.swanSong s).state.log ∧
    (XactionRep.swanSong s).state.registeredProducer = false := by
  obtain ⟨s1, hA, hr, hl⟩ := swanSongAdapted_accounts s h
  have hk := swanSong_rest_keeps_producerTrace s1
  have hrun : XactionRep.swanSong s = (do
      XactionRep.swanSongVirgin
      XactionRep.terminateMaster
      XactionRep.swanSongHistory
      Initiate.swanSong : Job Unit) s1 := by
    unfold XactionRep.swanSong
    rw [apply_bind, hA]
    rfl
  rw [hrun]
  simp only [Prod.mk.injEq] at hk
  refine ⟨by rw [hk.2.1, hk.2.2, hl], ?_⟩
  have hr' := hr
  unfold XactionRep.registeredProducer XactionRep.adaptedPipe at hr' ⊢
  rw [hk.1]
  exact hr'

/-- Teardown where no adapted message was replaced: take a transaction with no adapted
message, no recorded start and every earlier producer registration undone, as the
constructor leaves it, on which `start` returns, and then any sequence of entry-point calls
other than `swanSong`, each returning or throwing, part-way rejected calls included, in
which `useAdapted` is only passed messages that are new to the transaction and whose pipe
pointer is not set, and only while no adapted message is set.  In the state reached
`swanSong` returns; afterwards every `tieBody` of the trace has its `stopProducingFor`,
the pipe of the adapted message does not have the transaction as producer, whether read
from the header or through the working pointer, the transaction is no consumer of the
virgin pipe and holds no adapter handle, and it has recorded the finish in the history if
and only if a start was recorded (`adaptHistoryId >= 0`), with that id. -/
theorem teardown_without_replaced_answer (s0 : XactionRep) (cs : List Call)
    (hans : s0.theAnswerRep = none) (hid : s0.adaptHistoryId < 0)
    (hlog : tiesIn s0.log = producerStopsIn s0.log)
    (hstart : (XactionRep.start s0).succeeded = true)
    (hcs : ∀ c ∈ cs, c.beforeTeardown = true ∧ c.fresh = true)
    (hset : answerSetOnce cs (XactionRep.start s0).state = true) :
    ∃ s', XactionRep.swanSong (runCalls cs (XactionRep.start s0).state) = .ok () s' ∧
      tiesIn s'.log = producerStopsIn s'.log ∧ s'.registeredProducer = false ∧
      s'.stillProducing = false ∧ s'.stillConsuming = false ∧ s'.theMaster = none ∧
      finishesIn s'.log = finishesIn (runCalls cs (XactionRep.start s0).state).log ++
        if 0 ≤ (runCalls cs (XactionRep.start s0).state).adaptHistoryId
        then [(runCalls cs (XactionRep.start s0).state).adaptHistoryId] else [] := by
  have hr : (XactionRep.start s0).state.request = true :=
    (Call.keeps_request .start s0).trans (start_succeeded_request s0 hstart)
  have hk := Call.keeps_adaptedSide .start rfl s0
  simp only [XactionRep.adaptedSide, Prod.mk.injEq, Call.run] at hk
  have hp : (XactionRep.start s0).state.producerIfPiped = true := by
    simp [XactionRep.producerIfPiped, hk.2, hans]
  have hh : (XactionRep.start s0).state.startRecorded = true :=
    start_maintains_startRecorded s0 (by simp [XactionRep.startRecorded, hid])
  obtain ⟨h1, h2, h3⟩ := runCalls_tearable cs _ (fun c hc => (hcs c hc).1) hr hp hh
  have hacc0 : s0.producerAccounted := by
    simp [XactionRep.producerAccounted, XactionRep.producerIfPiped,
      XactionRep.registeredProducer, XactionRep.adaptedPipe, hans, hlog]
  have hacc1 : (XactionRep.start s0).state.producerAccounted :=
    producerAccounted_of s0 _ hk.2 (Call.keeps_producerTrace .start (Or.inl rfl) s0) hacc0
  have hacc := runCalls_producerAccounted cs _ hcs hset hacc1
  obtain ⟨s', e, p', c', m', f'⟩ := swanSong_returns _ h1 h2 h3
  have ha := swanSong_accounts _ hacc
  rw [e] at ha
  exact ⟨s', e, ha.1, ha.2, p', c', m', f'⟩

/-- Two sample runs of the sample transaction with a history, after `master` and `start`.
In the first the module reads the virgin body, supplies an adapted message with a body and
is drained, and a late `useVirgin` is rejected; `swanSong` returns with the one `tieBody`
matched by one `stopProducingFor`.  In the second `useVirgin` fails part-way after two
virgin bytes were consumed and a later `useAdapted` is rejected after storing its message;
`swanSong` returns as well.  Both leave the transaction neither producer nor consumer,
without adapter handle. -/
theorem teardown_without_replaced_answer_witness :
    (∃ s', XactionRep.swanSong
        (runCalls [.vbMake, .useAdapted (some Sample.adaptedMessage),
            .noteAbContentAvailable 3, .useVirgin]
          (XactionRep.start (XactionRep.master (some Sample.adapter)
            (XactionRep.construct Sample.virginHeader none "ecap://svc"
              (some { started := 0, finished := [] }))).state).state) = .ok () s' ∧
      tiesIn s'.log = producerStopsIn s'.log ∧ s'.registeredProducer = false ∧
      s'.stillConsuming = false ∧ s'.theMaster = none) ∧
    (∃ s', XactionRep.swanSong
        (runCalls [.vbMake, .vbContentShift 2, .useVirgin,
            .useAdapted (some Sample.adaptedMessage)]
          (XactionRep.start (XactionRep.master (some Sample.adapter)
            (XactionRep.construct Sample.virginHeader none "ecap://svc"
              (some { started := 0, finished := [] }))).state).state) = .ok () s' ∧
      tiesIn s'.log = producerStopsIn s'.log ∧ s'.registeredProducer = false ∧
      s'.stillConsuming = false ∧ s'.theMaster = none) ∧
    tiesIn (XactionRep.swanSong
        (runCalls [.vbMake, .useAdapted (some Sample.adaptedMessage),
            .noteAbContentAvailable 3, .useVirgin]
          (XactionRep.start (XactionRep.master (some Sample.adapter)
            (XactionRep.construct Sample.virginHeader none "ecap://svc"
              (some { started := 0, finished := [] }))).state).state)).state.log = 1 := by
  refine ⟨?_, ?_, by decide⟩
  · obtain ⟨s', h1, h2, h3, -, h5, h6, -⟩ :=
      teardown_without_replaced_answer
        (XactionRep.master (some Sample.adapter)
          (XactionRep.construct Sample.virginHeader none "ecap://svc"
            (some { started := 0, finished := [] }))).state
        [.vbMake, .useAdapted (some Sample.adaptedMessage), .noteAbContentAvailable 3,
          .useVirgin]
        (by decide) (by decide) (by decide) (by decide) (by decide) (by decide)
    exact ⟨s', h1, h2, h3, h5, h6⟩
  · obtain ⟨s', h1, h2, h3, -, h5, h6, -⟩ :=
      teardown_without_replaced_answer
        (XactionRep.master (some Sample.adapter)
          (XactionRep.construct Sample.virginHeader none "ecap://svc"
            (some { started := 0, finished := [] }))).state
        [.vbMake, .vbContentShift 2, .useVirgin, .useAdapted (some Sample.adaptedMessage)]
        (by decide) (by decide) (by decide) (by decide) (by decide) (by decide)
    exact ⟨s', h1, h2, h3, h5, h6⟩

end Ecap
